import Mathlib

/-!
# Zion governance modules

A shallow embedding of `modules/node_manager/storage.go` and
`modules/node_manager/hooks.go`, and of the storage helpers of the economic,
cross chain manager, side chain manager, info sync and proposal manager
modules.  The key-value store is a total map from byte strings to byte strings
in which the empty string stands for a key without a value and for an empty
value, which `customGet` treats alike, together with the set of the keys that
hold an empty value, which the `Get` of the database tells from nil.  RLP is an
external library: it enters as a codec with a round-trip law.  Go errors are
values of `Err`; a Go panic is the distinguished value `Err.panic`, which is
never wrapped.
-/

namespace Zion

/-- Byte strings; every element stands for one byte. -/
abbrev Bytes := List Nat

/-- The type `common.Address`. -/
abbrev Address := Bytes

/-- The type `common.Hash`. -/
abbrev Hash := Bytes

/-- The type `Dec`, "arbitrary-precision decimal": a big integer wrapped in a
struct (`NewDecFromBigInt` wraps, `BigInt` unwraps). -/
abbrev Dec := Int

/-- Outcomes other than success.  `eof` is the sentinel `ErrEof`, `decode` and
`encode` are errors of the RLP library, `wrapped` is any error built with
`fmt.Errorf`, `panic` is a Go panic, and `store` is the error of a write that
the database refuses. -/
inductive Err where
  | eof
  | decode
  | encode
  | wrapped
  | panic
  | store
  deriving DecidableEq, Repr

/-- Result of a call that returns `(value, error)` or panics. -/
abbrev Res (α : Type) := Except Err α

/-- The effect of `fmt.Errorf("...: %v", err)` on a failed call: an error value
is replaced by a fresh one, a panic keeps unwinding. -/
def wrapErr {α : Type} : Res α → Res α
  | .ok a => .ok a
  | .error .panic => .error .panic
  | .error _ => .error .wrapped

/-- The RLP library as seen by the storage layer: `rlp.EncodeToBytes` and
`rlp.DecodeBytes` for one Go type.  Encoding never yields the empty string and
decoding an encoding gives the value back. -/
structure Codec (α : Type) where
  enc : α → Option Bytes
  dec : Bytes → Option α
  dec_enc : ∀ a b, enc a = some b → dec b = some a
  enc_ne_nil : ∀ a, enc a ≠ some []

/-- `rlp.EncodeToBytes` with its error. -/
def Codec.encode {α : Type} (c : Codec α) (a : α) : Res Bytes :=
  match c.enc a with
  | some b => .ok b
  | none => .error .encode

/-- `rlp.DecodeBytes` with its error. -/
def Codec.decode {α : Type} (c : Codec α) (b : Bytes) : Res α :=
  match c.dec b with
  | some a => .ok a
  | none => .error .decode

/-- One entry of an unlocking queue (the fields the storage layer reads). -/
structure UnlockingStake where
  CompleteHeight : Int
  Amount : Dec
  deriving DecidableEq, Repr

/-- The unlocking queue of one staker. -/
structure UnlockingInfo where
  StakeAddress : Address
  UnlockingStake : List UnlockingStake
  deriving DecidableEq, Repr

/-- Snapshot of the cumulative reward ratio of a validator at one period. -/
structure ValidatorSnapshotRewards where
  AccumulatedRewardsRatio : Dec
  ReferenceCount : Nat
  deriving DecidableEq, Repr

/-- Rewards accumulated in the current period of a validator. -/
structure ValidatorAccumulatedRewards where
  Rewards : Dec
  Period : Nat
  deriving DecidableEq, Repr

/-- Commission owed to a validator. -/
structure AccumulatedCommission where
  Amount : Dec
  deriving DecidableEq, Repr

/-- Rewards of a validator that nobody has claimed yet. -/
structure ValidatorOutstandingRewards where
  Rewards : Dec
  deriving DecidableEq, Repr

/-- Community rate and community address. -/
structure CommunityInfo where
  CommunityRate : Int
  CommunityAddress : Address
  deriving DecidableEq, Repr

/-- The type `AddressList`. -/
structure AddressList where
  List : List Address
  deriving DecidableEq, Repr

/-- The validator record (the fields the hooks read). -/
structure Validator where
  ConsensusAddress : Address
  SignerAddress : Address
  ProposalAddress : Address
  deriving DecidableEq, Repr

/-- What the node manager takes from outside `storage.go`: its own contract
address `this`, `utils.Uint64Bytes`, the RLP codecs of the stored types and the
checked addition of `Dec`, and the balance check `core.CanTransfer` of the state
database. -/
structure Env where
  this : Address
  Uint64Bytes : Nat → Bytes
  Uint64Bytes_length : ∀ n, (Uint64Bytes n).length = 8
  Uint64Bytes_inj : ∀ m n, m < 2 ^ 64 → n < 2 ^ 64 → Uint64Bytes m = Uint64Bytes n → m = n
  decAdd : Dec → Dec → Option Dec
  decAdd_eq : ∀ a b r, decAdd a b = some r → r = a + b
  rlpUnlockingInfo : Codec UnlockingInfo
  rlpSnapshot : Codec ValidatorSnapshotRewards
  rlpAccumulated : Codec ValidatorAccumulatedRewards
  rlpCommission : Codec AccumulatedCommission
  rlpOutstanding : Codec ValidatorOutstandingRewards
  rlpCommunityInfo : Codec CommunityInfo
  rlpAddressList : Codec AddressList
  CanTransfer : (Address → Int) → Address → Int → Bool

/-- The module contract `s`: the cache database, the balances of the state
database and the height of the current block.  `cacheDB key` is the value
stored under the key, the empty list when there is none or when it is empty,
and `emptyStored key` says that an empty value has been put under the key and
not deleted: the database returns it as an empty slice, where it returns nil
for a key without a value. -/
structure ModuleContract where
  cacheDB : Bytes → Bytes
  balance : Address → Int
  height : Int
  emptyStored : Bytes → Bool := fun _ => false

/-- The method `Dec.Add`. -/
def Dec.Add (env : Env) (a b : Dec) : Res Dec :=
  match env.decAdd a b with
  | some r => .ok r
  | none => .error .wrapped

/-- ASCII bytes of a storage key prefix. -/
def strBytes (s : String) : Bytes := s.toList.map Char.toNat

def SKP_SIGNER_ADDR : Bytes := strBytes "st_signer_addr"
def SKP_PROPOSAL_ADDR : Bytes := strBytes "st_proposal_addr"
def SKP_UNLOCK_INFO : Bytes := strBytes "st_unlock_info"
def SKP_ACCUMULATED_COMMISSION : Bytes := strBytes "st_accumulated_commission"
def SKP_VALIDATOR_ACCUMULATED_REWARDS : Bytes := strBytes "st_validator_accumulated_rewards"
def SKP_VALIDATOR_OUTSTANDING_REWARDS : Bytes := strBytes "st_validator_outstanding_rewards"
def SKP_VALIDATOR_SNAPSHOT_REWARDS : Bytes := strBytes "st_validator_snapshot_rewards"
def SKP_SIGNER : Bytes := strBytes "st_signer"
def SKP_COMMUNITY_INFO : Bytes := strBytes "st_community_info"

/-- Modelled from the spec: `utils.ConcatKey` of the package `contract/utils`,
which is not among the sources.  The store is "keyed by caller-chosen byte
strings" that are "scoped under a caller-supplied key prefix": the key is the
contract address followed by the arguments, in order. -/
def ConcatKey (contract : Address) (args : List Bytes) : Bytes :=
  contract ++ args.foldl (fun acc a => acc ++ a) []

def signerAddrKey (env : Env) (signerAddr : Address) : Bytes :=
  ConcatKey env.this [SKP_SIGNER_ADDR, signerAddr]

def proposalAddrKey (env : Env) (proposalAddr : Address) : Bytes :=
  ConcatKey env.this [SKP_PROPOSAL_ADDR, proposalAddr]

def unlockingInfoKey (env : Env) (stakeAddress : Address) : Bytes :=
  ConcatKey env.this [SKP_UNLOCK_INFO, stakeAddress]

def accumulatedCommissionKey (env : Env) (consensusAddr : Address) : Bytes :=
  ConcatKey env.this [SKP_ACCUMULATED_COMMISSION, consensusAddr]

def validatorAccumulatedRewardsKey (env : Env) (consensusAddr : Address) : Bytes :=
  ConcatKey env.this [SKP_VALIDATOR_ACCUMULATED_REWARDS, consensusAddr]

def validatorOutstandingRewardsKey (env : Env) (consensusAddr : Address) : Bytes :=
  ConcatKey env.this [SKP_VALIDATOR_OUTSTANDING_REWARDS, consensusAddr]

def validatorSnapshotRewardsKey (env : Env) (consensusAddr : Address) (period : Nat) : Bytes :=
  ConcatKey env.this [SKP_VALIDATOR_SNAPSHOT_REWARDS, consensusAddr, env.Uint64Bytes period]

def signerKey (env : Env) (hash : Hash) : Bytes :=
  ConcatKey env.this [SKP_SIGNER, hash]

def communityInfoKey (env : Env) : Bytes :=
  ConcatKey env.this [SKP_COMMUNITY_INFO]

/-- The function `customGet`: a nil or empty value is `ErrEof`, so that it reads
the map of the values only. -/
def customGet (db : Bytes → Bytes) (key : Bytes) : Res Bytes :=
  if db key = [] then .error .eof else .ok (db key)

/-- The map of the values after `customSet`, which hands the write to `Put`. -/
def customSet (db : Bytes → Bytes) (key value : Bytes) : Bytes → Bytes :=
  fun k => if k = key then value else db k

/-- The map of the values after `customDel`, which hands the deletion to
`Delete`. -/
def customDel (db : Bytes → Bytes) (key : Bytes) : Bytes → Bytes :=
  fun k => if k = key then [] else db k

/-- The method `Get` of the cache database: `none` is the nil slice of a key
without a value, and an empty value that has been put is `some []`. -/
def Get (s : ModuleContract) (key : Bytes) : Option Bytes :=
  if s.cacheDB key ≠ [] then some (s.cacheDB key)
  else if s.emptyStored key then some [] else none

/-- The method `Put` of the cache database. -/
def Put (s : ModuleContract) (key value : Bytes) : ModuleContract :=
  ModuleContract.mk (customSet s.cacheDB key value) s.balance s.height
    (fun k => if k = key then decide (value = []) else s.emptyStored k)

/-- The method `Delete` of the cache database. -/
def Delete (s : ModuleContract) (key : Bytes) : ModuleContract :=
  ModuleContract.mk (customDel s.cacheDB key) s.balance s.height
    (fun k => if k = key then false else s.emptyStored k)

def get (s : ModuleContract) (key : Bytes) : Res Bytes :=
  customGet s.cacheDB key

/-- The function `set`, on a database that accepts the write. -/
def set (s : ModuleContract) (key value : Bytes) : Res ModuleContract :=
  .ok (Put s key value)

/-- The function `del`, on a database that accepts the deletion. -/
def del (s : ModuleContract) (key : Bytes) : Res ModuleContract :=
  .ok (Delete s key)

/-! ## Unlocking queue -/

def setUnlockingInfo (env : Env) (s : ModuleContract) (unlockingInfo : UnlockingInfo) :
    Res ModuleContract := do
  let key := unlockingInfoKey env unlockingInfo.StakeAddress
  let store ← wrapErr (env.rlpUnlockingInfo.encode unlockingInfo)
  set s key store

def delUnlockingInfo (env : Env) (s : ModuleContract) (stakeAddress : Address) :
    Res ModuleContract :=
  del s (unlockingInfoKey env stakeAddress)

def getUnlockingInfo (env : Env) (s : ModuleContract) (stakeAddress : Address) :
    Res UnlockingInfo :=
  match get s (unlockingInfoKey env stakeAddress) with
  | .error .eof => .ok { StakeAddress := stakeAddress, UnlockingStake := [] }
  | .error e => wrapErr (.error e)
  | .ok store => wrapErr (env.rlpUnlockingInfo.decode store)

/-- The loop of `filterExpiredUnlockingInfo`.  `k` iterations remain, `i` is
the index the `range` clause reads next, `arr` is the slice that is being
compacted in place, `j` the write index and `expiredSum` the running sum.  The
result is the slice `arr[:j]` and the sum. -/
def filterLoop (env : Env) (height : Int) :
    Nat → Nat → List UnlockingStake → Nat → Dec → Res (List UnlockingStake × Dec)
  | 0, _, arr, j, expiredSum => .ok (arr.take j, expiredSum)
  | k + 1, i, arr, j, expiredSum =>
    match arr.get? i with
    | none => .error .panic
    | some unlockingStake =>
      if unlockingStake.CompleteHeight > height then
        filterLoop env height k (i + 1) (arr.set j unlockingStake) (j + 1) expiredSum
      else
        match wrapErr (Dec.Add env expiredSum unlockingStake.Amount) with
        | .error e => .error e
        | .ok sum => filterLoop env height k (i + 1) arr j sum

def filterExpiredUnlockingInfo (env : Env) (s : ModuleContract) (stakeAddress : Address) :
    Res (Dec × ModuleContract) := do
  let height := s.height
  let unlockingInfo ← wrapErr (getUnlockingInfo env s stakeAddress)
  let (stakes, expiredSum) ←
    filterLoop env height unlockingInfo.UnlockingStake.length 0 unlockingInfo.UnlockingStake 0 0
  if stakes.length = 0 then
    let s1 ← delUnlockingInfo env s stakeAddress
    pure (expiredSum, s1)
  else
    let s1 ← wrapErr (setUnlockingInfo env s { unlockingInfo with UnlockingStake := stakes })
    pure (expiredSum, s1)

/-! ## Reward records -/

def setAccumulatedCommission (env : Env) (s : ModuleContract) (consensusAddr : Address)
    (accumulatedCommission : AccumulatedCommission) : Res ModuleContract := do
  let key := accumulatedCommissionKey env consensusAddr
  let store ← wrapErr (env.rlpCommission.encode accumulatedCommission)
  set s key store

def getAccumulatedCommission (env : Env) (s : ModuleContract) (consensusAddr : Address) :
    Res AccumulatedCommission := do
  let store ← wrapErr (get s (accumulatedCommissionKey env consensusAddr))
  wrapErr (env.rlpCommission.decode store)

def delAccumulatedCommission (env : Env) (s : ModuleContract) (consensusAddr : Address) :
    Res ModuleContract :=
  del s (accumulatedCommissionKey env consensusAddr)

def setValidatorAccumulatedRewards (env : Env) (s : ModuleContract) (consensusAddr : Address)
    (validatorAccumulatedRewards : ValidatorAccumulatedRewards) : Res ModuleContract := do
  let key := validatorAccumulatedRewardsKey env consensusAddr
  let store ← wrapErr (env.rlpAccumulated.encode validatorAccumulatedRewards)
  set s key store

def getValidatorAccumulatedRewards (env : Env) (s : ModuleContract) (consensusAddr : Address) :
    Res ValidatorAccumulatedRewards := do
  let store ← wrapErr (get s (validatorAccumulatedRewardsKey env consensusAddr))
  wrapErr (env.rlpAccumulated.decode store)

def delValidatorAccumulatedRewards (env : Env) (s : ModuleContract) (consensusAddr : Address) :
    Res ModuleContract :=
  del s (validatorAccumulatedRewardsKey env consensusAddr)

def setValidatorOutstandingRewards (env : Env) (s : ModuleContract) (consensusAddr : Address)
    (validatorOutstandingRewards : ValidatorOutstandingRewards) : Res ModuleContract := do
  let key := validatorOutstandingRewardsKey env consensusAddr
  let store ← wrapErr (env.rlpOutstanding.encode validatorOutstandingRewards)
  set s key store

def getValidatorOutstandingRewards (env : Env) (s : ModuleContract) (consensusAddr : Address) :
    Res ValidatorOutstandingRewards := do
  let store ← wrapErr (get s (validatorOutstandingRewardsKey env consensusAddr))
  wrapErr (env.rlpOutstanding.decode store)

def delValidatorOutstandingRewards (env : Env) (s : ModuleContract) (consensusAddr : Address) :
    Res ModuleContract :=
  del s (validatorOutstandingRewardsKey env consensusAddr)

def setValidatorSnapshotRewards (env : Env) (s : ModuleContract) (consensusAddr : Address)
    (period : Nat) (validatorSnapshotRewards : ValidatorSnapshotRewards) :
    Res ModuleContract := do
  let key := validatorSnapshotRewardsKey env consensusAddr period
  let store ← wrapErr (env.rlpSnapshot.encode validatorSnapshotRewards)
  set s key store

def getValidatorSnapshotRewards (env : Env) (s : ModuleContract) (consensusAddr : Address)
    (period : Nat) : Res ValidatorSnapshotRewards := do
  let store ← wrapErr (get s (validatorSnapshotRewardsKey env consensusAddr period))
  wrapErr (env.rlpSnapshot.decode store)

def delValidatorSnapshotRewards (env : Env) (s : ModuleContract) (consensusAddr : Address)
    (period : Nat) : Res ModuleContract :=
  del s (validatorSnapshotRewardsKey env consensusAddr period)

/-- The function `increaseReferenceCount`; the counter is a `uint64`, so the
increment is taken modulo `2 ^ 64 = 18446744073709551616`. -/
def increaseReferenceCount (env : Env) (s : ModuleContract) (consensusAddr : Address)
    (period : Nat) : Res ModuleContract :=
  match wrapErr (getValidatorSnapshotRewards env s consensusAddr period) with
  | .error e => .error e
  | .ok validatorSnapshotRewards =>
    if validatorSnapshotRewards.ReferenceCount > 2 then
      .error .panic
    else
      wrapErr (setValidatorSnapshotRewards env s consensusAddr period
        { validatorSnapshotRewards with
          ReferenceCount :=
            (validatorSnapshotRewards.ReferenceCount + 1) % 18446744073709551616 })

/-- The function `decreaseReferenceCount`; the counter is a `uint64`, and the
result of `delValidatorSnapshotRewards` is dropped. -/
def decreaseReferenceCount (env : Env) (s : ModuleContract) (consensusAddr : Address)
    (period : Nat) : Res ModuleContract :=
  match wrapErr (getValidatorSnapshotRewards env s consensusAddr period) with
  | .error e => .error e
  | .ok validatorSnapshotRewards =>
    if validatorSnapshotRewards.ReferenceCount = 0 then
      .error .panic
    else if (validatorSnapshotRewards.ReferenceCount + 18446744073709551616 - 1)
        % 18446744073709551616 = 0 then
      match delValidatorSnapshotRewards env s consensusAddr period with
      | .ok s1 => .ok s1
      | .error _ => .ok s
    else
      wrapErr (setValidatorSnapshotRewards env s consensusAddr period
        { validatorSnapshotRewards with
          ReferenceCount :=
            (validatorSnapshotRewards.ReferenceCount + 18446744073709551616 - 1)
              % 18446744073709551616 })

/-! ## Identity reservations and community info -/

def setSignerAddr (env : Env) (s : ModuleContract) (signerAddr : Address) :
    Res ModuleContract :=
  match get s (signerAddrKey env signerAddr) with
  | .error .eof => set s (signerAddrKey env signerAddr) [1]
  | _ => .error .wrapped

def delSignerAddr (env : Env) (s : ModuleContract) (signerAddr : Address) :
    Res ModuleContract :=
  del s (signerAddrKey env signerAddr)

def setProposalAddr (env : Env) (s : ModuleContract) (proposalAddr : Address) :
    Res ModuleContract :=
  match get s (proposalAddrKey env proposalAddr) with
  | .error .eof => set s (proposalAddrKey env proposalAddr) [1]
  | _ => .error .wrapped

def delProposalAddr (env : Env) (s : ModuleContract) (proposalAddr : Address) :
    Res ModuleContract :=
  del s (proposalAddrKey env proposalAddr)

/-- The constant `common.EmptyAddress`. -/
def EmptyAddress : Address := List.replicate 20 0

def GetCommunityInfoImpl (env : Env) (s : ModuleContract) : Res CommunityInfo :=
  match get s (communityInfoKey env) with
  | .error .eof => .ok { CommunityRate := 0, CommunityAddress := EmptyAddress }
  | .error e => wrapErr (.error e)
  | .ok store => wrapErr (env.rlpCommunityInfo.decode store)

/-- Modelled from the spec: `utils.ModuleTransfer` of the package
`contract/utils`, which is not among the sources: "a capability to transfer
value from the module's own balance to an arbitrary account".  It refuses a
negative amount and an amount the sender cannot afford (`Env.CanTransfer`), and
otherwise debits the sender and then credits the receiver. -/
def ModuleTransfer (env : Env) (s : ModuleContract) (sender receiver : Address) (amount : Int) :
    Res ModuleContract :=
  if amount < 0 then .error .wrapped
  else if env.CanTransfer s.balance sender amount = false then .error .wrapped
  else
    let b1 : Address → Int := fun a => if a = sender then s.balance a - amount else s.balance a
    let b2 : Address → Int := fun a => if a = receiver then b1 a + amount else b1 a
    .ok { s with balance := b2 }

/-! ## Hooks -/

def AfterValidatorCreated (env : Env) (s : ModuleContract) (validator : Validator) :
    Res ModuleContract := do
  let s1 ← wrapErr (setValidatorSnapshotRewards env s validator.ConsensusAddress 0
    { AccumulatedRewardsRatio := 0, ReferenceCount := 1 })
  let s2 ← wrapErr (setValidatorAccumulatedRewards env s1 validator.ConsensusAddress
    { Rewards := 0, Period := 1 })
  let s3 ← wrapErr (setAccumulatedCommission env s2 validator.ConsensusAddress { Amount := 0 })
  let s4 ← wrapErr (setValidatorOutstandingRewards env s3 validator.ConsensusAddress
    { Rewards := 0 })
  pure s4

/-- The function `AfterValidatorRemoved`; `Period - 1` is a `uint64`
subtraction. -/
def AfterValidatorRemoved (env : Env) (s : ModuleContract) (validator : Validator) :
    Res ModuleContract := do
  let outstanding ← wrapErr (getValidatorOutstandingRewards env s validator.ConsensusAddress)
  let communityInfo ← wrapErr (GetCommunityInfoImpl env s)
  let s1 ← wrapErr
    (ModuleTransfer env s env.this communityInfo.CommunityAddress outstanding.Rewards)
  let s2 ← delSignerAddr env s1 validator.SignerAddress
  let s3 ← delProposalAddr env s2 validator.ProposalAddress
  let s4 ← delValidatorOutstandingRewards env s3 validator.ConsensusAddress
  let s5 ← delAccumulatedCommission env s4 validator.ConsensusAddress
  let validatorAccumulatedRewards ←
    wrapErr (getValidatorAccumulatedRewards env s5 validator.ConsensusAddress)
  let s6 ← delValidatorAccumulatedRewards env s5 validator.ConsensusAddress
  let s7 ← delValidatorSnapshotRewards env s6 validator.ConsensusAddress
    ((validatorAccumulatedRewards.Period + 18446744073709551616 - 1) % 18446744073709551616)
  pure s7

/-! ## Signer sets -/

def getSigners (env : Env) (s : ModuleContract) (hash : Hash) : Res (List Address) := do
  let value ← get s (signerKey env hash)
  let list ← env.rlpAddressList.decode value
  pure list.List

/-- The function `storeSigner`.  The test `err.Error() == ErrEof.Error()`
compares messages; the message of `ErrEof` is the text EOF, which no error of
the decoder carries for a non-empty input. -/
def storeSigner (env : Env) (s : ModuleContract) (hash : Hash) (signer : Address) :
    Res ModuleContract :=
  let data : Res (List Address) :=
    match getSigners env s hash with
    | .ok data => .ok data
    | .error .eof => .ok []
    | .error e => .error e
  match data with
  | .error e => .error e
  | .ok data => do
    let list : AddressList := { List := data ++ [signer] }
    let key := signerKey env hash
    let value ← env.rlpAddressList.encode list
    set s key value

def findSigner (env : Env) (s : ModuleContract) (hash : Hash) (signer : Address) : Bool :=
  match getSigners env s hash with
  | .error _ => false
  | .ok list => list.any (fun v => decide (v = signer))

def getSignerSize (env : Env) (s : ModuleContract) (hash : Hash) : Nat :=
  match getSigners env s hash with
  | .error _ => 0
  | .ok list => list.length

def clearSigner (env : Env) (s : ModuleContract) (hash : Hash) : Res ModuleContract :=
  del s (signerKey env hash)

/-! ## A sample environment

A concrete instance of `Env`, used to run the definitions on concrete inputs.
Its codecs are simple self-delimiting encodings that write one number per list
element; they satisfy the laws of `Codec`, which is all the storage layer
relies on. -/

/-- Integers as natural numbers: even for non-negative, odd for negative. -/
def intTok (z : Int) : Nat := if 0 ≤ z then 2 * z.toNat else 2 * (-z).toNat + 1

/-- Inverse of `intTok`. -/
def tokInt (n : Nat) : Int := if n % 2 = 0 then ((n / 2 : Nat) : Int) else -((n / 2 : Nat) : Int)

def encStakes : List UnlockingStake → Bytes
  | [] => []
  | u :: rest => intTok u.CompleteHeight :: intTok u.Amount :: encStakes rest

def decStakes : Bytes → List UnlockingStake
  | a :: b :: rest => { CompleteHeight := tokInt a, Amount := tokInt b } :: decStakes rest
  | _ => []

/-- Byte strings one after the other, every byte raised by one and every string
closed by a zero. -/
def encAddrs : List Address → Bytes
  | [] => []
  | a :: rest => a.map (fun x => x + 1) ++ 0 :: encAddrs rest

def decAddrs : Bytes → Option (List Address)
  | [] => some []
  | x :: xs =>
    match decAddrs xs with
    | none => none
    | some rest =>
      if x = 0 then some ([] :: rest)
      else
        match rest with
        | [] => none
        | r :: rs => some (((x - 1) :: r) :: rs)

def sampleSnapshotCodec : Codec ValidatorSnapshotRewards where
  enc v := some [1, intTok v.AccumulatedRewardsRatio, v.ReferenceCount]
  dec b :=
    match b with
    | [1, r, c] => some { AccumulatedRewardsRatio := tokInt r, ReferenceCount := c }
    | _ => none
  dec_enc := by
    intro a b h
    have ht : tokInt (intTok a.AccumulatedRewardsRatio) = a.AccumulatedRewardsRatio := by
      unfold tokInt intTok; split <;> split <;> omega
    simp only [Option.some.injEq] at h
    subst h
    simp [ht]
  enc_ne_nil := by intro a; simp

def sampleAccumulatedCodec : Codec ValidatorAccumulatedRewards where
  enc v := some [2, intTok v.Rewards, v.Period]
  dec b :=
    match b with
    | [2, r, c] => some { Rewards := tokInt r, Period := c }
    | _ => none
  dec_enc := by
    intro a b h
    have ht : tokInt (intTok a.Rewards) = a.Rewards := by
      unfold tokInt intTok; split <;> split <;> omega
    simp only [Option.some.injEq] at h
    subst h
    simp [ht]
  enc_ne_nil := by intro a; simp

def sampleCommissionCodec : Codec AccumulatedCommission where
  enc v := some [3, intTok v.Amount]
  dec b :=
    match b with
    | [3, r] => some { Amount := tokInt r }
    | _ => none
  dec_enc := by
    intro a b h
    have ht : tokInt (intTok a.Amount) = a.Amount := by
      unfold tokInt intTok; split <;> split <;> omega
    simp only [Option.some.injEq] at h
    subst h
    simp [ht]
  enc_ne_nil := by intro a; simp

def sampleOutstandingCodec : Codec ValidatorOutstandingRewards where
  enc v := some [4, intTok v.Rewards]
  dec b :=
    match b with
    | [4, r] => some { Rewards := tokInt r }
    | _ => none
  dec_enc := by
    intro a b h
    have ht : tokInt (intTok a.Rewards) = a.Rewards := by
      unfold tokInt intTok; split <;> split <;> omega
    simp only [Option.some.injEq] at h
    subst h
    simp [ht]
  enc_ne_nil := by intro a; simp

/-- A codec of `CommunityInfo` that, like RLP, refuses a negative rate. -/
def sampleCommunityCodec : Codec CommunityInfo where
  enc v :=
    if v.CommunityRate < 0 then none
    else some (5 :: intTok v.CommunityRate :: v.CommunityAddress)
  dec b :=
    match b with
    | 5 :: r :: addr => some { CommunityRate := tokInt r, CommunityAddress := addr }
    | _ => none
  dec_enc := by
    intro a b h
    have ht : tokInt (intTok a.CommunityRate) = a.CommunityRate := by
      unfold tokInt intTok; split <;> split <;> omega
    simp only at h
    split at h
    · exact absurd h (by simp)
    · simp only [Option.some.injEq] at h
      subst h
      simp [ht]
  enc_ne_nil := by
    intro a
    simp only
    split <;> simp

def sampleAddressListCodec : Codec AddressList where
  enc v := some (6 :: encAddrs v.List)
  dec b :=
    match b with
    | 6 :: rest => (decAddrs rest).map (fun l => { List := l })
    | _ => none
  dec_enc := by
    intro a b h
    have hr : ∀ l : List Address, decAddrs (encAddrs l) = some l := by
      intro l
      induction l with
      | nil => rfl
      | cons x rest ih =>
        induction x with
        | nil => simp [encAddrs, decAddrs, ih]
        | cons y ys ihy =>
          simp only [encAddrs, List.map_cons, List.cons_append] at ihy ⊢
          simp [decAddrs, ihy]
    simp only [Option.some.injEq] at h
    subst h
    simp [hr]
  enc_ne_nil := by intro a; simp

def sampleUnlockingCodec : Codec UnlockingInfo where
  enc v := some (7 :: v.StakeAddress.length :: (v.StakeAddress ++ encStakes v.UnlockingStake))
  dec b :=
    match b with
    | 7 :: n :: rest =>
      some { StakeAddress := rest.take n, UnlockingStake := decStakes (rest.drop n) }
    | _ => none
  dec_enc := by
    intro a b h
    have ht : ∀ z : Int, tokInt (intTok z) = z := by
      intro z; unfold tokInt intTok; split <;> split <;> omega
    have hr : ∀ l : List UnlockingStake, decStakes (encStakes l) = l := by
      intro l
      induction l with
      | nil => rfl
      | cons x rest ih => simp [encStakes, decStakes, ih, ht]
    simp only [Option.some.injEq] at h
    subst h
    simp [hr]
  enc_ne_nil := by intro a; simp

/-- Eight bytes, least significant first. -/
def sampleUint64Bytes (n : Nat) : Bytes :=
  [n % 256, n / 256 % 256, n / 65536 % 256, n / 16777216 % 256, n / 4294967296 % 256,
    n / 1099511627776 % 256, n / 281474976710656 % 256, n / 72057594037927936 % 256]

/-- The sample environment: contract address `[9]`, little-endian periods,
addition that fails beyond 256 bits, and a balance check that compares the
balance with the amount. -/
def sampleEnv : Env where
  this := [9]
  Uint64Bytes := sampleUint64Bytes
  Uint64Bytes_length := by intro n; rfl
  Uint64Bytes_inj := by
    intro m n hm hn h
    simp only [sampleUint64Bytes, List.cons.injEq, and_true] at h
    omega
  decAdd a b := if (a + b).natAbs < 2 ^ 256 then some (a + b) else none
  decAdd_eq := by
    intro a b r h
    simp only at h
    split at h
    · exact (Option.some.inj h).symm
    · exact absurd h (by simp)
  rlpUnlockingInfo := sampleUnlockingCodec
  rlpSnapshot := sampleSnapshotCodec
  rlpAccumulated := sampleAccumulatedCodec
  rlpCommission := sampleCommissionCodec
  rlpOutstanding := sampleOutstandingCodec
  rlpCommunityInfo := sampleCommunityCodec
  rlpAddressList := sampleAddressListCodec
  CanTransfer balance addr amount := decide (amount ≤ balance addr)

/-- The store with no keys, no balances, at the given height. -/
def emptyContract (height : Int) : ModuleContract where
  cacheDB := fun _ => []
  balance := fun _ => 0
  height := height

/-! ## Specification-side functions for the unlocking queue -/

/-- Checked sum of a list of amounts, in order, starting from `acc`. -/
def addAll (env : Env) : Dec → List Dec → Res Dec
  | acc, [] => .ok acc
  | acc, a :: rest =>
    match wrapErr (Dec.Add env acc a) with
    | .error e => .error e
    | .ok sum => addAll env sum rest

/-- An entry is still locked at `height`. -/
def stillLocked (height : Int) (u : UnlockingStake) : Bool :=
  decide (u.CompleteHeight > height)

/-- Sum of the amounts of a list of entries. -/
def sumAmount (l : List UnlockingStake) : Dec :=
  (l.map (fun u => u.Amount)).sum

/-! ## Sample states -/

/-- A queue of four entries for the staker `[7]`. -/
def sampleQueue : UnlockingInfo :=
  { StakeAddress := [7],
    UnlockingStake := [
      { CompleteHeight := 5, Amount := 10 }, { CompleteHeight := 20, Amount := 3 },
      { CompleteHeight := 8, Amount := 4 }, { CompleteHeight := 30, Amount := 1 }] }

/-- The store at height 8 that holds `sampleQueue` for the staker `[7]`. -/
def sampleQueueContract : ModuleContract :=
  { emptyContract 8 with
    cacheDB := customSet (fun _ => []) (unlockingInfoKey sampleEnv [7])
      (7 :: 1 :: 7 :: encStakes sampleQueue.UnlockingStake) }

/-- The store left by the sweep of `sampleQueueContract`. -/
def sampleSweptContract : ModuleContract :=
  match filterExpiredUnlockingInfo sampleEnv sampleQueueContract [7] with
  | .ok (_, s1) => s1
  | .error _ => sampleQueueContract

/-- The store that holds, for the validator `[1]` at period 0, a snapshot with
ratio 5 and reference count `c`. -/
def sampleSnapshotContract (c : Nat) : ModuleContract :=
  { emptyContract 0 with
    cacheDB := customSet (fun _ => []) (validatorSnapshotRewardsKey sampleEnv [1] 0)
      [1, intTok 5, c] }

/-- A validator with consensus address `[1]`, signer `[2]` and proposer `[3]`. -/
def sampleValidator : Validator :=
  { ConsensusAddress := [1], SignerAddress := [2], ProposalAddress := [3] }

/-- The store after `AfterValidatorCreated` for `sampleValidator` on the empty
store. -/
def sampleCreatedContract : ModuleContract :=
  match AfterValidatorCreated sampleEnv (emptyContract 0) sampleValidator with
  | .ok s1 => s1
  | .error _ => emptyContract 0

/-- The store of `sampleCreatedContract` with outstanding rewards 10 for the
validator `[1]` and a module balance of 10. -/
def sampleFundedContract : ModuleContract :=
  match setValidatorOutstandingRewards sampleEnv sampleCreatedContract [1] { Rewards := 10 } with
  | .ok s1 => { s1 with balance := fun a => if a = sampleEnv.this then 10 else 0 }
  | .error _ => sampleCreatedContract

/-- The store after `AfterValidatorRemoved` for `sampleValidator` on
`sampleFundedContract`. -/
def sampleRemovedContract : ModuleContract :=
  match AfterValidatorRemoved sampleEnv sampleFundedContract sampleValidator with
  | .ok s1 => s1
  | .error _ => sampleFundedContract

/-! ## Quorum gate -/

/-- Modelled from the spec: `CheckConsensusSigns`, the quorum-check entry point
of the node manager, whose source file is not part of the sources at hand; it
follows section 4.5 of the specification over the storage functions above.
`roster` is the roster of the role at the current epoch and `quorum` the
threshold of the role, both supplied by the epoch component; `hash` is the
digest of the action identifier and the message.  A signer outside the roster
is rejected without being added.  A repeat signer is a no-op that reports "not
yet authorized".  Otherwise the signer is registered; when the number of
registered signers reaches the threshold the signer set is cleared and the call
reports "authorized", and before that it reports "not yet authorized" and
leaves the set stored. -/
def CheckConsensusSigns (env : Env) (s : ModuleContract) (roster : List Address) (quorum : Nat)
    (hash : Hash) (signer : Address) : Res (Bool × ModuleContract) :=
  if roster.contains signer = false then .error .wrapped
  else if findSigner env s hash signer then .ok (false, s)
  else
    match wrapErr (storeSigner env s hash signer) with
    | .error e => .error e
    | .ok s1 =>
      if quorum ≤ getSignerSize env s1 hash then
        match wrapErr (clearSigner env s1 hash) with
        | .error e => .error e
        | .ok s2 => .ok (true, s2)
      else .ok (false, s1)

/-- The signer list of a digest, with an absent record read as the empty set. -/
def signerSet (env : Env) (s : ModuleContract) (hash : Hash) : Res (List Address) :=
  match getSigners env s hash with
  | .error .eof => .ok []
  | r => r

/-! ## Sequences of calls on signer sets -/

/-- A call of `storeSigner` or of `clearSigner`. -/
inductive SignerCall where
  | store (hash : Hash) (signer : Address)
  | clear (hash : Hash)
  deriving DecidableEq, Repr

/-- The calls made one after the other; the first error ends the run. -/
def runSignerCalls (env : Env) : ModuleContract → List SignerCall → Res ModuleContract
  | s, [] => .ok s
  | s, .store hash signer :: rest =>
    match storeSigner env s hash signer with
    | .ok s1 => runSignerCalls env s1 rest
    | .error e => .error e
  | s, .clear hash :: rest =>
    match clearSigner env s hash with
    | .ok s1 => runSignerCalls env s1 rest
    | .error e => .error e

/-- Every `storeSigner` of the run is made at a moment when `findSigner`
answers false for its digest and signer. -/
def guardedSignerCalls (env : Env) : ModuleContract → List SignerCall → Bool
  | _, [] => true
  | s, .store hash signer :: rest =>
    !findSigner env s hash signer &&
      match storeSigner env s hash signer with
      | .ok s1 => guardedSignerCalls env s1 rest
      | .error _ => true
  | s, .clear hash :: rest =>
    match clearSigner env s hash with
    | .ok s1 => guardedSignerCalls env s1 rest
    | .error _ => true

/-- The store after the given calls on the empty store. -/
def sampleSignerContract (calls : List SignerCall) : ModuleContract :=
  match runSignerCalls sampleEnv (emptyContract 0) calls with
  | .ok s1 => s1
  | .error _ => emptyContract 0

/-! ## Validator list, configuration and epochs -/

/-- The type `AllValidators`. -/
structure AllValidators where
  AllValidators : List Address
  deriving DecidableEq, Repr

/-- The type `GlobalConfig`. -/
structure GlobalConfig where
  MaxCommissionChange : Int
  MinInitialStake : Int
  MinProposalStake : Int
  BlockPerEpoch : Int
  ConsensusValidatorNum : Nat
  VoterValidatorNum : Nat
  deriving DecidableEq, Repr

/-- The type `EpochInfo`: the epoch ID, the consensus and voter rosters and the
boundaries of the block range. -/
structure EpochInfo where
  ID : Int
  Validators : List Address
  Voters : List Address
  StartHeight : Int
  EndHeight : Int
  deriving DecidableEq, Repr

/-- The environment of the remaining storage functions: the constants
`PercentDecimal`, `MaxValidatorNum`, `MaxUnlockingNum`, the genesis defaults of
the global configuration, that is the content of the `Genesis` variables when
the program starts, and the RLP codecs of three more stored types.
`rlpGlobalConfigFailed store into` is the content of the big integers of the
struct `into` after `rlp.DecodeBytes` has failed on `store`. -/
structure ConfigEnv extends Env where
  PercentDecimal : Int
  MaxValidatorNum : Nat
  MaxUnlockingNum : Nat
  GenesisGlobalConfig : GlobalConfig
  rlpGlobalConfig : Codec GlobalConfig
  rlpGlobalConfigFailed : Bytes → GlobalConfig → GlobalConfig
  rlpAllValidators : Codec AllValidators
  rlpEpochInfo : Codec EpochInfo

def SKP_GLOBAL_CONFIG : Bytes := strBytes "st_global_config"
def SKP_ALL_VALIDATOR : Bytes := strBytes "st_all_validator"
def SKP_CURRENT_EPOCH : Bytes := strBytes "st_current_epoch"
def SKP_EPOCH_INFO : Bytes := strBytes "st_epoch_info"

/-- The variable `StartEpochID`: epochs start from 1. -/
def StartEpochID : Int := 1

/-- Digits of a natural number in base 256, least significant first; the first
argument bounds the number of digits. -/
def bytesLE : Nat → Nat → Bytes
  | 0, _ => []
  | fuel + 1, n => if n = 0 then [] else (n % 256) :: bytesLE fuel (n / 256)

/-- The method `big.Int.Bytes`: the absolute value, big-endian, without leading
zeros. -/
def BigIntBytes (z : Int) : Bytes := (bytesLE z.natAbs z.natAbs).reverse

/-- The method `big.Int.SetBytes`: the bytes read as a big-endian unsigned
integer. -/
def SetBytes (b : Bytes) : Int := ((b.foldl (fun acc x => acc * 256 + x) 0 : Nat) : Int)

def globalConfigKey (env : Env) : Bytes :=
  ConcatKey env.this [SKP_GLOBAL_CONFIG]

def allValidatorKey (env : Env) : Bytes :=
  ConcatKey env.this [SKP_ALL_VALIDATOR]

def currentEpochKey (env : Env) : Bytes :=
  ConcatKey env.this [SKP_CURRENT_EPOCH]

def epochInfoKey (env : Env) (ID : Int) : Bytes :=
  ConcatKey env.this [SKP_EPOCH_INFO, BigIntBytes ID]

/-- The store a call leaves behind.  Every function of `storage.go` that is
modelled with a result of type `Res ModuleContract` and used with `storeAfter`
writes once, as its last step, and that write cannot fail here: when such a
call returns an error it has not written. -/
def storeAfter (s : ModuleContract) (r : Res ModuleContract) : ModuleContract :=
  match r with
  | .ok s1 => s1
  | .error _ => s

def SetGlobalConfig (env : ConfigEnv) (s : ModuleContract) (globalConfig : GlobalConfig) :
    Res ModuleContract :=
  if globalConfig.MaxCommissionChange > env.PercentDecimal then .error .wrapped
  else
    match wrapErr (env.rlpGlobalConfig.encode globalConfig) with
    | .error e => .error e
    | .ok store => set s (globalConfigKey env.toEnv) store

/-- The function `GetGlobalConfigImpl`.  The struct it decodes into holds the
pointers `GenesisMaxCommissionChange`, `GenesisMinInitialStake`,
`GenesisMinProposalStake` and `GenesisBlockPerEpoch` themselves, not copies of
the numbers, and `rlp.DecodeBytes` writes a big integer through the pointer it
finds in a field: a decoding overwrites these package-level variables.  The two
validator numbers are copied into the struct.  `genesis` is the content of the
`Genesis` variables at the call, and the second component of the result is
their content after it.  When the decoding fails, the big integers decoded
before the failure are overwritten already (`rlpGlobalConfigFailed`). -/
def GetGlobalConfigImpl (env : ConfigEnv) (genesis : GlobalConfig) (s : ModuleContract) :
    Res GlobalConfig × GlobalConfig :=
  match get s (globalConfigKey env.toEnv) with
  | .error .eof => (.ok genesis, genesis)
  | .error e => (wrapErr (.error e), genesis)
  | .ok store =>
    match env.rlpGlobalConfig.dec store with
    | some globalConfig =>
      (.ok globalConfig,
        GlobalConfig.mk globalConfig.MaxCommissionChange globalConfig.MinInitialStake
          globalConfig.MinProposalStake globalConfig.BlockPerEpoch
          genesis.ConsensusValidatorNum genesis.VoterValidatorNum)
    | none => (.error .wrapped, env.rlpGlobalConfigFailed store genesis)

def setAllValidators (env : ConfigEnv) (s : ModuleContract) (allValidators : AllValidators) :
    Res ModuleContract :=
  match wrapErr (env.rlpAllValidators.encode allValidators) with
  | .error e => .error e
  | .ok store => set s (allValidatorKey env.toEnv) store

def getAllValidators (env : ConfigEnv) (s : ModuleContract) : Res AllValidators :=
  match get s (allValidatorKey env.toEnv) with
  | .error .eof => .ok { AllValidators := [] }
  | .error e => wrapErr (.error e)
  | .ok store => wrapErr (env.rlpAllValidators.decode store)

def addToAllValidators (env : ConfigEnv) (s : ModuleContract) (consensusAddr : Address) :
    Res ModuleContract :=
  match wrapErr (getAllValidators env s) with
  | .error e => .error e
  | .ok allValidators =>
    let allValidators : AllValidators :=
      { AllValidators := allValidators.AllValidators ++ [consensusAddr] }
    if allValidators.AllValidators.length > env.MaxValidatorNum then .error .wrapped
    else wrapErr (setAllValidators env s allValidators)

/-- The loop of `removeFromAllValidators`.  `k` iterations remain, `i` is the
index the `range` clause reads next, `arr` is the slice that is being compacted
in place and `j` the write index.  The result is the slice `arr[:j]`. -/
def removeLoop (consensusAddr : Address) : Nat → Nat → List Address → Nat → Res (List Address)
  | 0, _, arr, j => .ok (arr.take j)
  | k + 1, i, arr, j =>
    match arr.get? i with
    | none => .error .panic
    | some validator =>
      if validator ≠ consensusAddr then
        removeLoop consensusAddr k (i + 1) (arr.set j validator) (j + 1)
      else
        removeLoop consensusAddr k (i + 1) arr j

def removeFromAllValidators (env : ConfigEnv) (s : ModuleContract) (consensusAddr : Address) :
    Res ModuleContract :=
  match wrapErr (getAllValidators env s) with
  | .error e => .error e
  | .ok allValidators =>
    match removeLoop consensusAddr allValidators.AllValidators.length 0
        allValidators.AllValidators 0 with
    | .error e => .error e
    | .ok validators => wrapErr (setAllValidators env s { AllValidators := validators })

def addUnlockingInfo (env : ConfigEnv) (s : ModuleContract) (stakeAddress : Address)
    (unlockingStake : UnlockingStake) : Res ModuleContract :=
  match wrapErr (getUnlockingInfo env.toEnv s stakeAddress) with
  | .error e => .error e
  | .ok unlockingInfo =>
    let unlockingInfo : UnlockingInfo :=
      { unlockingInfo with UnlockingStake := unlockingInfo.UnlockingStake ++ [unlockingStake] }
    if unlockingInfo.UnlockingStake.length > env.MaxUnlockingNum then .error .wrapped
    else wrapErr (setUnlockingInfo env.toEnv s unlockingInfo)

def SetCommunityInfo (env : ConfigEnv) (s : ModuleContract) (communityInfo : CommunityInfo) :
    Res ModuleContract :=
  if communityInfo.CommunityRate > env.PercentDecimal then .error .wrapped
  else
    match wrapErr (env.rlpCommunityInfo.encode communityInfo) with
    | .error e => .error e
    | .ok store => set s (communityInfoKey env.toEnv) store

/-- The function `set` on a database that can refuse a write.  `putOk key value`
says whether `s.Put` accepts the write; `customSet` returns the error of a
refused write as it is, and nothing is written.  The function `set` above is
the case of a database that accepts every write, which is enough for the
functions that write once, as their last step: there a refused write is one
more error without a change.  The epoch functions write twice in a row, so
they are given the database that can refuse. -/
def setOn (putOk : Bytes → Bytes → Bool) (s : ModuleContract) (key value : Bytes) :
    Res ModuleContract :=
  if putOk key value then set s key value else .error .store

def setCurrentEpoch (env : ConfigEnv) (putOk : Bytes → Bytes → Bool) (s : ModuleContract)
    (ID : Int) : Res ModuleContract :=
  setOn putOk s (currentEpochKey env.toEnv) (BigIntBytes ID)

def getCurrentEpoch (env : ConfigEnv) (s : ModuleContract) : Res Int :=
  match get s (currentEpochKey env.toEnv) with
  | .error e => wrapErr (.error e)
  | .ok store => .ok (SetBytes store)

def setEpochInfo (env : ConfigEnv) (putOk : Bytes → Bytes → Bool) (s : ModuleContract)
    (epochInfo : EpochInfo) : Res ModuleContract :=
  match wrapErr (env.rlpEpochInfo.encode epochInfo) with
  | .error e => .error e
  | .ok store => setOn putOk s (epochInfoKey env.toEnv epochInfo.ID) store

def getEpochInfo (env : ConfigEnv) (s : ModuleContract) (ID : Int) : Res EpochInfo :=
  match get s (epochInfoKey env.toEnv ID) with
  | .error e => wrapErr (.error e)
  | .ok store => wrapErr (env.rlpEpochInfo.decode store)

/-- The function `setCurrentEpochInfo`.  It writes twice, so the result is
paired with the store the call leaves behind: after a failure of
`setCurrentEpoch` that is the store of the call, and after a failure of
`setEpochInfo` it holds the write of `setCurrentEpoch`.  The error of
`setCurrentEpoch` is returned as it is, that of `setEpochInfo` is wrapped. -/
def setCurrentEpochInfo (env : ConfigEnv) (putOk : Bytes → Bytes → Bool) (s : ModuleContract)
    (epochInfo : EpochInfo) : Res Unit × ModuleContract :=
  match setCurrentEpoch env putOk s epochInfo.ID with
  | .error e => (.error e, s)
  | .ok s1 =>
    match wrapErr (setEpochInfo env putOk s1 epochInfo) with
    | .error e => (.error e, s1)
    | .ok s2 => (.ok (), s2)

/-! ## A sample environment for the configuration functions -/

def sampleGlobalConfigCodec : Codec GlobalConfig where
  enc v := some [9, intTok v.MaxCommissionChange, intTok v.MinInitialStake,
    intTok v.MinProposalStake, intTok v.BlockPerEpoch, v.ConsensusValidatorNum,
    v.VoterValidatorNum]
  dec b :=
    match b with
    | [9, a, b, c, d, e, f] =>
      some { MaxCommissionChange := tokInt a, MinInitialStake := tokInt b,
             MinProposalStake := tokInt c, BlockPerEpoch := tokInt d,
             ConsensusValidatorNum := e, VoterValidatorNum := f }
    | _ => none
  dec_enc := by
    intro a b h
    have ht : ∀ z : Int, tokInt (intTok z) = z := by
      intro z; unfold tokInt intTok; split <;> split <;> omega
    simp only [Option.some.injEq] at h
    subst h
    simp [ht]
  enc_ne_nil := by intro a; simp

def sampleAllValidatorsCodec : Codec AllValidators where
  enc v := some (10 :: encAddrs v.AllValidators)
  dec b :=
    match b with
    | 10 :: rest => (decAddrs rest).map (fun l => { AllValidators := l })
    | _ => none
  dec_enc := by
    intro a b h
    have hr : ∀ l : List Address, decAddrs (encAddrs l) = some l := by
      intro l
      induction l with
      | nil => rfl
      | cons x rest ih =>
        induction x with
        | nil => simp [encAddrs, decAddrs, ih]
        | cons y ys ihy =>
          simp only [encAddrs, List.map_cons, List.cons_append] at ihy ⊢
          simp [decAddrs, ihy]
    simp only [Option.some.injEq] at h
    subst h
    simp [hr]
  enc_ne_nil := by intro a; simp

/-- A codec of `EpochInfo` that, like RLP, refuses negative integers. -/
def sampleEpochInfoCodec : Codec EpochInfo where
  enc v :=
    if v.ID < 0 ∨ v.StartHeight < 0 ∨ v.EndHeight < 0 then none
    else some (8 :: v.ID.toNat :: v.StartHeight.toNat :: v.EndHeight.toNat ::
      (encAddrs v.Validators).length :: (encAddrs v.Validators ++ encAddrs v.Voters))
  dec b :=
    match b with
    | 8 :: id :: st :: en :: n :: rest =>
      match decAddrs (rest.take n), decAddrs (rest.drop n) with
      | some validators, some voters =>
        some { ID := (id : Int), Validators := validators, Voters := voters,
               StartHeight := (st : Int), EndHeight := (en : Int) }
      | _, _ => none
    | _ => none
  dec_enc := by
    intro a b h
    have hr : ∀ l : List Address, decAddrs (encAddrs l) = some l := by
      intro l
      induction l with
      | nil => rfl
      | cons x rest ih =>
        induction x with
        | nil => simp [encAddrs, decAddrs, ih]
        | cons y ys ihy =>
          simp only [encAddrs, List.map_cons, List.cons_append] at ihy ⊢
          simp [decAddrs, ihy]
    simp only at h
    split at h
    · exact absurd h (by simp)
    · rename_i hneg
      simp only [not_or, not_lt] at hneg
      simp only [Option.some.injEq] at h
      subst h
      simp only [List.take_left', List.drop_left', hr]
      have h1 : ((a.ID.toNat : Nat) : Int) = a.ID := Int.toNat_of_nonneg hneg.1
      have h2 : ((a.StartHeight.toNat : Nat) : Int) = a.StartHeight :=
        Int.toNat_of_nonneg hneg.2.1
      have h3 : ((a.EndHeight.toNat : Nat) : Int) = a.EndHeight := Int.toNat_of_nonneg hneg.2.2
      rw [h1, h2, h3]
  enc_ne_nil := by
    intro a
    simp only
    split <;> simp

/-- The sample environment of the configuration functions: a cap of 100 percent
written as 10000, at most two validators and two unlocking entries. -/
def sampleConfigEnv : ConfigEnv where
  toEnv := sampleEnv
  PercentDecimal := 10000
  MaxValidatorNum := 2
  MaxUnlockingNum := 2
  GenesisGlobalConfig :=
    { MaxCommissionChange := 500, MinInitialStake := 100000, MinProposalStake := 1000,
      BlockPerEpoch := 400000, ConsensusValidatorNum := 4, VoterValidatorNum := 4 }
  rlpGlobalConfig := sampleGlobalConfigCodec
  rlpGlobalConfigFailed := fun _ into => into
  rlpAllValidators := sampleAllValidatorsCodec
  rlpEpochInfo := sampleEpochInfoCodec

/-! ## Sequences of calls on the identity indexes -/

/-- The signer address is reserved: its key is present. -/
def signerReserved (env : Env) (s : ModuleContract) (signerAddr : Address) : Bool :=
  match get s (signerAddrKey env signerAddr) with
  | .error .eof => false
  | _ => true

/-- The proposal address is reserved: its key is present. -/
def proposalReserved (env : Env) (s : ModuleContract) (proposalAddr : Address) : Bool :=
  match get s (proposalAddrKey env proposalAddr) with
  | .error .eof => false
  | _ => true

/-- A call on one of the two identity indexes. -/
inductive IdentityCall where
  | setSigner (a : Address)
  | delSigner (a : Address)
  | setProposal (a : Address)
  | delProposal (a : Address)
  deriving DecidableEq, Repr

/-- The call made on a store. -/
def IdentityCall.run (env : Env) (s : ModuleContract) : IdentityCall → Res ModuleContract
  | .setSigner a => setSignerAddr env s a
  | .delSigner a => delSignerAddr env s a
  | .setProposal a => setProposalAddr env s a
  | .delProposal a => delProposalAddr env s a

/-- The store after the calls, made one after the other; a call that returns an
error is followed by the next one on the same store. -/
def runIdentityCalls (env : Env) (s : ModuleContract) (calls : List IdentityCall) :
    ModuleContract :=
  calls.foldl (fun s c => storeAfter s (c.run env s)) s

/-- Reading the history of calls: the signer address `a` is held when the last
call that names it is a `setSignerAddr`; `init` says whether it was held before
the history. -/
def signerHeld (init : Bool) (calls : List IdentityCall) (a : Address) : Bool :=
  calls.foldl (fun held c =>
    match c with
    | .setSigner b => if b = a then true else held
    | .delSigner b => if b = a then false else held
    | _ => held) init

/-- Reading the history of calls: the proposal address `a` is held when the
last call that names it is a `setProposalAddr`. -/
def proposalHeld (init : Bool) (calls : List IdentityCall) (a : Address) : Bool :=
  calls.foldl (fun held c =>
    match c with
    | .setProposal b => if b = a then true else held
    | .delProposal b => if b = a then false else held
    | _ => held) init

/-- The store of `sampleFundedContract` with the signer addresses `[2]` and
`[7]` and the proposal address `[3]` reserved. -/
def sampleReservedContract : ModuleContract :=
  runIdentityCalls sampleEnv sampleFundedContract
    [.setSigner [2], .setProposal [3], .setSigner [7]]

/-- The store after `AfterValidatorRemoved` for `sampleValidator` on
`sampleReservedContract`. -/
def sampleReleasedContract : ModuleContract :=
  storeAfter sampleReservedContract
    (AfterValidatorRemoved sampleEnv sampleReservedContract sampleValidator)

/-- The store that holds the given list of all validators. -/
def sampleValidatorsContract (l : List Address) : ModuleContract :=
  storeAfter (emptyContract 0)
    (setAllValidators sampleConfigEnv (emptyContract 0) { AllValidators := l })

/-- The epoch info of the first epoch in the sample states. -/
def sampleEpochInfo : EpochInfo :=
  { ID := 1, Validators := [[1]], Voters := [[1]], StartHeight := 0, EndHeight := 100 }

/-- The store after `setCurrentEpochInfo` with `sampleEpochInfo` on the empty
store. -/
def sampleEpochContract : ModuleContract :=
  (setCurrentEpochInfo sampleConfigEnv (fun _ _ => true) (emptyContract 0) sampleEpochInfo).2

/-! ## Total pool, stake records and the other modules -/

/-- The type `TotalPool`. -/
structure TotalPool where
  TotalPool : Dec
  deriving DecidableEq, Repr

/-- The type `StakeInfo`. -/
structure StakeInfo where
  StakeAddress : Address
  ConsensusAddr : Address
  Amount : Dec
  deriving DecidableEq, Repr

/-- The type `SideChain` of the side chain manager, with the fields that the
sources and their tests name. -/
structure SideChain where
  Owner : Address
  ChainID : Nat
  Router : Nat
  Name : Bytes
  CCMCAddress : Bytes
  ExtraInfo : Bytes
  deriving DecidableEq, Repr

/-- The type `RippleExtraInfo` of the side chain manager, with the field that
the sources name. -/
structure RippleExtraInfo where
  Pks : List Bytes
  deriving DecidableEq, Repr

/-- The type `MakeTxParam` of the cross chain manager: the cross-chain ID, the
target chain and the remaining fields, kept as they are. -/
structure MakeTxParam where
  CrossChainID : Bytes
  ToChainID : Nat
  Others : List Bytes
  deriving DecidableEq, Repr

/-- The environment of the remaining modules: the checked subtraction and the
checked percent product of `Dec`, the constants `RewardPerBlock` and
`GenesisSupply`, the helpers `utils.GetUint64Bytes`, `utils.GetUint32Bytes` and
`utils.GetBytesUint32`, the key prefixes `DONE_TX` and `SIDE_CHAIN`, which are
declared outside the sources, whether `AddNotify` accepts an event, and the RLP
codecs of four more stored types.  The laws say what the storage code relies
on: the checked operations return the exact result when they succeed, the
integer encodings have a fixed width and can be read back, and
`utils.GetBytesUint32` reads the nil slice as 0. -/
structure ChainEnv extends ConfigEnv where
  decSub : Dec → Dec → Option Dec
  decSub_eq : ∀ a b r, decSub a b = some r → r = a - b
  decMulPercent : Dec → Dec → Option Dec
  decMulPercent_eq : ∀ a b r, decMulPercent a b = some r → r = a * b / PercentDecimal
  RewardPerBlock : Int
  GenesisSupply : Int
  GetUint64Bytes : Nat → Bytes
  GetUint64Bytes_length : ∀ n, (GetUint64Bytes n).length = 8
  GetUint64Bytes_inj : ∀ m n, m < 2 ^ 64 → n < 2 ^ 64 → GetUint64Bytes m = GetUint64Bytes n → m = n
  GetUint32Bytes : Nat → Bytes
  GetUint32Bytes_length : ∀ n, (GetUint32Bytes n).length = 4
  GetBytesUint32 : Bytes → Nat
  GetBytesUint32_bytes : ∀ n, n < 2 ^ 32 → GetBytesUint32 (GetUint32Bytes n) = n
  GetBytesUint32_nil : GetBytesUint32 [] = 0
  DONE_TX : Bytes
  SIDE_CHAIN : Bytes
  AddNotifyOk : Bool
  rlpTotalPool : Codec TotalPool
  rlpStakeInfo : Codec StakeInfo
  rlpSideChain : Codec SideChain
  rlpRippleExtraInfo : Codec RippleExtraInfo

def SKP_TOTAL_POOL : Bytes := strBytes "st_lock_pool"
def SKP_STAKE_INFO : Bytes := strBytes "st_stake_info"

def totalPoolKey (env : Env) : Bytes :=
  ConcatKey env.this [SKP_TOTAL_POOL]

def stakeInfoKey (env : Env) (stakeAddress consensusAddr : Address) : Bytes :=
  ConcatKey env.this [SKP_STAKE_INFO, stakeAddress, consensusAddr]

/-- Modelled from the spec: the method `Dec.Sub`, whose file is not among the
sources.  "Any decimal arithmetic overflow/underflow (e.g., subtracting a
larger owed amount than available) is surfaced as an error": the subtraction
of a larger amount fails, and so does one that the checked subtraction of the
environment refuses. -/
def Dec.Sub (env : ChainEnv) (a b : Dec) : Res Dec :=
  if a < b then .error .wrapped
  else
    match env.decSub a b with
    | some r => .ok r
    | none => .error .wrapped

/-- The method `Dec.MulWithPercentDecimal`: the checked percent product of the
environment. -/
def Dec.MulWithPercentDecimal (env : ChainEnv) (a b : Dec) : Res Dec :=
  match env.decMulPercent a b with
  | some r => .ok r
  | none => .error .wrapped

def setTotalPool (env : ChainEnv) (s : ModuleContract) (totalPool : TotalPool) :
    Res ModuleContract :=
  match wrapErr (env.rlpTotalPool.encode totalPool) with
  | .error e => .error e
  | .ok store => set s (totalPoolKey env.toEnv) store

def getTotalPool (env : ChainEnv) (s : ModuleContract) : Res TotalPool :=
  match get s (totalPoolKey env.toEnv) with
  | .error .eof => .ok { TotalPool := 0 }
  | .error e => wrapErr (.error e)
  | .ok store => wrapErr (env.rlpTotalPool.decode store)

def depositTotalPool (env : ChainEnv) (s : ModuleContract) (amount : Dec) : Res ModuleContract :=
  match wrapErr (getTotalPool env s) with
  | .error e => .error e
  | .ok totalPool =>
    match wrapErr (Dec.Add env.toEnv totalPool.TotalPool amount) with
    | .error e => .error e
    | .ok sum => wrapErr (setTotalPool env s { TotalPool := sum })

def withdrawTotalPool (env : ChainEnv) (s : ModuleContract) (amount : Dec) : Res ModuleContract :=
  match wrapErr (getTotalPool env s) with
  | .error e => .error e
  | .ok totalPool =>
    match wrapErr (Dec.Sub env totalPool.TotalPool amount) with
    | .error e => .error e
    | .ok rest => wrapErr (setTotalPool env s { TotalPool := rest })

def setStakeInfo (env : ChainEnv) (s : ModuleContract) (stakeInfo : StakeInfo) :
    Res ModuleContract :=
  match wrapErr (env.rlpStakeInfo.encode stakeInfo) with
  | .error e => .error e
  | .ok store => set s (stakeInfoKey env.toEnv stakeInfo.StakeAddress stakeInfo.ConsensusAddr) store

/-- The function `getStakeInfo`; the second component says whether a record was
found. -/
def getStakeInfo (env : ChainEnv) (s : ModuleContract) (stakeAddress consensusAddr : Address) :
    Res (StakeInfo × Bool) :=
  match get s (stakeInfoKey env.toEnv stakeAddress consensusAddr) with
  | .error .eof =>
    .ok ({ StakeAddress := stakeAddress, ConsensusAddr := consensusAddr, Amount := 0 }, false)
  | .error e => wrapErr (.error e)
  | .ok store =>
    match wrapErr (env.rlpStakeInfo.decode store) with
    | .error e => .error e
    | .ok stakeInfo => .ok (stakeInfo, true)

/-! ### Cross chain manager: common helpers -/

/-- The function `common.LeftPadBytes`. -/
def LeftPadBytes (slice : Bytes) (l : Nat) : Bytes :=
  if l ≤ slice.length then slice else List.replicate (l - slice.length) 0 ++ slice

/-- The function `common.TrimLeftZeroes`. -/
def TrimLeftZeroes : Bytes → Bytes
  | 0 :: rest => TrimLeftZeroes rest
  | s => s

/-- The constant `common.EmptyHash`. -/
def EmptyHash : Bytes := List.replicate 32 0

/-- The function `Uint256ToBytes`; `none` is the nil number. -/
def Uint256ToBytes (num : Option Int) : Bytes :=
  match num with
  | none => EmptyHash
  | some n => LeftPadBytes (BigIntBytes n) 32

/-- The function `BytesToUint256`; the nil slice and the empty slice are both
the empty list. -/
def BytesToUint256 (data : Bytes) : Int :=
  if data.length = 0 then 0 else SetBytes (TrimLeftZeroes data)

/-! ### Proposal manager: storage keys -/

def SKP_PROPOSAL_ID : Bytes := strBytes "st_proposal_id"
def SKP_PROPOSAL : Bytes := strBytes "st_proposal"
def SKP_PROPOSAL_LIST : Bytes := strBytes "st_proposal_list"
def SKP_CONFIG_PROPOSAL_LIST : Bytes := strBytes "st_config_proposal_list"
def SKP_COMMUNITY_PROPOSAL_LIST : Bytes := strBytes "st_community_proposal_list"

/-- The key functions of the proposal manager take its contract address `this`
as an argument. -/
def proposalIDKey (this : Address) : Bytes :=
  ConcatKey this [SKP_PROPOSAL_ID]

def proposalKey (this : Address) (ID : Int) : Bytes :=
  ConcatKey this [SKP_PROPOSAL, BigIntBytes ID]

def proposalListKey (this : Address) : Bytes :=
  ConcatKey this [SKP_PROPOSAL_LIST]

def configProposalListKey (this : Address) : Bytes :=
  ConcatKey this [SKP_CONFIG_PROPOSAL_LIST]

def communityProposalListKey (this : Address) : Bytes :=
  ConcatKey this [SKP_COMMUNITY_PROPOSAL_LIST]

/-- The variable `cfg.ProposalManagerContractAddress`. -/
def ProposalManagerContractAddress : Address := List.replicate 18 0 ++ [16, 5]

/-- The variable `cfg.NodeManagerContractAddress`. -/
def NodeManagerContractAddress : Address := List.replicate 18 0 ++ [16, 0]

/-- The variable `cfg.InfoSyncContractAddress`. -/
def InfoSyncContractAddress : Address := List.replicate 18 0 ++ [16, 2]

/-- The variable `cfg.CrossChainManagerContractAddress`. -/
def CrossChainManagerContractAddress : Address := List.replicate 18 0 ++ [16, 3]

/-- The variable `cfg.SideChainManagerContractAddress`. -/
def SideChainManagerContractAddress : Address := List.replicate 18 0 ++ [16, 4]

/-! ### Economic module -/

/-- The method `big.Int.Uint64`: the low 64 bits of the absolute value. -/
def Uint64 (x : Int) : Nat := x.natAbs % 18446744073709551616

/-- The method `StateDB.AddBalance`. -/
def AddBalance (balance : Address → Int) (addr : Address) (amount : Int) : Address → Int :=
  fun a => if a = addr then balance a + amount else balance a

/-- The function `TotalSupply`, up to the ABI packing of its result. -/
def TotalSupply (env : ChainEnv) (s : ModuleContract) : Int :=
  if Uint64 s.height > 0 then env.GenesisSupply + s.height * env.RewardPerBlock
  else env.GenesisSupply

/-- The function `Reward`; the result is the module contract with the new
balances. -/
def Reward (env : ChainEnv) (s : ModuleContract) : Res ModuleContract :=
  if Uint64 s.height = 0 then .ok s
  else
    match wrapErr (GetCommunityInfoImpl env.toEnv s) with
    | .error e => .error e
    | .ok community =>
      match wrapErr (Dec.MulWithPercentDecimal env env.RewardPerBlock community.CommunityRate) with
      | .error e => .error e
      | .ok poolRwdAmt =>
        match wrapErr (Dec.Sub env env.RewardPerBlock poolRwdAmt) with
        | .error e => .error e
        | .ok stakingRwdAmt =>
          let b1 := AddBalance s.balance community.CommunityAddress poolRwdAmt
          let b2 := AddBalance b1 NodeManagerContractAddress stakingRwdAmt
          .ok { s with balance := b2 }

/-! ### Cross chain manager -/

def BLACKED_CHAIN : Bytes := strBytes "BlackedChain"

def blackChainKey (env : ChainEnv) (chainID : Nat) : Bytes :=
  ConcatKey CrossChainManagerContractAddress [BLACKED_CHAIN, env.GetUint64Bytes chainID]

def PutBlackChain (env : ChainEnv) (s : ModuleContract) (chainID : Nat) : Res ModuleContract :=
  .ok (Put s (blackChainKey env chainID) (env.GetUint64Bytes chainID))

def RemoveBlackChain (env : ChainEnv) (s : ModuleContract) (chainID : Nat) : Res ModuleContract :=
  .ok (Delete s (blackChainKey env chainID))

def CheckIfChainBlacked (env : ChainEnv) (s : ModuleContract) (chainID : Nat) : Res Bool :=
  match Get s (blackChainKey env chainID) with
  | none => .ok false
  | some _ => .ok true

def doneTxKey (env : ChainEnv) (chainID : Nat) (crossChainID : Bytes) : Bytes :=
  ConcatKey CrossChainManagerContractAddress [env.DONE_TX, env.GetUint64Bytes chainID, crossChainID]

def PutDoneTx (env : ChainEnv) (s : ModuleContract) (crossChainID : Bytes) (chainID : Nat) :
    Res ModuleContract :=
  .ok (Put s (doneTxKey env chainID crossChainID) crossChainID)

/-- The function `CheckDoneTx`; its error on a value that is not nil is
`ErrTxAlreadyImported`. -/
def CheckDoneTx (env : ChainEnv) (s : ModuleContract) (crossChainID : Bytes) (chainID : Nat) :
    Res Unit :=
  match Get s (doneTxKey env chainID crossChainID) with
  | some _ => .error .wrapped
  | none => .ok ()

/-- What a call of `MakeDepositProposal` reads from outside the sources: the
source chain of the unpacked parameters, their digest (`none` when unpacking or
`Digest` fails), the address recovered from the signature (`none` when
`crypto.SigToPub` fails), the result of `DecodeTxParam` on the extra data
(`none` when it fails), and the roster and the threshold of the voters that the
quorum check reads from the current epoch. -/
structure DepositCall where
  SourceChainID : Nat
  digest : Option Hash
  addr : Option Address
  makeTxParam : Option MakeTxParam
  roster : List Address
  quorum : Nat
  deriving DecidableEq, Repr

/-- The method `NoProofHandler.MakeDepositProposal`; the result is the returned
parameter, `none` for nil, and the store the call leaves. -/
def MakeDepositProposal (env : ChainEnv) (service : ModuleContract) (call : DepositCall) :
    Res (Option MakeTxParam × ModuleContract) :=
  match call.digest with
  | none => .error .wrapped
  | some digest =>
    match call.addr with
    | none => .error .wrapped
    | some addr =>
      match wrapErr (CheckConsensusSigns env.toEnv service call.roster call.quorum digest addr) with
      | .error e => .error e
      | .ok (ok, s1) =>
        if ok then
          match call.makeTxParam with
          | none => .error .wrapped
          | some makeTxParam =>
            match wrapErr (CheckDoneTx env s1 makeTxParam.CrossChainID call.SourceChainID) with
            | .error e => .error e
            | .ok _ =>
              match wrapErr (PutDoneTx env s1 makeTxParam.CrossChainID call.SourceChainID) with
              | .error e => .error e
              | .ok s2 => .ok (some makeTxParam, s2)
        else .ok (none, s1)

/-- Calls of `MakeDepositProposal` one after the other, with their results.  A
call that fails aborts its transaction, so the next call runs on the store the
failed one started from. -/
def runDepositCalls (env : ChainEnv) :
    ModuleContract → List DepositCall → List (Res (Option MakeTxParam))
  | _, [] => []
  | s, call :: rest =>
    match MakeDepositProposal env s call with
    | .ok (r, s1) => .ok r :: runDepositCalls env s1 rest
    | .error e => .error e :: runDepositCalls env s rest

/-- The result returns a transaction parameter with the given cross-chain
ID. -/
def returnsParam (crossChainID : Bytes) (r : Res (Option MakeTxParam)) : Bool :=
  match r with
  | .ok (some p) => decide (p.CrossChainID = crossChainID)
  | _ => false

/-- The results of the calls whose source chain is `chainID`. -/
def resultsFor (chainID : Nat) :
    List DepositCall → List (Res (Option MakeTxParam)) → List (Res (Option MakeTxParam))
  | call :: calls, r :: rs =>
    if call.SourceChainID = chainID then r :: resultsFor chainID calls rs
    else resultsFor chainID calls rs
  | _, _ => []

/-! ### Side chain manager -/

def sideChainKey (env : ChainEnv) (chainID : Nat) : Bytes :=
  ConcatKey SideChainManagerContractAddress [env.SIDE_CHAIN, env.GetUint64Bytes chainID]

/-- The function `GetSideChainObject`; `none` is the nil pointer. -/
def GetSideChainObject (env : ChainEnv) (s : ModuleContract) (chainID : Nat) :
    Res (Option SideChain) :=
  match Get s (sideChainKey env chainID) with
  | some sideChainStore =>
    match wrapErr (env.rlpSideChain.decode sideChainStore) with
    | .error e => .error e
    | .ok sideChain => .ok (some sideChain)
  | none => .ok none

def PutSideChain (env : ChainEnv) (s : ModuleContract) (sideChain : SideChain) :
    Res ModuleContract :=
  match wrapErr (env.rlpSideChain.encode sideChain) with
  | .error e => .error e
  | .ok blob => .ok (Put s (sideChainKey env sideChain.ChainID) blob)

def GetRippleExtraInfo (env : ChainEnv) (s : ModuleContract) (chainId : Nat) :
    Res RippleExtraInfo :=
  match wrapErr (GetSideChainObject env s chainId) with
  | .error e => .error e
  | .ok none => .error .wrapped
  | .ok (some sideChainInfo) => wrapErr (env.rlpRippleExtraInfo.decode sideChainInfo.ExtraInfo)

/-- The function `PutRippleExtraInfo`.  The assignment to
`sideChainInfo.ExtraInfo` dereferences the pointer that `GetSideChainObject`
returned; on the nil pointer that is a panic. -/
def PutRippleExtraInfo (env : ChainEnv) (s : ModuleContract) (chainId : Nat)
    (rippleExtraInfo : RippleExtraInfo) : Res ModuleContract :=
  match wrapErr (env.rlpRippleExtraInfo.encode rippleExtraInfo) with
  | .error e => .error e
  | .ok blob =>
    match wrapErr (GetSideChainObject env s chainId) with
    | .error e => .error e
    | .ok none => .error .panic
    | .ok (some sideChainInfo) =>
      wrapErr (PutSideChain env s { sideChainInfo with ExtraInfo := blob })

/-- The chain handler and the transaction makers that `ImportOuterTransfer`
calls, which are outside the sources: `handler router s` is
`MakeDepositProposal` of the handler that `GetChainHandler` selects for the
router (an error when the router is not supported), `makeRipple` is
`MakeTransaction` of the ripple handler and `makeCommon` is
`common.MakeTransaction`. -/
structure Handlers where
  handler : Nat → ModuleContract → Res (Option MakeTxParam × ModuleContract)
  makeRipple : ModuleContract → MakeTxParam → Nat → Res ModuleContract
  makeCommon : ModuleContract → MakeTxParam → Nat → Res ModuleContract
  RIPPLE_ROUTER : Nat

/-- The function `ImportOuterTransfer` after unpacking, up to the ABI packing of
its result `true`; `srcChainID` is the source chain of the parameters. -/
def ImportOuterTransfer (env : ChainEnv) (h : Handlers) (s : ModuleContract) (srcChainID : Nat) :
    Res ModuleContract :=
  match wrapErr (CheckIfChainBlacked env s srcChainID) with
  | .error e => .error e
  | .ok blacked =>
    if blacked then .error .wrapped
    else
      match wrapErr (GetSideChainObject env s srcChainID) with
      | .error e => .error e
      | .ok none => .error .wrapped
      | .ok (some srcChain) =>
        match h.handler srcChain.Router s with
        | .error e => .error e
        | .ok (none, s1) => .ok s1
        | .ok (some txParam, s1) =>
          match wrapErr (CheckIfChainBlacked env s1 txParam.ToChainID) with
          | .error e => .error e
          | .ok blacked1 =>
            if blacked1 then .error .wrapped
            else
              match wrapErr (GetSideChainObject env s1 txParam.ToChainID) with
              | .error e => .error e
              | .ok none => .error .wrapped
              | .ok (some dstChain) =>
                if dstChain.Router = h.RIPPLE_ROUTER then h.makeRipple s1 txParam srcChainID
                else h.makeCommon s1 txParam srcChainID

/-! ### Info sync -/

def ROOT_INFO : Bytes := strBytes "rootInfo"
def CURRENT_HEIGHT : Bytes := strBytes "currentHeight"

/-- The slice that `Get` returns, as a list of bytes: the nil slice and the
empty slice are both the empty list. -/
def sliceBytes (r : Option Bytes) : Bytes :=
  match r with
  | some b => b
  | none => []

def GetCurrentHeight (env : ChainEnv) (s : ModuleContract) (chainID : Nat) : Res Nat :=
  .ok (env.GetBytesUint32 (sliceBytes
    (Get s (ConcatKey InfoSyncContractAddress [CURRENT_HEIGHT, env.GetUint64Bytes chainID]))))

def GetRootInfo (env : ChainEnv) (s : ModuleContract) (chainID height : Nat) : Res Bytes :=
  .ok (sliceBytes (Get s (ConcatKey InfoSyncContractAddress
    [ROOT_INFO, env.GetUint64Bytes chainID, env.GetUint32Bytes height])))

def NotifyPutRootInfo (env : ChainEnv) (_s : ModuleContract) (_chainID _height : Nat) : Res Unit :=
  if env.AddNotifyOk then .ok () else .error .wrapped

/-- The function `PutRootInfo`.  It writes before it notifies, so the result is
paired with the store the call leaves behind. -/
def PutRootInfo (env : ChainEnv) (s : ModuleContract) (chainID height : Nat) (info : Bytes) :
    Res Unit × ModuleContract :=
  let s1 := Put s (ConcatKey InfoSyncContractAddress
    [ROOT_INFO, env.GetUint64Bytes chainID, env.GetUint32Bytes height]) info
  match wrapErr (GetCurrentHeight env s1 chainID) with
  | .error e => (.error e, s1)
  | .ok currentHeight =>
    let s2 :=
      if currentHeight < height then
        Put s1 (ConcatKey InfoSyncContractAddress [CURRENT_HEIGHT, env.GetUint64Bytes chainID])
          (env.GetUint32Bytes height)
      else s1
    (wrapErr (NotifyPutRootInfo env s2 chainID height), s2)

/-! ### A sample environment for the remaining modules -/

def sampleTotalPoolCodec : Codec TotalPool where
  enc v := some [11, intTok v.TotalPool]
  dec b :=
    match b with
    | [11, r] => some { TotalPool := tokInt r }
    | _ => none
  dec_enc := by
    intro a b h
    have ht : tokInt (intTok a.TotalPool) = a.TotalPool := by
      unfold tokInt intTok; split <;> split <;> omega
    simp only [Option.some.injEq] at h
    subst h
    simp [ht]
  enc_ne_nil := by intro a; simp

def sampleStakeInfoCodec : Codec StakeInfo where
  enc v := some (12 :: intTok v.Amount :: v.StakeAddress.length ::
    (v.StakeAddress ++ v.ConsensusAddr))
  dec b :=
    match b with
    | 12 :: r :: n :: rest =>
      some { StakeAddress := rest.take n, ConsensusAddr := rest.drop n, Amount := tokInt r }
    | _ => none
  dec_enc := by
    intro a b h
    have ht : tokInt (intTok a.Amount) = a.Amount := by
      unfold tokInt intTok; split <;> split <;> omega
    simp only [Option.some.injEq] at h
    subst h
    simp [ht]
  enc_ne_nil := by intro a; simp

def sampleSideChainCodec : Codec SideChain where
  enc v := some (13 :: v.ChainID :: v.Router ::
    encAddrs [v.Owner, v.Name, v.CCMCAddress, v.ExtraInfo])
  dec b :=
    match b with
    | 13 :: c :: r :: rest =>
      match decAddrs rest with
      | some [o, n, a, e] =>
        some { Owner := o, ChainID := c, Router := r, Name := n, CCMCAddress := a, ExtraInfo := e }
      | _ => none
    | _ => none
  dec_enc := by
    intro a b h
    have hr : ∀ l : List Address, decAddrs (encAddrs l) = some l := by
      intro l
      induction l with
      | nil => rfl
      | cons x rest ih =>
        induction x with
        | nil => simp [encAddrs, decAddrs, ih]
        | cons y ys ihy =>
          simp only [encAddrs, List.map_cons, List.cons_append] at ihy ⊢
          simp [decAddrs, ihy]
    simp only [Option.some.injEq] at h
    subst h
    simp only [hr]
  enc_ne_nil := by intro a; simp

def sampleRippleExtraInfoCodec : Codec RippleExtraInfo where
  enc v := some (14 :: encAddrs v.Pks)
  dec b :=
    match b with
    | 14 :: rest => (decAddrs rest).map (fun l => { Pks := l })
    | _ => none
  dec_enc := by
    intro a b h
    have hr : ∀ l : List Address, decAddrs (encAddrs l) = some l := by
      intro l
      induction l with
      | nil => rfl
      | cons x rest ih =>
        induction x with
        | nil => simp [encAddrs, decAddrs, ih]
        | cons y ys ihy =>
          simp only [encAddrs, List.map_cons, List.cons_append] at ihy ⊢
          simp [decAddrs, ihy]
    simp only [Option.some.injEq] at h
    subst h
    simp [hr]
  enc_ne_nil := by intro a; simp

/-- Four bytes, least significant first. -/
def sampleUint32Bytes (n : Nat) : Bytes :=
  [n % 256, n / 256 % 256, n / 65536 % 256, n / 16777216 % 256]

/-- Four bytes read least significant first; any other length reads as 0. -/
def sampleBytesUint32 (b : Bytes) : Nat :=
  match b with
  | [a, b, c, d] => a + 256 * b + 65536 * c + 16777216 * d
  | _ => 0

/-- The sample environment of the remaining modules: one token is `10 ^ 18`
units, the genesis supply is a hundred million tokens, subtraction and percent
product fail beyond 256 bits, the integer encodings are little-endian, and
`AddNotify` accepts every event. -/
def sampleChainEnv : ChainEnv where
  toConfigEnv := sampleConfigEnv
  decSub a b := if (a - b).natAbs < 2 ^ 256 then some (a - b) else none
  decSub_eq := by
    intro a b r h
    simp only at h
    split at h
    · exact (Option.some.inj h).symm
    · exact absurd h (by simp)
  decMulPercent a b := if (a * b / 10000).natAbs < 2 ^ 256 then some (a * b / 10000) else none
  decMulPercent_eq := by
    intro a b r h
    simp only at h
    split at h
    · exact (Option.some.inj h).symm
    · exact absurd h (by simp)
  RewardPerBlock := 1000000000000000000
  GenesisSupply := 100000000000000000000000000
  GetUint64Bytes := sampleUint64Bytes
  GetUint64Bytes_length := by intro n; rfl
  GetUint64Bytes_inj := by
    intro m n hm hn h
    simp only [sampleUint64Bytes, List.cons.injEq, and_true] at h
    omega
  GetUint32Bytes := sampleUint32Bytes
  GetUint32Bytes_length := by intro n; rfl
  GetBytesUint32 := sampleBytesUint32
  GetBytesUint32_bytes := by
    intro n hn
    simp only [sampleUint32Bytes, sampleBytesUint32]
    omega
  GetBytesUint32_nil := rfl
  DONE_TX := strBytes "doneTx"
  SIDE_CHAIN := strBytes "sideChain"
  AddNotifyOk := true
  rlpTotalPool := sampleTotalPoolCodec
  rlpStakeInfo := sampleStakeInfoCodec
  rlpSideChain := sampleSideChainCodec
  rlpRippleExtraInfo := sampleRippleExtraInfoCodec

/-- The store whose total pool is 10. -/
def samplePoolContract : ModuleContract :=
  storeAfter (emptyContract 0) (depositTotalPool sampleChainEnv (emptyContract 0) 10)

/-- The bytes stored under `key` are malformed for the codec: they are not empty
and the decoder refuses them. -/
def malformedAt {α : Type} (c : Codec α) (s : ModuleContract) (key : Bytes) : Prop :=
  s.cacheDB key ≠ [] ∧ c.dec (s.cacheDB key) = none

/-- The store that holds the byte string `[0]`, which no sample codec decodes,
under every key. -/
def sampleMalformedContract : ModuleContract where
  cacheDB := fun _ => [0]
  balance := fun _ => 0
  height := 0

/-- The store at the given height whose community info is the rate 2000 (20%)
and the community address `[7]`. -/
def sampleCommunityContract (height : Int) : ModuleContract :=
  storeAfter (emptyContract height)
    (SetCommunityInfo sampleConfigEnv (emptyContract height) (CommunityInfo.mk 2000 [7]))

/-- The store after the root info `[4]` of chain 3 at height 9 has been put on
the empty store. -/
def sampleRootContract : ModuleContract :=
  (PutRootInfo sampleChainEnv (emptyContract 0) 3 9 [4]).2

/-- Sample handlers: every router has a handler that returns the parameter of a
transfer with cross-chain ID `[1]` to chain 4 and leaves the store as it is,
and both transaction makers succeed without writing. -/
def sampleHandlers : Handlers where
  handler := fun _ s => .ok (some (MakeTxParam.mk [1] 4 []), s)
  makeRipple := fun s _ _ => .ok s
  makeCommon := fun s _ _ => .ok s
  RIPPLE_ROUTER := 6

/-- The store on which the side chains 3 and 4 are registered. -/
def sampleSideChainContract : ModuleContract :=
  storeAfter
    (storeAfter (emptyContract 0)
      (PutSideChain sampleChainEnv (emptyContract 0) (SideChain.mk [] 3 1 [] [] [])))
    (PutSideChain sampleChainEnv
      (storeAfter (emptyContract 0)
        (PutSideChain sampleChainEnv (emptyContract 0) (SideChain.mk [] 3 1 [] [] [])))
      (SideChain.mk [] 4 1 [] [] []))

/-- The store on which the side chains 3 and 4 are registered and chain 4 is
blacklisted. -/
def sampleBlackedContract : ModuleContract :=
  storeAfter sampleSideChainContract (PutBlackChain sampleChainEnv sampleSideChainContract 4)

/-- A call for the deposit with cross-chain ID `[1]` from chain 3 to chain 4,
signed by the given voter; the voters are `[1]` and `[2]` and the threshold is
two. -/
def sampleDepositCall (voter : Address) : DepositCall where
  SourceChainID := 3
  digest := some [8]
  addr := some voter
  makeTxParam := some (MakeTxParam.mk [1] 4 [])
  roster := [[1], [2]]
  quorum := 2

/-- Both voters sign the same deposit, and then both sign it again. -/
def sampleDepositCalls : List DepositCall :=
  [sampleDepositCall [1], sampleDepositCall [2], sampleDepositCall [1], sampleDepositCall [2]]

/-- The same call for a deposit whose cross-chain ID is empty. -/
def sampleEmptyDepositCall (voter : Address) : DepositCall where
  SourceChainID := 3
  digest := some [8]
  addr := some voter
  makeTxParam := some (MakeTxParam.mk [] 4 [])
  roster := [[1], [2]]
  quorum := 2

/-- Both voters sign the deposit with the empty cross-chain ID, and then both
sign it again. -/
def sampleEmptyDepositCalls : List DepositCall :=
  [sampleEmptyDepositCall [1], sampleEmptyDepositCall [2], sampleEmptyDepositCall [1],
    sampleEmptyDepositCall [2]]

/-- The store whose global configuration has the commission-change cap 700,
the stakes 200000 and 2000, 500000 blocks per epoch and five validators of each
kind. -/
def sampleConfigContract : ModuleContract :=
  storeAfter (emptyContract 0)
    (SetGlobalConfig sampleConfigEnv (emptyContract 0)
      (GlobalConfig.mk 700 200000 2000 500000 5 5))

/-! ## Lemmas -/

theorem wrapErr_ok {α : Type} (r : Res α) (a : α) : wrapErr r = .ok a ↔ r = .ok a := by
  cases r with
  | ok b => simp [wrapErr]
  | error e => cases e <;> simp [wrapErr]

theorem ConcatKey_two (c a b : Bytes) : ConcatKey c [a, b] = c ++ (a ++ b) := by
  simp [ConcatKey]

theorem ConcatKey_three (c a b d : Bytes) : ConcatKey c [a, b, d] = c ++ (a ++ (b ++ d)) := by
  simp [ConcatKey]

theorem get_set_same (s s1 : ModuleContract) (k v : Bytes) (h : set s k v = .ok s1) :
    get s1 k = if v = [] then .error .eof else .ok v := by
  simp only [set, Put, Except.ok.injEq] at h
  subst h
  simp [get, customGet, customSet]

theorem get_set_other (s s1 : ModuleContract) (k v k1 : Bytes) (h : set s k v = .ok s1)
    (hk : k1 ≠ k) : get s1 k1 = get s k1 := by
  simp only [set, Put, Except.ok.injEq] at h
  subst h
  simp [get, customGet, customSet, hk]

theorem get_del_same (s s1 : ModuleContract) (k : Bytes) (h : del s k = .ok s1) :
    get s1 k = .error .eof := by
  simp only [del, Delete, Except.ok.injEq] at h
  subst h
  simp [get, customGet, customDel]

theorem get_del_other (s s1 : ModuleContract) (k k1 : Bytes) (h : del s k = .ok s1)
    (hk : k1 ≠ k) : get s1 k1 = get s k1 := by
  simp only [del, Delete, Except.ok.injEq] at h
  subst h
  simp [get, customGet, customDel, hk]

theorem addAll_eq (env : Env) : ∀ (l : List Dec) (acc r : Dec),
    addAll env acc l = .ok r → r = acc + l.sum := by
  intro l
  induction l with
  | nil => intro acc r h; simp [addAll] at h; simp [h]
  | cons a rest ih =>
    intro acc r h
    simp only [addAll] at h
    cases hadd : wrapErr (Dec.Add env acc a) with
    | error e => rw [hadd] at h; simp at h
    | ok sum =>
      rw [hadd] at h
      have h1 := ih sum r h
      rw [wrapErr_ok] at hadd
      have h2 : sum = acc + a := by
        unfold Dec.Add at hadd
        cases hd : env.decAdd acc a with
        | none => rw [hd] at hadd; simp at hadd
        | some x =>
          rw [hd] at hadd
          simp only [Except.ok.injEq] at hadd
          rw [← hadd]
          exact env.decAdd_eq acc a x hd
      rw [h1, h2, List.sum_cons]
      ring

/-- The in-place compaction loop computes the filter of the part of the queue
that is still to be read, behind the part already written, and the checked sum
of the expired amounts. -/
theorem filterLoop_eq (env : Env) (height : Int) (orig : List UnlockingStake) :
    ∀ (k i : Nat) (arr : List UnlockingStake) (j : Nat) (sum : Dec),
      i + k = orig.length → arr.length = orig.length → j ≤ i →
      arr.drop i = orig.drop i →
      filterLoop env height k i arr j sum =
        match addAll env sum
            (((orig.drop i).filter (fun u => !stillLocked height u)).map (fun u => u.Amount)) with
        | .error e => .error e
        | .ok t => .ok (arr.take j ++ (orig.drop i).filter (stillLocked height), t) := by
  intro k
  induction k with
  | zero =>
    intro i arr j sum hik hlen hji hdrop
    have hi : orig.length ≤ i := by omega
    simp [filterLoop, List.drop_of_length_le hi, addAll]
  | succ k ih =>
    intro i arr j sum hik hlen hji hdrop
    have hi : i < orig.length := by omega
    have hia : i < arr.length := by omega
    have hget : arr.get? i = some orig[i] := by
      have h1 : (arr.drop i)[0]? = (orig.drop i)[0]? := by rw [hdrop]
      rw [List.getElem?_drop, List.getElem?_drop] at h1
      simp only [Nat.add_zero] at h1
      rw [List.get?_eq_getElem?, h1, List.getElem?_eq_getElem hi]
    have horig : orig.drop i = orig[i] :: orig.drop (i + 1) := List.drop_eq_getElem_cons hi
    have harr : arr.drop (i + 1) = orig.drop (i + 1) := by
      have h1 : (arr.drop i).drop 1 = (orig.drop i).drop 1 := by rw [hdrop]
      rw [List.drop_drop, List.drop_drop] at h1
      exact h1
    simp only [filterLoop, hget]
    by_cases hc : orig[i].CompleteHeight > height
    · rw [if_pos hc]
      have hlen1 : (arr.set j orig[i]).length = orig.length := by
        rw [List.length_set]; exact hlen
      have hdrop1 : (arr.set j orig[i]).drop (i + 1) = orig.drop (i + 1) := by
        rw [← harr]
        apply List.ext_getElem?
        intro n
        rw [List.getElem?_drop, List.getElem?_drop, List.getElem?_set_ne (by omega)]
      rw [ih (i + 1) _ (j + 1) sum (by omega) hlen1 (by omega) hdrop1, horig]
      have hk1 : stillLocked height orig[i] = true := by
        unfold stillLocked; exact decide_eq_true hc
      have htake : (arr.set j orig[i]).take (j + 1) = arr.take j ++ [orig[i]] := by
        apply List.ext_getElem?
        intro n
        have hl : (List.take j arr).length = j := by
          rw [List.length_take]; omega
        by_cases hn : n < j
        · rw [List.getElem?_take_of_lt (by omega), List.getElem?_append_left (by omega),
            List.getElem?_set_ne (by omega), List.getElem?_take_of_lt hn]
        · by_cases hn2 : n = j
          · subst hn2
            rw [List.getElem?_take_of_lt (by omega), List.getElem?_append_right (by omega), hl,
              List.getElem?_set_self (by omega)]
            simp
          · rw [List.getElem?_eq_none, List.getElem?_eq_none]
            · rw [List.length_append, hl]; simp; omega
            · rw [List.length_take, List.length_set]; omega
      rw [List.filter_cons, List.filter_cons, if_pos hk1, htake]
      have hk2 : (!stillLocked height orig[i]) = false := by rw [hk1]; rfl
      simp only [hk2, Bool.false_eq_true, if_false, List.append_assoc, List.singleton_append]
    · rw [if_neg hc]
      have hk1 : stillLocked height orig[i] = false := by
        unfold stillLocked; exact decide_eq_false hc
      have hk2 : (!stillLocked height orig[i]) = true := by rw [hk1]; rfl
      rw [horig, List.filter_cons, List.filter_cons, if_pos hk2]
      simp only [hk1, Bool.false_eq_true, if_false, List.map_cons, addAll]
      cases hadd : wrapErr (Dec.Add env sum orig[i].Amount) with
      | error e => rfl
      | ok t => exact ih (i + 1) arr j t (by omega) hlen (by omega) harr

theorem getUnlockingInfo_set (env : Env) (s s1 : ModuleContract) (info : UnlockingInfo)
    (h : setUnlockingInfo env s info = .ok s1) :
    getUnlockingInfo env s1 info.StakeAddress = .ok info := by
  unfold setUnlockingInfo at h
  cases henc : env.rlpUnlockingInfo.enc info with
  | none => simp [Codec.encode, henc, wrapErr, bind, Except.bind] at h
  | some b =>
    simp only [Codec.encode, henc, wrapErr, bind, Except.bind] at h
    have hb : b ≠ [] := by
      intro hb; subst hb; exact env.rlpUnlockingInfo.enc_ne_nil info henc
    have hg := get_set_same s s1 _ b h
    rw [if_neg hb] at hg
    unfold getUnlockingInfo
    rw [hg]
    simp [Codec.decode, env.rlpUnlockingInfo.dec_enc info b henc, wrapErr]

theorem getUnlockingInfo_del (env : Env) (s s1 : ModuleContract) (a : Address)
    (h : delUnlockingInfo env s a = .ok s1) :
    getUnlockingInfo env s1 a = .ok { StakeAddress := a, UnlockingStake := [] } := by
  unfold delUnlockingInfo at h
  have hg := get_del_same s s1 _ h
  unfold getUnlockingInfo
  rw [hg]

/-- What `filterExpiredUnlockingInfo` computes on a stored queue. -/
theorem filterExpiredUnlockingInfo_eq (env : Env) (s : ModuleContract) (a : Address)
    (info : UnlockingInfo) (hget : getUnlockingInfo env s a = .ok info) :
    filterExpiredUnlockingInfo env s a =
      match addAll env 0 ((info.UnlockingStake.filter
          (fun u => !stillLocked s.height u)).map (fun u => u.Amount)) with
      | .error e => .error e
      | .ok t =>
        if (info.UnlockingStake.filter (stillLocked s.height)).length = 0 then
          (delUnlockingInfo env s a).map (fun s1 => (t, s1))
        else
          (wrapErr (setUnlockingInfo env s { info with
            UnlockingStake := info.UnlockingStake.filter (stillLocked s.height) })).map
            (fun s1 => (t, s1)) := by
  unfold filterExpiredUnlockingInfo
  have hl := filterLoop_eq env s.height info.UnlockingStake info.UnlockingStake.length 0
    info.UnlockingStake 0 0 (by omega) rfl (by omega) rfl
  simp only [List.drop_zero, List.take_zero, List.nil_append] at hl
  simp only [hget, wrapErr, bind, Except.bind, hl]
  cases hsum : addAll env 0 ((info.UnlockingStake.filter
      (fun u => !stillLocked s.height u)).map (fun u => u.Amount)) with
  | error e => rfl
  | ok t =>
    simp only
    split
    · cases delUnlockingInfo env s a <;> rfl
    · cases wrapErr (setUnlockingInfo env s { info with
        UnlockingStake := info.UnlockingStake.filter (stillLocked s.height) }) <;> rfl

/-- The queue read back after a successful sweep and the amount returned. -/
theorem filterExpiredUnlockingInfo_result (env : Env) (s s1 : ModuleContract) (a : Address)
    (info : UnlockingInfo) (r : Dec)
    (hget : getUnlockingInfo env s a = .ok info) (haddr : info.StakeAddress = a)
    (h : filterExpiredUnlockingInfo env s a = .ok (r, s1)) :
    getUnlockingInfo env s1 a = .ok (UnlockingInfo.mk a
        (info.UnlockingStake.filter (stillLocked s.height))) ∧
      r = sumAmount (info.UnlockingStake.filter (fun u => !stillLocked s.height u)) := by
  rw [filterExpiredUnlockingInfo_eq env s a info hget] at h
  cases hsum : addAll env 0 ((info.UnlockingStake.filter
      (fun u => !stillLocked s.height u)).map (fun u => u.Amount)) with
  | error e => rw [hsum] at h; simp at h
  | ok t =>
    have ht := addAll_eq env _ 0 t hsum
    rw [hsum] at h
    simp only at h
    split at h
    · rename_i hlen
      cases hd : delUnlockingInfo env s a with
      | error e => rw [hd] at h; simp [Except.map] at h
      | ok s2 =>
        rw [hd] at h
        simp only [Except.map, Except.ok.injEq, Prod.mk.injEq] at h
        obtain ⟨h1, h2⟩ := h
        subst h1 h2
        refine ⟨?_, by simpa [sumAmount] using ht⟩
        rw [getUnlockingInfo_del env s s2 a hd, List.length_eq_zero.mp hlen]
    · cases hd : wrapErr (setUnlockingInfo env s { info with
        UnlockingStake := info.UnlockingStake.filter (stillLocked s.height) }) with
      | error e => rw [hd] at h; simp [Except.map] at h
      | ok s2 =>
        rw [hd] at h
        simp only [Except.map, Except.ok.injEq, Prod.mk.injEq] at h
        obtain ⟨h1, h2⟩ := h
        subst h1 h2
        refine ⟨?_, by simpa [sumAmount] using ht⟩
        rw [wrapErr_ok] at hd
        have := getUnlockingInfo_set env s s2 _ hd
        simp only [haddr] at this
        exact this

theorem sumAmount_filter_add (p : UnlockingStake → Bool) (l : List UnlockingStake) :
    sumAmount (l.filter (fun u => !p u)) + sumAmount (l.filter p) = sumAmount l := by
  induction l with
  | nil => simp [sumAmount]
  | cons u rest ih =>
    unfold sumAmount at ih ⊢
    cases hp : p u
    · simp only [List.filter_cons, hp, Bool.not_false, if_true, Bool.false_eq_true, if_false,
        List.map_cons, List.sum_cons]
      linarith
    · simp only [List.filter_cons, hp, Bool.not_true, if_true, Bool.false_eq_true, if_false,
        List.map_cons, List.sum_cons]
      linarith

/-- C1. After a successful sweep at block height `s.height`, the queue read
back for the staker is the original queue restricted to the entries whose
`CompleteHeight` is strictly greater than the height, in their original order.
This covers the staker without a stored queue, whose queue is empty. -/
theorem filterExpiredUnlockingInfo_keeps_locked (env : Env) (s s1 : ModuleContract)
    (stakeAddress : Address) (info : UnlockingInfo) (r : Dec)
    (hget : getUnlockingInfo env s stakeAddress = .ok info)
    (haddr : info.StakeAddress = stakeAddress)
    (h : filterExpiredUnlockingInfo env s stakeAddress = .ok (r, s1)) :
    getUnlockingInfo env s1 stakeAddress = .ok (UnlockingInfo.mk stakeAddress
      (info.UnlockingStake.filter (fun u => decide (s.height < u.CompleteHeight)))) :=
  (filterExpiredUnlockingInfo_result env s s1 stakeAddress info r hget haddr h).1

/-- C2. A successful sweep returns the sum of `Amount` over the entries whose
`CompleteHeight` is at most the block height, which is zero when no entry has
matured, and the returned amount plus the amounts left in the queue is the sum
of the amounts of the original queue. -/
theorem filterExpiredUnlockingInfo_sum (env : Env) (s s1 : ModuleContract)
    (stakeAddress : Address) (info : UnlockingInfo) (r : Dec)
    (hget : getUnlockingInfo env s stakeAddress = .ok info)
    (haddr : info.StakeAddress = stakeAddress)
    (h : filterExpiredUnlockingInfo env s stakeAddress = .ok (r, s1)) :
    r = sumAmount (info.UnlockingStake.filter (fun u => decide (u.CompleteHeight ≤ s.height))) ∧
      ((∀ u ∈ info.UnlockingStake, s.height < u.CompleteHeight) → r = 0) ∧
      ∃ left : UnlockingInfo, getUnlockingInfo env s1 stakeAddress = .ok left ∧
        r + sumAmount left.UnlockingStake = sumAmount info.UnlockingStake := by
  obtain ⟨h1, h2⟩ := filterExpiredUnlockingInfo_result env s s1 stakeAddress info r hget haddr h
  have hf : (fun u : UnlockingStake => !stillLocked s.height u)
      = (fun u => decide (u.CompleteHeight ≤ s.height)) := by
    funext u
    unfold stillLocked
    by_cases hlt : s.height < u.CompleteHeight
    · have hn : ¬ (u.CompleteHeight ≤ s.height) := by omega
      simp [hlt, hn]
    · have hn : u.CompleteHeight ≤ s.height := by omega
      simp [hlt, hn]
  have hr : r = sumAmount
      (info.UnlockingStake.filter (fun u => decide (u.CompleteHeight ≤ s.height))) := by
    rw [h2, hf]
  refine ⟨hr, ?_, ⟨_, h1, ?_⟩⟩
  · intro hall
    rw [hr]
    have : info.UnlockingStake.filter (fun u => decide (u.CompleteHeight ≤ s.height)) = [] := by
      rw [List.filter_eq_nil_iff]
      intro u hu
      have := hall u hu
      simp only [decide_eq_true_eq]
      omega
    rw [this]
    rfl
  · rw [h2]
    exact sumAmount_filter_add (stillLocked s.height) info.UnlockingStake

/-- The sweep of the sample queue at height 8 keeps the entries maturing at 20
and 30. -/
theorem filterExpiredUnlockingInfo_keeps_locked_witness :
    getUnlockingInfo sampleEnv sampleQueueContract [7] = .ok sampleQueue ∧
      filterExpiredUnlockingInfo sampleEnv sampleQueueContract [7]
        = .ok (14, sampleSweptContract) ∧
      getUnlockingInfo sampleEnv sampleSweptContract [7] = .ok (UnlockingInfo.mk [7]
        [{ CompleteHeight := 20, Amount := 3 }, { CompleteHeight := 30, Amount := 1 }]) :=
  ⟨rfl, rfl, filterExpiredUnlockingInfo_keeps_locked sampleEnv sampleQueueContract
    sampleSweptContract [7] sampleQueue 14 rfl rfl rfl⟩

/-- The sweep of the sample queue at height 8 returns 10 + 4. -/
theorem filterExpiredUnlockingInfo_sum_witness :
    (14 : Dec) = sumAmount (sampleQueue.UnlockingStake.filter
        (fun u => decide (u.CompleteHeight ≤ sampleQueueContract.height))) ∧
      ∃ left : UnlockingInfo,
        getUnlockingInfo sampleEnv sampleSweptContract [7] = .ok left ∧
        14 + sumAmount left.UnlockingStake = sumAmount sampleQueue.UnlockingStake :=
  have h := filterExpiredUnlockingInfo_sum sampleEnv sampleQueueContract
    sampleSweptContract [7] sampleQueue 14 rfl rfl rfl
  ⟨h.1, h.2.2⟩

/-- A successful "encode, then set" wrote a non-empty encoding of the value. -/
theorem encode_set_ok {α : Type} (c : Codec α) (s s1 : ModuleContract) (key : Bytes) (v : α)
    (h : (do let store ← wrapErr (c.encode v); set s key store : Res ModuleContract) = .ok s1) :
    ∃ b, c.enc v = some b ∧ b ≠ [] ∧ set s key b = .ok s1 := by
  cases henc : c.enc v with
  | none => simp [Codec.encode, henc, wrapErr, bind, Except.bind] at h
  | some b =>
    simp only [Codec.encode, henc, wrapErr, bind, Except.bind] at h
    refine ⟨b, rfl, ?_, h⟩
    intro hb
    subst hb
    exact c.enc_ne_nil v henc

/-- "Get, then decode" after a successful "encode, then set" under the same key. -/
theorem decode_get_set_same {α : Type} (c : Codec α) (s s1 : ModuleContract) (key : Bytes) (v : α)
    (h : (do let store ← wrapErr (c.encode v); set s key store : Res ModuleContract) = .ok s1) :
    (do let store ← wrapErr (get s1 key); wrapErr (c.decode store) : Res α) = .ok v := by
  obtain ⟨b, henc, hb, hset⟩ := encode_set_ok c s s1 key v h
  have hg := get_set_same s s1 key b hset
  rw [if_neg hb] at hg
  simp [hg, wrapErr, bind, Except.bind, Codec.decode, c.dec_enc v b henc]

/-- "Encode, then set" leaves every other key as it was. -/
theorem get_encode_set_other {α : Type} (c : Codec α) (s s1 : ModuleContract) (key : Bytes)
    (v : α) (k1 : Bytes)
    (h : (do let store ← wrapErr (c.encode v); set s key store : Res ModuleContract) = .ok s1)
    (hk : k1 ≠ key) : get s1 k1 = get s k1 := by
  obtain ⟨b, _, _, hset⟩ := encode_set_ok c s s1 key v h
  exact get_set_other s s1 key b k1 hset hk

theorem validatorSnapshotRewardsKey_inj (env : Env) (a a1 : Address) (p p1 : Nat)
    (hp : p < 2 ^ 64) (hp1 : p1 < 2 ^ 64)
    (h : validatorSnapshotRewardsKey env a p = validatorSnapshotRewardsKey env a1 p1) :
    a = a1 ∧ p = p1 := by
  unfold validatorSnapshotRewardsKey at h
  rw [ConcatKey_three, ConcatKey_three] at h
  have h1 := List.append_cancel_left (List.append_cancel_left h)
  have h2 := List.append_inj' h1 (by rw [env.Uint64Bytes_length, env.Uint64Bytes_length])
  exact ⟨h2.1, env.Uint64Bytes_inj p p1 hp hp1 h2.2⟩

theorem getValidatorSnapshotRewards_congr (env : Env) (s s1 : ModuleContract) (a : Address)
    (p : Nat)
    (h : get s1 (validatorSnapshotRewardsKey env a p) = get s (validatorSnapshotRewardsKey env a p)) :
    getValidatorSnapshotRewards env s1 a p = getValidatorSnapshotRewards env s a p := by
  unfold getValidatorSnapshotRewards
  rw [h]

theorem increaseReferenceCount_eq (env : Env) (s : ModuleContract) (a : Address) (p : Nat)
    (v : ValidatorSnapshotRewards) (hget : getValidatorSnapshotRewards env s a p = .ok v) :
    increaseReferenceCount env s a p =
      if v.ReferenceCount > 2 then .error .panic
      else wrapErr (setValidatorSnapshotRewards env s a p
        { v with ReferenceCount := (v.ReferenceCount + 1) % 18446744073709551616 }) := by
  unfold increaseReferenceCount
  rw [hget]
  rfl

theorem decreaseReferenceCount_eq (env : Env) (s : ModuleContract) (a : Address) (p : Nat)
    (v : ValidatorSnapshotRewards) (hget : getValidatorSnapshotRewards env s a p = .ok v) :
    decreaseReferenceCount env s a p =
      if v.ReferenceCount = 0 then .error .panic
      else if (v.ReferenceCount + 18446744073709551616 - 1) % 18446744073709551616 = 0 then
        .ok (Delete s (validatorSnapshotRewardsKey env a p))
      else wrapErr (setValidatorSnapshotRewards env s a p
        { v with ReferenceCount := (v.ReferenceCount + 18446744073709551616 - 1) % 18446744073709551616 }) := by
  unfold decreaseReferenceCount
  rw [hget]
  rfl

/-- C4. For a stored snapshot with reference count `c ≥ 1`: the decrease
removes the record when `c = 1` and otherwise leaves count `c - 1` with the
same ratio; an increase that returns leaves the record in place with the same
ratio; and neither touches the snapshot of another validator or period. -/
theorem referenceCount_updates_snapshot (env : Env) (s : ModuleContract) (a : Address) (p : Nat)
    (v : ValidatorSnapshotRewards) (hp : p < 2 ^ 64)
    (hget : getValidatorSnapshotRewards env s a p = .ok v)
    (hc : 1 ≤ v.ReferenceCount) (hc64 : v.ReferenceCount < 2 ^ 64) :
    (v.ReferenceCount = 1 → ∃ s1, decreaseReferenceCount env s a p = .ok s1 ∧
        get s1 (validatorSnapshotRewardsKey env a p) = .error .eof) ∧
      (v.ReferenceCount ≠ 1 → ∀ s1, decreaseReferenceCount env s a p = .ok s1 →
        getValidatorSnapshotRewards env s1 a p = .ok
          (ValidatorSnapshotRewards.mk v.AccumulatedRewardsRatio (v.ReferenceCount - 1))) ∧
      (∀ s1, increaseReferenceCount env s a p = .ok s1 →
        getValidatorSnapshotRewards env s1 a p = .ok
          (ValidatorSnapshotRewards.mk v.AccumulatedRewardsRatio (v.ReferenceCount + 1))) ∧
      (∀ s1 a1 p1, p1 < 2 ^ 64 → (a1, p1) ≠ (a, p) →
        (decreaseReferenceCount env s a p = .ok s1 ∨ increaseReferenceCount env s a p = .ok s1) →
        getValidatorSnapshotRewards env s1 a1 p1 = getValidatorSnapshotRewards env s a1 p1) := by
  have hne : v.ReferenceCount ≠ 0 := by omega
  have hdec : (v.ReferenceCount + 18446744073709551616 - 1) % 18446744073709551616 = v.ReferenceCount - 1 := by omega
  have hD := decreaseReferenceCount_eq env s a p v hget
  have hI := increaseReferenceCount_eq env s a p v hget
  rw [if_neg hne, hdec] at hD
  refine ⟨?_, ?_, ?_, ?_⟩
  · intro h1
    rw [if_pos (by omega)] at hD
    exact ⟨_, hD, get_del_same s _ _ rfl⟩
  · intro h1 s1 hs1
    rw [if_neg (by omega), hs1] at hD
    have hset := (wrapErr_ok _ _).mp hD.symm
    exact decode_get_set_same env.rlpSnapshot s s1 _ _ hset
  · intro s1 hs1
    rw [hs1] at hI
    by_cases h2 : v.ReferenceCount > 2
    · rw [if_pos h2] at hI; simp at hI
    · rw [if_neg h2] at hI
      have hmod : (v.ReferenceCount + 1) % 18446744073709551616 = v.ReferenceCount + 1 := by omega
      rw [hmod] at hI
      have hset := (wrapErr_ok _ _).mp hI.symm
      exact decode_get_set_same env.rlpSnapshot s s1 _ _ hset
  · intro s1 a1 p1 hp1 hneq hop
    apply getValidatorSnapshotRewards_congr
    have hk : validatorSnapshotRewardsKey env a1 p1 ≠ validatorSnapshotRewardsKey env a p := by
      intro hk
      obtain ⟨e1, e2⟩ := validatorSnapshotRewardsKey_inj env a1 a p1 p hp1 hp hk
      exact hneq (by rw [e1, e2])
    rcases hop with hop | hop
    · rw [hop] at hD
      by_cases h1 : v.ReferenceCount - 1 = 0
      · rw [if_pos h1] at hD
        exact get_del_other s s1 _ _ hD.symm hk
      · rw [if_neg h1] at hD
        have hset := (wrapErr_ok _ _).mp hD.symm
        exact get_encode_set_other env.rlpSnapshot s s1 _ _ _ hset hk
    · rw [hop] at hI
      by_cases h2 : v.ReferenceCount > 2
      · rw [if_pos h2] at hI; simp at hI
      · rw [if_neg h2] at hI
        have hset := (wrapErr_ok _ _).mp hI.symm
        exact get_encode_set_other env.rlpSnapshot s s1 _ _ _ hset hk

/-- Witness for C4 on the snapshot with ratio 5 and count 2 of the validator
`[1]` at period 0: a decrease leaves count 1 and an increase leaves the ratio. -/
theorem referenceCount_updates_snapshot_witness :
    getValidatorSnapshotRewards sampleEnv (sampleSnapshotContract 2) [1] 0
        = .ok (ValidatorSnapshotRewards.mk 5 2) ∧
      (∀ s1, decreaseReferenceCount sampleEnv (sampleSnapshotContract 2) [1] 0 = .ok s1 →
        getValidatorSnapshotRewards sampleEnv s1 [1] 0
          = .ok (ValidatorSnapshotRewards.mk 5 1)) ∧
      (∀ s1, increaseReferenceCount sampleEnv (sampleSnapshotContract 2) [1] 0 = .ok s1 →
        getValidatorSnapshotRewards sampleEnv s1 [1] 0
          = .ok (ValidatorSnapshotRewards.mk 5 3)) :=
  have h := referenceCount_updates_snapshot sampleEnv (sampleSnapshotContract 2) [1] 0
    (ValidatorSnapshotRewards.mk 5 2) (by decide) rfl (by decide) (by decide)
  ⟨rfl, h.2.1 (by decide), h.2.2.1⟩

/-- C3 at the failing input.  On the stored snapshot with reference count 2,
`increaseReferenceCount` returns normally and the count read back is 3; the
guard `ReferenceCount > 2` only stops the increase at count 3.  At count 0,
`decreaseReferenceCount` panics. -/
theorem increaseReferenceCount_at_two_stores_three :
    getValidatorSnapshotRewards sampleEnv (sampleSnapshotContract 2) [1] 0
        = .ok (ValidatorSnapshotRewards.mk 5 2) ∧
      (∃ s1, increaseReferenceCount sampleEnv (sampleSnapshotContract 2) [1] 0 = .ok s1 ∧
        getValidatorSnapshotRewards sampleEnv s1 [1] 0
          = .ok (ValidatorSnapshotRewards.mk 5 3)) ∧
      increaseReferenceCount sampleEnv (sampleSnapshotContract 3) [1] 0 = .error .panic ∧
      decreaseReferenceCount sampleEnv (sampleSnapshotContract 0) [1] 0 = .error .panic :=
  ⟨rfl, ⟨_, rfl, rfl⟩, rfl, rfl⟩

theorem bind_eq_ok {α β : Type} (x : Res α) (f : α → Res β) (b : β)
    (h : x >>= f = .ok b) : ∃ a, x = .ok a ∧ f a = .ok b := by
  cases x with
  | error e => simp [bind, Except.bind] at h
  | ok a => exact ⟨a, rfl, h⟩

/-- Two keys whose prefixes differ at some position are different, whatever
follows the prefixes. -/
theorem ConcatKey_ne_of_prefix (c p q : Bytes) (x y : List Bytes) (i a b : Nat)
    (hp : p[i]? = some a) (hq : q[i]? = some b) (hab : a ≠ b) :
    ConcatKey c (p :: x) ≠ ConcatKey c (q :: y) := by
  intro h
  unfold ConcatKey at h
  have h1 := List.append_cancel_left h
  simp only [List.foldl_cons, List.nil_append] at h1
  have e1 : ∀ (l : List Bytes) (acc : Bytes),
      List.foldl (fun acc a => acc ++ a) acc l = acc ++ List.foldl (fun acc a => acc ++ a) [] l := by
    intro l
    induction l with
    | nil => intro acc; simp
    | cons z rest ih =>
      intro acc
      simp only [List.foldl_cons, List.nil_append]
      rw [ih (acc ++ z), ih z, List.append_assoc]
  rw [e1 x p, e1 y q] at h1
  have hpl : i < p.length := by
    by_contra hn
    rw [List.getElem?_eq_none (by omega)] at hp
    exact absurd hp (by simp)
  have hql : i < q.length := by
    by_contra hn
    rw [List.getElem?_eq_none (by omega)] at hq
    exact absurd hq (by simp)
  have h2 := congrArg (fun l => l[i]?) h1
  simp only [List.getElem?_append_left hpl, List.getElem?_append_left hql, hp, hq,
    Option.some.injEq] at h2
  exact hab h2

theorem ConcatKey_two_inj (c p a b : Bytes) (h : ConcatKey c [p, a] = ConcatKey c [p, b]) :
    a = b := by
  rw [ConcatKey_two, ConcatKey_two] at h
  exact List.append_cancel_left (List.append_cancel_left h)

theorem validatorSnapshotRewardsKey_addr (env : Env) (a a1 : Address) (p p1 : Nat)
    (h : validatorSnapshotRewardsKey env a p = validatorSnapshotRewardsKey env a1 p1) :
    a = a1 := by
  unfold validatorSnapshotRewardsKey at h
  rw [ConcatKey_three, ConcatKey_three] at h
  have h1 := List.append_cancel_left (List.append_cancel_left h)
  exact (List.append_inj' h1 (by rw [env.Uint64Bytes_length, env.Uint64Bytes_length])).1

theorem snapshot_ne_accumulated (env : Env) (a a1 : Address) (p : Nat) :
    validatorSnapshotRewardsKey env a p ≠ validatorAccumulatedRewardsKey env a1 :=
  ConcatKey_ne_of_prefix _ _ _ _ _ 13 115 97 rfl rfl (by decide)

theorem snapshot_ne_commission (env : Env) (a a1 : Address) (p : Nat) :
    validatorSnapshotRewardsKey env a p ≠ accumulatedCommissionKey env a1 :=
  ConcatKey_ne_of_prefix _ _ _ _ _ 3 118 97 rfl rfl (by decide)

theorem snapshot_ne_outstanding (env : Env) (a a1 : Address) (p : Nat) :
    validatorSnapshotRewardsKey env a p ≠ validatorOutstandingRewardsKey env a1 :=
  ConcatKey_ne_of_prefix _ _ _ _ _ 13 115 111 rfl rfl (by decide)

theorem accumulated_ne_commission (env : Env) (a a1 : Address) :
    validatorAccumulatedRewardsKey env a ≠ accumulatedCommissionKey env a1 :=
  ConcatKey_ne_of_prefix _ _ _ _ _ 3 118 97 rfl rfl (by decide)

theorem accumulated_ne_outstanding (env : Env) (a a1 : Address) :
    validatorAccumulatedRewardsKey env a ≠ validatorOutstandingRewardsKey env a1 :=
  ConcatKey_ne_of_prefix _ _ _ _ _ 13 97 111 rfl rfl (by decide)

theorem commission_ne_outstanding (env : Env) (a a1 : Address) :
    accumulatedCommissionKey env a ≠ validatorOutstandingRewardsKey env a1 :=
  ConcatKey_ne_of_prefix _ _ _ _ _ 3 97 118 rfl rfl (by decide)

theorem getValidatorAccumulatedRewards_congr (env : Env) (s s1 : ModuleContract) (a : Address)
    (h : get s1 (validatorAccumulatedRewardsKey env a) = get s (validatorAccumulatedRewardsKey env a)) :
    getValidatorAccumulatedRewards env s1 a = getValidatorAccumulatedRewards env s a := by
  unfold getValidatorAccumulatedRewards
  rw [h]

theorem getAccumulatedCommission_congr (env : Env) (s s1 : ModuleContract) (a : Address)
    (h : get s1 (accumulatedCommissionKey env a) = get s (accumulatedCommissionKey env a)) :
    getAccumulatedCommission env s1 a = getAccumulatedCommission env s a := by
  unfold getAccumulatedCommission
  rw [h]

theorem getValidatorOutstandingRewards_congr (env : Env) (s s1 : ModuleContract) (a : Address)
    (h : get s1 (validatorOutstandingRewardsKey env a) = get s (validatorOutstandingRewardsKey env a)) :
    getValidatorOutstandingRewards env s1 a = getValidatorOutstandingRewards env s a := by
  unfold getValidatorOutstandingRewards
  rw [h]

/-- The four writes of `AfterValidatorCreated`, in order. -/
theorem AfterValidatorCreated_steps (env : Env) (s s4 : ModuleContract) (validator : Validator)
    (h : AfterValidatorCreated env s validator = .ok s4) :
    ∃ s1 s2 s3,
      setValidatorSnapshotRewards env s validator.ConsensusAddress 0
        { AccumulatedRewardsRatio := 0, ReferenceCount := 1 } = .ok s1 ∧
      setValidatorAccumulatedRewards env s1 validator.ConsensusAddress
        { Rewards := 0, Period := 1 } = .ok s2 ∧
      setAccumulatedCommission env s2 validator.ConsensusAddress { Amount := 0 } = .ok s3 ∧
      setValidatorOutstandingRewards env s3 validator.ConsensusAddress { Rewards := 0 }
        = .ok s4 := by
  unfold AfterValidatorCreated at h
  obtain ⟨s1, h1, h⟩ := bind_eq_ok _ _ _ h
  obtain ⟨s2, h2, h⟩ := bind_eq_ok _ _ _ h
  obtain ⟨s3, h3, h⟩ := bind_eq_ok _ _ _ h
  obtain ⟨s4', h4, h⟩ := bind_eq_ok _ _ _ h
  simp only [pure, Except.pure, Except.ok.injEq] at h
  subst h
  exact ⟨s1, s2, s3, (wrapErr_ok _ _).mp h1, (wrapErr_ok _ _).mp h2, (wrapErr_ok _ _).mp h3,
    (wrapErr_ok _ _).mp h4⟩

/-- C5. After `AfterValidatorCreated` succeeds the store holds, under the
consensus address of the validator, a snapshot at period 0 with ratio 0 and
reference count 1, accumulated rewards with ratio 0 and period 1, commission 0
and outstanding rewards 0; the four records of every other validator read as
before. -/
theorem AfterValidatorCreated_seeds (env : Env) (s s4 : ModuleContract) (validator : Validator)
    (h : AfterValidatorCreated env s validator = .ok s4) :
    getValidatorSnapshotRewards env s4 validator.ConsensusAddress 0
        = .ok (ValidatorSnapshotRewards.mk 0 1) ∧
      getValidatorAccumulatedRewards env s4 validator.ConsensusAddress
        = .ok (ValidatorAccumulatedRewards.mk 0 1) ∧
      getAccumulatedCommission env s4 validator.ConsensusAddress
        = .ok (AccumulatedCommission.mk 0) ∧
      getValidatorOutstandingRewards env s4 validator.ConsensusAddress
        = .ok (ValidatorOutstandingRewards.mk 0) ∧
      ∀ other : Address, other ≠ validator.ConsensusAddress →
        (∀ period, getValidatorSnapshotRewards env s4 other period
          = getValidatorSnapshotRewards env s other period) ∧
        getValidatorAccumulatedRewards env s4 other = getValidatorAccumulatedRewards env s other ∧
        getAccumulatedCommission env s4 other = getAccumulatedCommission env s other ∧
        getValidatorOutstandingRewards env s4 other
          = getValidatorOutstandingRewards env s other := by
  obtain ⟨s1, s2, s3, h1, h2, h3, h4⟩ := AfterValidatorCreated_steps env s s4 validator h
  have g1 : ∀ k, k ≠ validatorSnapshotRewardsKey env validator.ConsensusAddress 0 →
      get s1 k = get s k := fun k hk => get_encode_set_other env.rlpSnapshot s s1 _ _ k h1 hk
  have g2 : ∀ k, k ≠ validatorAccumulatedRewardsKey env validator.ConsensusAddress →
      get s2 k = get s1 k := fun k hk => get_encode_set_other env.rlpAccumulated s1 s2 _ _ k h2 hk
  have g3 : ∀ k, k ≠ accumulatedCommissionKey env validator.ConsensusAddress →
      get s3 k = get s2 k := fun k hk => get_encode_set_other env.rlpCommission s2 s3 _ _ k h3 hk
  have g4 : ∀ k, k ≠ validatorOutstandingRewardsKey env validator.ConsensusAddress →
      get s4 k = get s3 k := fun k hk => get_encode_set_other env.rlpOutstanding s3 s4 _ _ k h4 hk
  refine ⟨?_, ?_, ?_, ?_, ?_⟩
  · have e := decode_get_set_same env.rlpSnapshot s s1 _ _ h1
    rw [← e]
    show getValidatorSnapshotRewards env s4 _ _ = getValidatorSnapshotRewards env s1 _ _
    apply getValidatorSnapshotRewards_congr
    rw [g4 _ (snapshot_ne_outstanding env _ _ _), g3 _ (snapshot_ne_commission env _ _ _),
      g2 _ (snapshot_ne_accumulated env _ _ _)]
  · have e := decode_get_set_same env.rlpAccumulated s1 s2 _ _ h2
    rw [← e]
    show getValidatorAccumulatedRewards env s4 _ = getValidatorAccumulatedRewards env s2 _
    apply getValidatorAccumulatedRewards_congr
    rw [g4 _ (accumulated_ne_outstanding env _ _), g3 _ (accumulated_ne_commission env _ _)]
  · have e := decode_get_set_same env.rlpCommission s2 s3 _ _ h3
    rw [← e]
    show getAccumulatedCommission env s4 _ = getAccumulatedCommission env s3 _
    apply getAccumulatedCommission_congr
    rw [g4 _ (commission_ne_outstanding env _ _)]
  · exact decode_get_set_same env.rlpOutstanding s3 s4 _ _ h4
  · intro other hother
    have hs : ∀ p, validatorSnapshotRewardsKey env other p
        ≠ validatorSnapshotRewardsKey env validator.ConsensusAddress 0 :=
      fun p hk => hother (validatorSnapshotRewardsKey_addr env _ _ _ _ hk)
    have ha : validatorAccumulatedRewardsKey env other
        ≠ validatorAccumulatedRewardsKey env validator.ConsensusAddress :=
      fun hk => hother (ConcatKey_two_inj _ _ _ _ hk)
    have hc : accumulatedCommissionKey env other
        ≠ accumulatedCommissionKey env validator.ConsensusAddress :=
      fun hk => hother (ConcatKey_two_inj _ _ _ _ hk)
    have ho : validatorOutstandingRewardsKey env other
        ≠ validatorOutstandingRewardsKey env validator.ConsensusAddress :=
      fun hk => hother (ConcatKey_two_inj _ _ _ _ hk)
    refine ⟨fun p => ?_, ?_, ?_, ?_⟩
    · apply getValidatorSnapshotRewards_congr
      rw [g4 _ (snapshot_ne_outstanding env _ _ _), g3 _ (snapshot_ne_commission env _ _ _),
        g2 _ (snapshot_ne_accumulated env _ _ _), g1 _ (hs p)]
    · apply getValidatorAccumulatedRewards_congr
      rw [g4 _ (accumulated_ne_outstanding env _ _), g3 _ (accumulated_ne_commission env _ _),
        g2 _ ha, g1 _ (snapshot_ne_accumulated env _ _ _).symm]
    · apply getAccumulatedCommission_congr
      rw [g4 _ (commission_ne_outstanding env _ _), g3 _ hc,
        g2 _ (accumulated_ne_commission env _ _).symm,
        g1 _ (snapshot_ne_commission env _ _ _).symm]
    · apply getValidatorOutstandingRewards_congr
      rw [g4 _ ho, g3 _ (commission_ne_outstanding env _ _).symm,
        g2 _ (accumulated_ne_outstanding env _ _).symm,
        g1 _ (snapshot_ne_outstanding env _ _ _).symm]

/-- Witness for C5: creating `sampleValidator` on the empty store. -/
theorem AfterValidatorCreated_seeds_witness :
    AfterValidatorCreated sampleEnv (emptyContract 0) sampleValidator
        = .ok sampleCreatedContract ∧
      getValidatorSnapshotRewards sampleEnv sampleCreatedContract [1] 0
        = .ok (ValidatorSnapshotRewards.mk 0 1) ∧
      getValidatorAccumulatedRewards sampleEnv sampleCreatedContract [1]
        = .ok (ValidatorAccumulatedRewards.mk 0 1) :=
  have h := AfterValidatorCreated_seeds sampleEnv (emptyContract 0) sampleCreatedContract
    sampleValidator rfl
  ⟨rfl, h.1, h.2.1⟩

theorem get_del_cases (s s1 : ModuleContract) (k k1 : Bytes) (h : del s k = .ok s1) :
    get s1 k1 = get s k1 ∨ get s1 k1 = .error .eof := by
  by_cases hk : k1 = k
  · subst hk
    exact Or.inr (get_del_same s s1 _ h)
  · exact Or.inl (get_del_other s s1 k k1 h hk)

theorem get_del_eof (s s1 : ModuleContract) (k k1 : Bytes) (h : del s k = .ok s1)
    (h1 : get s k1 = .error .eof) : get s1 k1 = .error .eof := by
  rcases get_del_cases s s1 k k1 h with h2 | h2
  · rw [h2, h1]
  · exact h2

/-- A successful `ModuleTransfer` leaves the cache database alone and moves
the amount between the balances. -/
theorem ModuleTransfer_ok (env : Env) (s s1 : ModuleContract) (sender receiver : Address)
    (amount : Int) (h : ModuleTransfer env s sender receiver amount = .ok s1) :
    s1.cacheDB = s.cacheDB ∧
      ∀ x, s1.balance x =
        (if x = sender then s.balance x - amount else s.balance x)
          + (if x = receiver then amount else 0) := by
  unfold ModuleTransfer at h
  split at h
  · simp at h
  · split at h
    · simp at h
    · simp only [Except.ok.injEq] at h
      subst h
      refine ⟨rfl, fun x => ?_⟩
      simp only
      split <;> simp

/-- The steps of a successful `AfterValidatorRemoved`. -/
theorem AfterValidatorRemoved_steps (env : Env) (s s7 : ModuleContract) (validator : Validator)
    (h : AfterValidatorRemoved env s validator = .ok s7) :
    ∃ outstanding communityInfo s1 s2 s3 s4 s5 accumulated s6,
      getValidatorOutstandingRewards env s validator.ConsensusAddress = .ok outstanding ∧
      GetCommunityInfoImpl env s = .ok communityInfo ∧
      ModuleTransfer env s env.this communityInfo.CommunityAddress outstanding.Rewards
        = .ok s1 ∧
      delSignerAddr env s1 validator.SignerAddress = .ok s2 ∧
      delProposalAddr env s2 validator.ProposalAddress = .ok s3 ∧
      delValidatorOutstandingRewards env s3 validator.ConsensusAddress = .ok s4 ∧
      delAccumulatedCommission env s4 validator.ConsensusAddress = .ok s5 ∧
      getValidatorAccumulatedRewards env s5 validator.ConsensusAddress = .ok accumulated ∧
      delValidatorAccumulatedRewards env s5 validator.ConsensusAddress = .ok s6 ∧
      delValidatorSnapshotRewards env s6 validator.ConsensusAddress
        ((accumulated.Period + 18446744073709551616 - 1) % 18446744073709551616) = .ok s7 := by
  unfold AfterValidatorRemoved at h
  obtain ⟨outstanding, h1, h⟩ := bind_eq_ok _ _ _ h
  obtain ⟨communityInfo, h2, h⟩ := bind_eq_ok _ _ _ h
  obtain ⟨s1, h3, h⟩ := bind_eq_ok _ _ _ h
  obtain ⟨s2, h4, h⟩ := bind_eq_ok _ _ _ h
  obtain ⟨s3, h5, h⟩ := bind_eq_ok _ _ _ h
  obtain ⟨s4, h6, h⟩ := bind_eq_ok _ _ _ h
  obtain ⟨s5, h7, h⟩ := bind_eq_ok _ _ _ h
  obtain ⟨accumulated, h8, h⟩ := bind_eq_ok _ _ _ h
  obtain ⟨s6, h9, h⟩ := bind_eq_ok _ _ _ h
  obtain ⟨s7', h10, h⟩ := bind_eq_ok _ _ _ h
  simp only [pure, Except.pure, Except.ok.injEq] at h
  subst h
  exact ⟨outstanding, communityInfo, s1, s2, s3, s4, s5, accumulated, s6,
    (wrapErr_ok _ _).mp h1, (wrapErr_ok _ _).mp h2, (wrapErr_ok _ _).mp h3, h4, h5, h6, h7,
    (wrapErr_ok _ _).mp h8, h9, h10⟩

theorem getValidatorAccumulatedRewards_ok_get (env : Env) (s : ModuleContract) (a : Address)
    (v : ValidatorAccumulatedRewards) (h : getValidatorAccumulatedRewards env s a = .ok v) :
    get s (validatorAccumulatedRewardsKey env a) ≠ .error .eof := by
  intro hg
  unfold getValidatorAccumulatedRewards at h
  rw [hg] at h
  simp [wrapErr, bind, Except.bind] at h

theorem get_del_of_ne_eof (s s1 : ModuleContract) (k k1 : Bytes) (h : del s k = .ok s1)
    (h1 : get s1 k1 ≠ .error .eof) : get s1 k1 = get s k1 := by
  rcases get_del_cases s s1 k k1 h with h2 | h2
  · exact h2
  · exact absurd h2 h1

theorem get_of_cacheDB (s s1 : ModuleContract) (h : s1.cacheDB = s.cacheDB) (k : Bytes) :
    get s1 k = get s k := by
  unfold get
  rw [h]

/-- C6. After `AfterValidatorRemoved` succeeds for a validator whose
accumulated-rewards period is `P ≥ 1`, the commission, outstanding-rewards and
accumulated-rewards records and the snapshot at period `P - 1` are absent, and
the balances differ from the old ones by the outstanding rewards, taken from
the module address and given to the community address. -/
theorem AfterValidatorRemoved_clears (env : Env) (s s7 : ModuleContract) (validator : Validator)
    (outstanding : ValidatorOutstandingRewards) (accumulated : ValidatorAccumulatedRewards)
    (communityInfo : CommunityInfo)
    (hout : getValidatorOutstandingRewards env s validator.ConsensusAddress = .ok outstanding)
    (hacc : getValidatorAccumulatedRewards env s validator.ConsensusAddress = .ok accumulated)
    (hP : 1 ≤ accumulated.Period) (hP64 : accumulated.Period < 2 ^ 64)
    (hci : GetCommunityInfoImpl env s = .ok communityInfo)
    (h : AfterValidatorRemoved env s validator = .ok s7) :
    get s7 (accumulatedCommissionKey env validator.ConsensusAddress) = .error .eof ∧
      get s7 (validatorOutstandingRewardsKey env validator.ConsensusAddress) = .error .eof ∧
      get s7 (validatorAccumulatedRewardsKey env validator.ConsensusAddress) = .error .eof ∧
      get s7 (validatorSnapshotRewardsKey env validator.ConsensusAddress
        (accumulated.Period - 1)) = .error .eof ∧
      ∀ x, s7.balance x =
        (if x = env.this then s.balance x - outstanding.Rewards else s.balance x)
          + (if x = communityInfo.CommunityAddress then outstanding.Rewards else 0) := by
  obtain ⟨out1, ci1, s1, s2, s3, s4, s5, acc1, s6, h1, h2, h3, h4, h5, h6, h7, h8, h9, h10⟩ :=
    AfterValidatorRemoved_steps env s s7 validator h
  rw [hout] at h1
  rw [hci] at h2
  simp only [Except.ok.injEq] at h1 h2
  subst h1 h2
  obtain ⟨hdb, hbal⟩ := ModuleTransfer_ok env s s1 _ _ _ h3
  unfold delSignerAddr at h4
  unfold delProposalAddr at h5
  unfold delValidatorOutstandingRewards at h6
  unfold delAccumulatedCommission at h7
  unfold delValidatorAccumulatedRewards at h9
  unfold delValidatorSnapshotRewards at h10
  -- the period read after the deletions is the period stored before the call
  have hne := getValidatorAccumulatedRewards_ok_get env s5 _ acc1 h8
  have e5 := get_del_of_ne_eof s4 s5 _ _ h7 hne
  have e4 := get_del_of_ne_eof s3 s4 _ _ h6 (by rw [← e5]; exact hne)
  have e3 := get_del_of_ne_eof s2 s3 _ _ h5 (by rw [← e4, ← e5]; exact hne)
  have e2 := get_del_of_ne_eof s1 s2 _ _ h4 (by rw [← e3, ← e4, ← e5]; exact hne)
  have e1 := get_of_cacheDB s s1 hdb (validatorAccumulatedRewardsKey env validator.ConsensusAddress)
  have hsame : getValidatorAccumulatedRewards env s5 validator.ConsensusAddress
      = getValidatorAccumulatedRewards env s validator.ConsensusAddress :=
    getValidatorAccumulatedRewards_congr env s s5 _ (by rw [e5, e4, e3, e2, e1])
  rw [hsame, hacc] at h8
  simp only [Except.ok.injEq] at h8
  subst h8
  have hper : (accumulated.Period + 18446744073709551616 - 1) % 18446744073709551616
      = accumulated.Period - 1 := by omega
  rw [hper] at h10
  have b2 : s2.balance = s1.balance := by
    simp only [del, Delete, Except.ok.injEq] at h4; rw [← h4]
  have b3 : s3.balance = s2.balance := by
    simp only [del, Delete, Except.ok.injEq] at h5; rw [← h5]
  have b4 : s4.balance = s3.balance := by
    simp only [del, Delete, Except.ok.injEq] at h6; rw [← h6]
  have b5 : s5.balance = s4.balance := by
    simp only [del, Delete, Except.ok.injEq] at h7; rw [← h7]
  have b6 : s6.balance = s5.balance := by
    simp only [del, Delete, Except.ok.injEq] at h9; rw [← h9]
  have b7 : s7.balance = s6.balance := by
    simp only [del, Delete, Except.ok.injEq] at h10; rw [← h10]
  refine ⟨?_, ?_, ?_, ?_, ?_⟩
  · exact get_del_eof s6 s7 _ _ h10 (get_del_eof s5 s6 _ _ h9 (get_del_same s4 s5 _ h7))
  · exact get_del_eof s6 s7 _ _ h10 (get_del_eof s5 s6 _ _ h9
      (get_del_eof s4 s5 _ _ h7 (get_del_same s3 s4 _ h6)))
  · exact get_del_eof s6 s7 _ _ h10 (get_del_same s5 s6 _ h9)
  · exact get_del_same s6 s7 _ h10
  · intro x
    rw [b7, b6, b5, b4, b3, b2]
    exact hbal x

/-- Witness for C6: removing `sampleValidator`, which has period 1 and
outstanding rewards 10, clears its records and moves 10 to the community
address. -/
theorem AfterValidatorRemoved_clears_witness :
    AfterValidatorRemoved sampleEnv sampleFundedContract sampleValidator
        = .ok sampleRemovedContract ∧
      get sampleRemovedContract (validatorAccumulatedRewardsKey sampleEnv [1])
        = .error .eof ∧
      get sampleRemovedContract (validatorSnapshotRewardsKey sampleEnv [1] 0)
        = .error .eof ∧
      sampleRemovedContract.balance EmptyAddress = 10 ∧
      sampleRemovedContract.balance sampleEnv.this = 0 :=
  have h := AfterValidatorRemoved_clears sampleEnv sampleFundedContract sampleRemovedContract
    sampleValidator (ValidatorOutstandingRewards.mk 10) (ValidatorAccumulatedRewards.mk 0 1)
    (CommunityInfo.mk 0 EmptyAddress) rfl rfl (by decide) (by decide) rfl rfl
  ⟨rfl, h.2.2.1, h.2.2.2.1, h.2.2.2.2 EmptyAddress, h.2.2.2.2 sampleEnv.this⟩

theorem signerKey_inj (env : Env) (h h1 : Hash) (e : signerKey env h = signerKey env h1) :
    h = h1 :=
  ConcatKey_two_inj _ _ _ _ e

theorem getSigners_congr (env : Env) (s s1 : ModuleContract) (h : Hash)
    (e : get s1 (signerKey env h) = get s (signerKey env h)) :
    getSigners env s1 h = getSigners env s h := by
  unfold getSigners
  rw [e]

theorem getSigners_of_get_eof (env : Env) (s : ModuleContract) (h : Hash)
    (e : get s (signerKey env h) = .error .eof) : getSigners env s h = .error .eof := by
  unfold getSigners
  rw [e]
  rfl

theorem findSigner_eq (env : Env) (s : ModuleContract) (h : Hash) (a : Address)
    (l : List Address) (hl : signerSet env s h = .ok l) :
    findSigner env s h a = decide (a ∈ l) := by
  unfold signerSet at hl
  unfold findSigner
  cases hg : getSigners env s h with
  | error e =>
    rw [hg] at hl
    cases e <;> simp at hl
    subst hl
    simp
  | ok l1 =>
    rw [hg] at hl
    simp only [Except.ok.injEq] at hl
    subst hl
    simp only
    cases hm : decide (a ∈ l1) with
    | true =>
      rw [List.any_eq_true]
      exact ⟨a, of_decide_eq_true hm, by simp⟩
    | false =>
      rw [List.any_eq_false]
      intro x hx
      have hne : ¬ a ∈ l1 := of_decide_eq_false hm
      simp only [decide_eq_true_eq]
      intro hxa
      exact hne (hxa ▸ hx)

theorem getSignerSize_eq (env : Env) (s : ModuleContract) (h : Hash)
    (l : List Address) (hl : signerSet env s h = .ok l) :
    getSignerSize env s h = l.length := by
  unfold signerSet at hl
  unfold getSignerSize
  cases hg : getSigners env s h with
  | error e =>
    rw [hg] at hl
    cases e <;> simp at hl
    subst hl
    rfl
  | ok l1 =>
    rw [hg] at hl
    simp only [Except.ok.injEq] at hl
    subst hl
    rfl

theorem signerSet_of_getSigners (env : Env) (s : ModuleContract) (h : Hash) (l : List Address)
    (hl : getSigners env s h = .ok l) : signerSet env s h = .ok l := by
  unfold signerSet
  rw [hl]

/-- What a successful `storeSigner` did: it read the set, appended the signer
and wrote the encoding of the longer list under the key of the digest. -/
theorem storeSigner_ok (env : Env) (s s1 : ModuleContract) (h : Hash) (a : Address)
    (hs : storeSigner env s h a = .ok s1) :
    ∃ l b, signerSet env s h = .ok l ∧
      env.rlpAddressList.enc (AddressList.mk (l ++ [a])) = some b ∧ b ≠ [] ∧
      set s (signerKey env h) b = .ok s1 := by
  unfold storeSigner at hs
  have key : ∀ l : List Address,
      (do let value ← env.rlpAddressList.encode (AddressList.mk (l ++ [a]))
          set s (signerKey env h) value : Res ModuleContract) = .ok s1 →
      ∃ b, env.rlpAddressList.enc (AddressList.mk (l ++ [a])) = some b ∧ b ≠ [] ∧
        set s (signerKey env h) b = .ok s1 := by
    intro l hl
    cases henc : env.rlpAddressList.enc (AddressList.mk (l ++ [a])) with
    | none => simp [Codec.encode, henc, bind, Except.bind] at hl
    | some b =>
      simp only [Codec.encode, henc, bind, Except.bind] at hl
      refine ⟨b, rfl, ?_, hl⟩
      intro hb
      subst hb
      exact env.rlpAddressList.enc_ne_nil _ henc
  cases hg : getSigners env s h with
  | error e =>
    rw [hg] at hs
    cases e with
    | eof =>
      obtain ⟨b, h1, h2, h3⟩ := key [] hs
      exact ⟨[], b, by unfold signerSet; rw [hg], h1, h2, h3⟩
    | decode => simp at hs
    | encode => simp at hs
    | wrapped => simp at hs
    | panic => simp at hs
    | store => simp at hs
  | ok l =>
    rw [hg] at hs
    obtain ⟨b, h1, h2, h3⟩ := key l hs
    exact ⟨l, b, signerSet_of_getSigners env s h l hg, h1, h2, h3⟩

/-- The signer sets after a successful `storeSigner`. -/
theorem storeSigner_sets (env : Env) (s s1 : ModuleContract) (h : Hash) (a : Address)
    (hs : storeSigner env s h a = .ok s1) :
    ∃ l, signerSet env s h = .ok l ∧ getSigners env s1 h = .ok (l ++ [a]) ∧
      ∀ h1, h1 ≠ h → getSigners env s1 h1 = getSigners env s h1 := by
  obtain ⟨l, b, hl, henc, hb, hset⟩ := storeSigner_ok env s s1 h a hs
  refine ⟨l, hl, ?_, ?_⟩
  · have hg := get_set_same s s1 _ b hset
    rw [if_neg hb] at hg
    unfold getSigners
    rw [hg]
    simp only [bind, Except.bind, Codec.decode, env.rlpAddressList.dec_enc _ b henc]
    rfl
  · intro h1 hne
    apply getSigners_congr
    exact get_set_other s s1 _ b _ hset (fun e => hne (signerKey_inj env h1 h e))

theorem clearSigner_sets (env : Env) (s s1 : ModuleContract) (h : Hash)
    (hs : clearSigner env s h = .ok s1) :
    getSigners env s1 h = .error .eof ∧
      ∀ h1, h1 ≠ h → getSigners env s1 h1 = getSigners env s h1 := by
  unfold clearSigner at hs
  refine ⟨getSigners_of_get_eof env s1 h (get_del_same s s1 _ hs), ?_⟩
  intro h1 hne
  apply getSigners_congr
  exact get_del_other s s1 _ _ hs (fun e => hne (signerKey_inj env h1 h e))

/-- `storeSigner` succeeds as soon as the set can be read and the longer list
can be encoded. -/
theorem storeSigner_of_enc (env : Env) (s : ModuleContract) (h : Hash) (a : Address)
    (l : List Address) (b : Bytes) (hl : signerSet env s h = .ok l)
    (henc : env.rlpAddressList.enc (AddressList.mk (l ++ [a])) = some b) :
    storeSigner env s h a = set s (signerKey env h) b := by
  unfold signerSet at hl
  unfold storeSigner
  cases hg : getSigners env s h with
  | error e =>
    rw [hg] at hl
    cases e <;> simp at hl
    subst hl
    simp only [Codec.encode, henc, bind, Except.bind]
  | ok l1 =>
    rw [hg] at hl
    simp only [Except.ok.injEq] at hl
    subst hl
    simp only [Codec.encode, henc, bind, Except.bind]

/-- The effect of a successful `storeSigner` of a signer that `findSigner` does
not find. -/
theorem storeSigner_result (env : Env) (s s1 : ModuleContract) (hash : Hash) (signer : Address)
    (hfind : findSigner env s hash signer = false)
    (hs : storeSigner env s hash signer = .ok s1) :
    findSigner env s1 hash signer = true ∧
      getSignerSize env s1 hash = getSignerSize env s hash + 1 ∧
      (∃ l, signerSet env s hash = .ok l ∧ signer ∉ l ∧
        getSigners env s1 hash = .ok (l ++ [signer])) ∧
      (∀ other, other ≠ hash → getSigners env s1 other = getSigners env s other) ∧
      (getSigners env s hash = .error .eof → getSigners env s1 hash = .ok [signer]) := by
  obtain ⟨l, hl, h1, hothers⟩ := storeSigner_sets env s s1 hash signer hs
  have hl1 := signerSet_of_getSigners env s1 hash _ h1
  have hnot : signer ∉ l := by
    rw [findSigner_eq env s hash signer l hl] at hfind
    exact of_decide_eq_false hfind
  refine ⟨?_, ?_, ⟨l, hl, hnot, h1⟩, hothers, ?_⟩
  · rw [findSigner_eq env s1 hash signer _ hl1]
    simp
  · rw [getSignerSize_eq env s1 hash _ hl1, getSignerSize_eq env s hash l hl]
    simp
  · intro heof
    have : signerSet env s hash = .ok [] := by unfold signerSet; rw [heof]
    rw [this] at hl
    simp only [Except.ok.injEq] at hl
    subst hl
    exact h1

/-- C10. When `findSigner` reports that the signer is not registered for the
digest and `storeSigner` succeeds, the signer is found afterwards, the size has
grown by exactly one, the former signers are kept in order with the new one
last, the sets of all other digests are as before, and a digest without a set
gets the one-element set. -/
theorem storeSigner_appends (env : Env) (s s1 : ModuleContract) (hash : Hash) (signer : Address)
    (hfind : findSigner env s hash signer = false)
    (hs : storeSigner env s hash signer = .ok s1) :
    findSigner env s1 hash signer = true ∧
      getSignerSize env s1 hash = getSignerSize env s hash + 1 ∧
      (∃ l, signerSet env s hash = .ok l ∧ signer ∉ l ∧
        getSigners env s1 hash = .ok (l ++ [signer])) ∧
      (∀ other, other ≠ hash → getSigners env s1 other = getSigners env s other) ∧
      (getSigners env s hash = .error .eof → getSigners env s1 hash = .ok [signer]) :=
  storeSigner_result env s s1 hash signer hfind hs

/-- Witness for C10: registering `[6]` for the digest `[4]` after `[5]`. -/
theorem storeSigner_appends_witness :
    findSigner sampleEnv (sampleSignerContract [.store [4] [5]]) [4] [6] = false ∧
      storeSigner sampleEnv (sampleSignerContract [.store [4] [5]]) [4] [6]
        = .ok (sampleSignerContract [.store [4] [5], .store [4] [6]]) ∧
      findSigner sampleEnv (sampleSignerContract [.store [4] [5], .store [4] [6]]) [4] [6]
        = true ∧
      getSignerSize sampleEnv (sampleSignerContract [.store [4] [5], .store [4] [6]]) [4]
        = getSignerSize sampleEnv (sampleSignerContract [.store [4] [5]]) [4] + 1 :=
  have h := storeSigner_appends sampleEnv (sampleSignerContract [.store [4] [5]])
    (sampleSignerContract [.store [4] [5], .store [4] [6]]) [4] [6] rfl rfl
  ⟨rfl, rfl, h.1, h.2.1⟩

/-- C9 as stated fails: two calls of `storeSigner` with the same digest and
signer on the empty store leave the signer twice in the list, and the second
call raises the size from 1 to 2. -/
theorem storeSigner_twice_duplicates :
    runSignerCalls sampleEnv (emptyContract 0) [.store [4] [5]]
        = .ok (sampleSignerContract [.store [4] [5]]) ∧
      findSigner sampleEnv (sampleSignerContract [.store [4] [5]]) [4] [5] = true ∧
      getSignerSize sampleEnv (sampleSignerContract [.store [4] [5]]) [4] = 1 ∧
      storeSigner sampleEnv (sampleSignerContract [.store [4] [5]]) [4] [5]
        = .ok (sampleSignerContract [.store [4] [5], .store [4] [5]]) ∧
      getSigners sampleEnv (sampleSignerContract [.store [4] [5], .store [4] [5]]) [4]
        = .ok [[5], [5]] ∧
      getSignerSize sampleEnv (sampleSignerContract [.store [4] [5], .store [4] [5]]) [4] = 2 :=
  ⟨rfl, rfl, rfl, rfl, rfl, rfl⟩

/-- C9, amended.  Starting from signer lists without duplicates, every run of
`storeSigner` and `clearSigner` calls in which each `storeSigner` is made when
`findSigner` answers false for its digest and signer leaves every stored signer
list without duplicates. -/
theorem guarded_signer_calls_nodup (env : Env) (calls : List SignerCall) :
    ∀ (s s1 : ModuleContract),
      (∀ hash l, getSigners env s hash = .ok l → l.Nodup) →
      guardedSignerCalls env s calls = true →
      runSignerCalls env s calls = .ok s1 →
      ∀ hash l, getSigners env s1 hash = .ok l → l.Nodup := by
  induction calls with
  | nil =>
    intro s s1 hinv _ hrun
    simp only [runSignerCalls, Except.ok.injEq] at hrun
    subst hrun
    exact hinv
  | cons c rest ih =>
    intro s s1 hinv hguard hrun
    cases c with
    | store h a =>
      simp only [runSignerCalls] at hrun
      simp only [guardedSignerCalls, Bool.and_eq_true, Bool.not_eq_true'] at hguard
      cases hst : storeSigner env s h a with
      | error e => rw [hst] at hrun; simp at hrun
      | ok s2 =>
        rw [hst] at hrun
        have hg2 := hguard.2
        rw [hst] at hg2
        obtain ⟨_, _, ⟨l, hl, hnot, hnew⟩, hothers, _⟩ :=
          storeSigner_result env s s2 h a hguard.1 hst
        apply ih s2 s1 _ hg2 hrun
        intro h1 l1 hl1
        by_cases e : h1 = h
        · subst e
          rw [hnew] at hl1
          simp only [Except.ok.injEq] at hl1
          subst hl1
          have hnd : l.Nodup := by
            unfold signerSet at hl
            cases hg : getSigners env s h1 with
            | error e =>
              rw [hg] at hl
              cases e <;> simp at hl
              subst hl
              exact List.nodup_nil
            | ok l2 =>
              rw [hg] at hl
              simp only [Except.ok.injEq] at hl
              subst hl
              exact hinv h1 _ hg
          rw [List.nodup_append]
          refine ⟨hnd, List.nodup_singleton a, ?_⟩
          intro x hx hy
          simp only [List.mem_singleton] at hy
          subst hy
          exact hnot hx
        · rw [hothers h1 e] at hl1
          exact hinv h1 l1 hl1
    | clear h =>
      simp only [runSignerCalls] at hrun
      simp only [guardedSignerCalls] at hguard
      cases hst : clearSigner env s h with
      | error e => rw [hst] at hrun; simp at hrun
      | ok s2 =>
        rw [hst] at hrun hguard
        obtain ⟨hnew, hothers⟩ := clearSigner_sets env s s2 h hst
        apply ih s2 s1 _ hguard hrun
        intro h1 l1 hl1
        by_cases e : h1 = h
        · subst e
          rw [hnew] at hl1
          simp at hl1
        · rw [hothers h1 e] at hl1
          exact hinv h1 l1 hl1

/-- Witness for C9, amended: a guarded run on the empty store. -/
theorem guarded_signer_calls_nodup_witness :
    guardedSignerCalls sampleEnv (emptyContract 0)
        [.store [4] [5], .store [4] [6], .clear [4], .store [4] [5]] = true ∧
      getSigners sampleEnv
        (sampleSignerContract [.store [4] [5], .store [4] [6], .clear [4], .store [4] [5]]) [4]
        = .ok [[5]] ∧
      ∀ hash l, getSigners sampleEnv
        (sampleSignerContract [.store [4] [5], .store [4] [6], .clear [4], .store [4] [5]]) hash
          = .ok l → l.Nodup :=
  ⟨rfl, rfl, guarded_signer_calls_nodup sampleEnv
    [.store [4] [5], .store [4] [6], .clear [4], .store [4] [5]] (emptyContract 0)
    (sampleSignerContract [.store [4] [5], .store [4] [6], .clear [4], .store [4] [5]])
    (fun hash l h => by
      have he : getSigners sampleEnv (emptyContract 0) hash = .error .eof :=
        getSigners_of_get_eof _ _ _ rfl
      rw [he] at h
      exact absurd h (by simp))
    rfl rfl⟩

/-- C8, against the modelled gate.  Let `l` be the duplicate-free signer set
stored for the digest, still below the threshold (or empty), and let the caller
be on the roster.  When the longer list can be encoded, the call returns
without error; it reports "authorized" exactly when the number of distinct
signers, the caller included, reaches the threshold, and then the signer set of
the digest is cleared; otherwise it reports "not yet authorized" and the stored
set is `l` with a new caller appended.  A caller already in `l` leaves the
store as it is.  The set left behind is again duplicate-free and below the
threshold (or empty), and the sets of other digests are untouched. -/
theorem CheckConsensusSigns_quorum (env : Env) (s : ModuleContract) (roster : List Address)
    (quorum : Nat) (hash : Hash) (signer : Address) (l : List Address)
    (helig : signer ∈ roster) (hl : signerSet env s hash = .ok l) (hnd : l.Nodup)
    (hopen : l = [] ∨ l.length < quorum)
    (henc : (env.rlpAddressList.enc (AddressList.mk (l ++ [signer]))).isSome = true) :
    ∃ authorized s1,
      CheckConsensusSigns env s roster quorum hash signer = .ok (authorized, s1) ∧
      authorized = decide (quorum ≤ (List.insert signer l).length) ∧
      (signer ∈ l → authorized = false ∧ s1 = s) ∧
      (authorized = true → getSigners env s1 hash = .error .eof) ∧
      (authorized = false → signer ∉ l → getSigners env s1 hash = .ok (l ++ [signer])) ∧
      (∃ l1, signerSet env s1 hash = .ok l1 ∧ l1.Nodup ∧ (l1 = [] ∨ l1.length < quorum)) ∧
      (∀ other, other ≠ hash → getSigners env s1 other = getSigners env s other) := by
  have hros : roster.contains signer = true := by
    simp only [List.contains_eq_any_beq, List.any_eq_true, beq_iff_eq]
    exact ⟨signer, helig, rfl⟩
  have hfind := findSigner_eq env s hash signer l hl
  unfold CheckConsensusSigns
  rw [hros]
  simp only [Bool.true_eq_false, if_false]
  by_cases hmem : signer ∈ l
  · have hf : findSigner env s hash signer = true := by rw [hfind]; exact decide_eq_true hmem
    rw [hf]
    simp only [if_true]
    have hlt : l.length < quorum := by
      rcases hopen with h0 | h0
      · subst h0; simp at hmem
      · exact h0
    refine ⟨false, s, rfl, ?_, fun _ => ⟨rfl, rfl⟩, fun h => absurd h (by simp),
      fun _ h => absurd hmem h, ⟨l, hl, hnd, hopen⟩, fun _ _ => rfl⟩
    rw [List.insert_of_mem hmem]
    exact (decide_eq_false (by omega)).symm
  · have hf : findSigner env s hash signer = false := by rw [hfind]; exact decide_eq_false hmem
    rw [hf]
    simp only [Bool.false_eq_true, if_false]
    obtain ⟨b, hb⟩ := Option.isSome_iff_exists.mp henc
    have hstore := storeSigner_of_enc env s hash signer l b hl hb
    have hres : storeSigner env s hash signer
        = .ok (Put s (signerKey env hash) b) := by
      rw [hstore]; rfl
    obtain ⟨_, hsize, ⟨l0, hl0, _, hnew⟩, hothers, _⟩ :=
      storeSigner_result env s _ hash signer hf hres
    rw [hl] at hl0
    simp only [Except.ok.injEq] at hl0
    subst hl0
    have hsz : getSignerSize env
        (Put s (signerKey env hash) b) hash = l.length + 1 := by
      rw [hsize, getSignerSize_eq env s hash l hl]
    have hins : (List.insert signer l).length = l.length + 1 := by
      rw [List.insert_of_not_mem hmem]; rfl
    have hnd1 : (l ++ [signer]).Nodup := by
      rw [List.nodup_append]
      refine ⟨hnd, List.nodup_singleton signer, ?_⟩
      intro x hx hy
      simp only [List.mem_singleton] at hy
      subst hy
      exact hmem hx
    rw [hres]
    simp only [wrapErr, hsz]
    by_cases hq : quorum ≤ l.length + 1
    · rw [if_pos hq]
      obtain ⟨s2, hclr⟩ : ∃ s2, clearSigner env
          (Put s (signerKey env hash) b) hash = .ok s2 :=
        ⟨_, rfl⟩
      obtain ⟨hc1, hc2⟩ := clearSigner_sets env _ _ hash hclr
      rw [hclr]
      refine ⟨true, _, rfl, ?_, fun h => absurd h hmem, fun _ => hc1,
        fun h => absurd h (by simp), ⟨[], ?_, List.nodup_nil, Or.inl rfl⟩, ?_⟩
      · rw [hins]; exact (decide_eq_true hq).symm
      · unfold signerSet; rw [hc1]
      · intro other hne
        rw [hc2 other hne, hothers other hne]
    · rw [if_neg hq]
      refine ⟨false, _, rfl, ?_, fun h => absurd h hmem, fun h => absurd h (by simp),
        fun _ _ => hnew, ⟨l ++ [signer], signerSet_of_getSigners env _ hash _ hnew, hnd1,
          Or.inr ?_⟩, hothers⟩
      · rw [hins]; exact (decide_eq_false hq).symm
      · rw [List.length_append]; simp only [List.length_singleton]; omega

/-- Witness for C8 with threshold 2: the signer `[5]` is registered for the
digest `[4]`, and the call of the signer `[6]` is authorized and clears the
set. -/
theorem CheckConsensusSigns_quorum_witness :
    signerSet sampleEnv (sampleSignerContract [.store [4] [5]]) [4] = .ok [[5]] ∧
      ∃ authorized s1,
        CheckConsensusSigns sampleEnv (sampleSignerContract [.store [4] [5]]) [[5], [6]] 2 [4] [6]
          = .ok (authorized, s1) ∧
        authorized = true ∧ getSigners sampleEnv s1 [4] = .error .eof := by
  refine ⟨rfl, ?_⟩
  obtain ⟨authorized, s1, h1, h2, _, h4, _⟩ :=
    CheckConsensusSigns_quorum sampleEnv (sampleSignerContract [.store [4] [5]]) [[5], [6]] 2
      [4] [6] [[5]] (by decide) rfl (by decide) (Or.inr (by decide)) rfl
  have h3 : authorized = true := h2.trans (by decide)
  exact ⟨authorized, s1, h1, h3, h4 h3⟩

theorem getUnlockingInfo_congr (env : Env) (s s1 : ModuleContract) (a : Address)
    (h : get s1 (unlockingInfoKey env a) = get s (unlockingInfoKey env a)) :
    getUnlockingInfo env s1 a = getUnlockingInfo env s a := by
  unfold getUnlockingInfo
  rw [h]

/-- Every stored unlocking queue carries the address of the staker it is stored
for.  `setUnlockingInfo` computes the key from the record, so the writers of
the queue keep this true. -/
theorem setUnlockingInfo_keeps_addresses (env : Env) (s s1 : ModuleContract)
    (info : UnlockingInfo)
    (hwf : ∀ a i, getUnlockingInfo env s a = .ok i → i.StakeAddress = a)
    (h : setUnlockingInfo env s info = .ok s1) :
    ∀ a i, getUnlockingInfo env s1 a = .ok i → i.StakeAddress = a := by
  intro a i hi
  by_cases e : a = info.StakeAddress
  · subst e
    rw [getUnlockingInfo_set env s s1 info h] at hi
    simp only [Except.ok.injEq] at hi
    rw [← hi]
  · have hk : unlockingInfoKey env a ≠ unlockingInfoKey env info.StakeAddress :=
      fun hk => e (ConcatKey_two_inj _ _ _ _ hk)
    unfold setUnlockingInfo at h
    have hg := get_encode_set_other env.rlpUnlockingInfo s s1 _ _ _ h hk
    rw [getUnlockingInfo_congr env s s1 a hg] at hi
    exact hwf a i hi

/-- The sweep keeps the stored queues under the address of their staker. -/
theorem filterExpiredUnlockingInfo_keeps_addresses (env : Env) (s s1 : ModuleContract)
    (stakeAddress : Address) (r : Dec)
    (hwf : ∀ a i, getUnlockingInfo env s a = .ok i → i.StakeAddress = a)
    (h : filterExpiredUnlockingInfo env s stakeAddress = .ok (r, s1)) :
    ∀ a i, getUnlockingInfo env s1 a = .ok i → i.StakeAddress = a := by
  have hex : ∃ info, getUnlockingInfo env s stakeAddress = .ok info := by
    unfold filterExpiredUnlockingInfo at h
    obtain ⟨info, h1, _⟩ := bind_eq_ok _ _ _ h
    exact ⟨info, (wrapErr_ok _ _).mp h1⟩
  obtain ⟨info, hget⟩ := hex
  have haddr := hwf stakeAddress info hget
  have hres := (filterExpiredUnlockingInfo_result env s s1 stakeAddress info r hget haddr h).1
  intro a i hi
  by_cases e : a = stakeAddress
  · subst e
    rw [hres] at hi
    simp only [Except.ok.injEq] at hi
    rw [← hi]
  · have hk : unlockingInfoKey env a ≠ unlockingInfoKey env stakeAddress :=
      fun hk => e (ConcatKey_two_inj _ _ _ _ hk)
    have hother : get s1 (unlockingInfoKey env a) = get s (unlockingInfoKey env a) := by
      rw [filterExpiredUnlockingInfo_eq env s stakeAddress info hget] at h
      cases hsum : addAll env 0 ((info.UnlockingStake.filter
          (fun u => !stillLocked s.height u)).map (fun u => u.Amount)) with
      | error e => rw [hsum] at h; simp at h
      | ok t =>
        rw [hsum] at h
        simp only at h
        split at h
        · cases hd : delUnlockingInfo env s stakeAddress with
          | error e => rw [hd] at h; simp [Except.map] at h
          | ok s2 =>
            rw [hd] at h
            simp only [Except.map, Except.ok.injEq, Prod.mk.injEq] at h
            obtain ⟨_, h2⟩ := h
            subst h2
            exact get_del_other s s2 _ _ hd hk
        · cases hd : wrapErr (setUnlockingInfo env s { info with
            UnlockingStake := info.UnlockingStake.filter (stillLocked s.height) }) with
          | error e => rw [hd] at h; simp [Except.map] at h
          | ok s2 =>
            rw [hd] at h
            simp only [Except.map, Except.ok.injEq, Prod.mk.injEq] at h
            obtain ⟨_, h2⟩ := h
            subst h2
            rw [wrapErr_ok] at hd
            unfold setUnlockingInfo at hd
            rw [haddr] at hd
            exact get_encode_set_other env.rlpUnlockingInfo s s2 _ _ _ hd hk
    rw [getUnlockingInfo_congr env s s1 a hother] at hi
    exact hwf a i hi

/-- C11. After `clearSigner` succeeds the signer set of the digest is empty:
its size is 0 and no address is found in it, a later registration yields the
one-element set, and the signer sets of all other digests are as before. -/
theorem clearSigner_empties (env : Env) (s s1 : ModuleContract) (hash : Hash)
    (h : clearSigner env s hash = .ok s1) :
    getSignerSize env s1 hash = 0 ∧
      (∀ a, findSigner env s1 hash a = false) ∧
      (∀ a s2, storeSigner env s1 hash a = .ok s2 → getSigners env s2 hash = .ok [a]) ∧
      (∀ other, other ≠ hash → getSigners env s1 other = getSigners env s other) := by
  obtain ⟨h1, h2⟩ := clearSigner_sets env s s1 hash h
  have hset : signerSet env s1 hash = .ok [] := by unfold signerSet; rw [h1]
  refine ⟨?_, ?_, ?_, h2⟩
  · rw [getSignerSize_eq env s1 hash [] hset]; rfl
  · intro a
    rw [findSigner_eq env s1 hash a [] hset]
    simp
  · intro a s2 hs
    obtain ⟨l, hl, hnew, _⟩ := storeSigner_sets env s1 s2 hash a hs
    rw [hset] at hl
    simp only [Except.ok.injEq] at hl
    subst hl
    exact hnew

/-- Witness for C11: clearing the digest `[4]` after two registrations. -/
theorem clearSigner_empties_witness :
    clearSigner sampleEnv (sampleSignerContract [.store [4] [5], .store [4] [6]]) [4]
        = .ok (sampleSignerContract [.store [4] [5], .store [4] [6], .clear [4]]) ∧
      getSignerSize sampleEnv (sampleSignerContract [.store [4] [5], .store [4] [6]]) [4] = 2 ∧
      getSignerSize sampleEnv
        (sampleSignerContract [.store [4] [5], .store [4] [6], .clear [4]]) [4] = 0 ∧
      ∀ a, findSigner sampleEnv
        (sampleSignerContract [.store [4] [5], .store [4] [6], .clear [4]]) [4] a = false :=
  have h := clearSigner_empties sampleEnv (sampleSignerContract [.store [4] [5], .store [4] [6]])
    (sampleSignerContract [.store [4] [5], .store [4] [6], .clear [4]]) [4] rfl
  ⟨rfl, rfl, h.1, h.2.1⟩

theorem signerAddrKey_inj (env : Env) (a b : Address)
    (h : signerAddrKey env a = signerAddrKey env b) : a = b :=
  ConcatKey_two_inj _ _ _ _ h

theorem proposalAddrKey_inj (env : Env) (a b : Address)
    (h : proposalAddrKey env a = proposalAddrKey env b) : a = b :=
  ConcatKey_two_inj _ _ _ _ h

theorem signer_ne_proposal (env : Env) (a b : Address) :
    signerAddrKey env a ≠ proposalAddrKey env b :=
  ConcatKey_ne_of_prefix _ _ _ _ _ 3 115 112 rfl rfl (by decide)

theorem signerReserved_congr (env : Env) (s s1 : ModuleContract) (a : Address)
    (h : get s1 (signerAddrKey env a) = get s (signerAddrKey env a)) :
    signerReserved env s1 a = signerReserved env s a := by
  unfold signerReserved
  rw [h]

theorem proposalReserved_congr (env : Env) (s s1 : ModuleContract) (a : Address)
    (h : get s1 (proposalAddrKey env a) = get s (proposalAddrKey env a)) :
    proposalReserved env s1 a = proposalReserved env s a := by
  unfold proposalReserved
  rw [h]

theorem get_cases (s : ModuleContract) (k : Bytes) :
    get s k = .error .eof ∨ ∃ v, v ≠ [] ∧ get s k = .ok v := by
  unfold get customGet
  by_cases h : s.cacheDB k = []
  · left; rw [if_pos h]
  · right; exact ⟨_, h, by rw [if_neg h]⟩

theorem signerReserved_false_iff (env : Env) (s : ModuleContract) (a : Address) :
    signerReserved env s a = false ↔ get s (signerAddrKey env a) = .error .eof := by
  unfold signerReserved
  rcases get_cases s (signerAddrKey env a) with h | ⟨v, _, h⟩ <;> rw [h] <;> simp

theorem proposalReserved_false_iff (env : Env) (s : ModuleContract) (a : Address) :
    proposalReserved env s a = false ↔ get s (proposalAddrKey env a) = .error .eof := by
  unfold proposalReserved
  rcases get_cases s (proposalAddrKey env a) with h | ⟨v, _, h⟩ <;> rw [h] <;> simp

/-- `setSignerAddr` fails on a reserved address and writes the mark otherwise. -/
theorem setSignerAddr_eq (env : Env) (s : ModuleContract) (a : Address) :
    setSignerAddr env s a =
      if signerReserved env s a = true then .error .wrapped
      else set s (signerAddrKey env a) [1] := by
  unfold setSignerAddr signerReserved
  rcases get_cases s (signerAddrKey env a) with h | ⟨v, _, h⟩ <;> rw [h] <;> simp

/-- `setProposalAddr` fails on a reserved address and writes the mark otherwise. -/
theorem setProposalAddr_eq (env : Env) (s : ModuleContract) (a : Address) :
    setProposalAddr env s a =
      if proposalReserved env s a = true then .error .wrapped
      else set s (proposalAddrKey env a) [1] := by
  unfold setProposalAddr proposalReserved
  rcases get_cases s (proposalAddrKey env a) with h | ⟨v, _, h⟩ <;> rw [h] <;> simp

theorem signerReserved_set (env : Env) (s s1 : ModuleContract) (k : Bytes) (v : Bytes)
    (a : Address) (h : set s k v = .ok s1) :
    signerReserved env s1 a =
      if signerAddrKey env a = k then decide (v ≠ []) else signerReserved env s a := by
  by_cases hk : signerAddrKey env a = k
  · rw [if_pos hk]
    subst hk
    unfold signerReserved
    rw [get_set_same s s1 _ v h]
    by_cases hv : v = [] <;> simp [hv]
  · rw [if_neg hk]
    exact signerReserved_congr env s s1 a (get_set_other s s1 k v _ h hk)

theorem signerReserved_del (env : Env) (s s1 : ModuleContract) (k : Bytes)
    (a : Address) (h : del s k = .ok s1) :
    signerReserved env s1 a =
      if signerAddrKey env a = k then false else signerReserved env s a := by
  by_cases hk : signerAddrKey env a = k
  · rw [if_pos hk]
    subst hk
    unfold signerReserved
    rw [get_del_same s s1 _ h]
  · rw [if_neg hk]
    exact signerReserved_congr env s s1 a (get_del_other s s1 k _ h hk)

theorem proposalReserved_set (env : Env) (s s1 : ModuleContract) (k : Bytes) (v : Bytes)
    (a : Address) (h : set s k v = .ok s1) :
    proposalReserved env s1 a =
      if proposalAddrKey env a = k then decide (v ≠ []) else proposalReserved env s a := by
  by_cases hk : proposalAddrKey env a = k
  · rw [if_pos hk]
    subst hk
    unfold proposalReserved
    rw [get_set_same s s1 _ v h]
    by_cases hv : v = [] <;> simp [hv]
  · rw [if_neg hk]
    exact proposalReserved_congr env s s1 a (get_set_other s s1 k v _ h hk)

theorem proposalReserved_del (env : Env) (s s1 : ModuleContract) (k : Bytes)
    (a : Address) (h : del s k = .ok s1) :
    proposalReserved env s1 a =
      if proposalAddrKey env a = k then false else proposalReserved env s a := by
  by_cases hk : proposalAddrKey env a = k
  · rw [if_pos hk]
    subst hk
    unfold proposalReserved
    rw [get_del_same s s1 _ h]
  · rw [if_neg hk]
    exact proposalReserved_congr env s s1 a (get_del_other s s1 k _ h hk)

/-- One call changes the reservation of a signer address as the history reads
it. -/
theorem signerReserved_step (env : Env) (s : ModuleContract) (c : IdentityCall) (a : Address) :
    signerReserved env (storeAfter s (c.run env s)) a =
      (match c with
        | .setSigner b => if b = a then true else signerReserved env s a
        | .delSigner b => if b = a then false else signerReserved env s a
        | _ => signerReserved env s a) := by
  cases c with
  | setSigner b =>
    simp only [IdentityCall.run]
    rw [setSignerAddr_eq]
    by_cases hr : signerReserved env s b = true
    · rw [if_pos hr]
      simp only [storeAfter]
      by_cases hb : b = a
      · subst hb; rw [if_pos rfl, hr]
      · rw [if_neg hb]
    · rw [if_neg hr]
      have hs : set s (signerAddrKey env b) [1]
          = .ok (Put s (signerAddrKey env b) [1]) := rfl
      rw [hs]
      simp only [storeAfter]
      rw [signerReserved_set env s _ _ _ a hs]
      by_cases hb : b = a
      · subst hb; simp
      · rw [if_neg hb, if_neg (fun e => hb (signerAddrKey_inj env a b e).symm)]
  | delSigner b =>
    have hs : delSignerAddr env s b
        = .ok (Delete s (signerAddrKey env b)) := rfl
    simp only [IdentityCall.run, hs, storeAfter]
    rw [signerReserved_del env s _ _ a hs]
    by_cases hb : b = a
    · subst hb; simp
    · rw [if_neg hb, if_neg (fun e => hb (signerAddrKey_inj env a b e).symm)]
  | setProposal b =>
    simp only [IdentityCall.run]
    rw [setProposalAddr_eq]
    by_cases hr : proposalReserved env s b = true
    · rw [if_pos hr]; rfl
    · rw [if_neg hr]
      have hs : set s (proposalAddrKey env b) [1]
          = .ok (Put s (proposalAddrKey env b) [1]) := rfl
      rw [hs]
      simp only [storeAfter]
      rw [signerReserved_set env s _ _ _ a hs, if_neg (signer_ne_proposal env a b)]
  | delProposal b =>
    have hs : delProposalAddr env s b
        = .ok (Delete s (proposalAddrKey env b)) := rfl
    simp only [IdentityCall.run, hs, storeAfter]
    rw [signerReserved_del env s _ _ a hs, if_neg (signer_ne_proposal env a b)]

/-- One call changes the reservation of a proposal address as the history reads
it. -/
theorem proposalReserved_step (env : Env) (s : ModuleContract) (c : IdentityCall) (a : Address) :
    proposalReserved env (storeAfter s (c.run env s)) a =
      (match c with
        | .setProposal b => if b = a then true else proposalReserved env s a
        | .delProposal b => if b = a then false else proposalReserved env s a
        | _ => proposalReserved env s a) := by
  cases c with
  | setProposal b =>
    simp only [IdentityCall.run]
    rw [setProposalAddr_eq]
    by_cases hr : proposalReserved env s b = true
    · rw [if_pos hr]
      simp only [storeAfter]
      by_cases hb : b = a
      · subst hb; rw [if_pos rfl, hr]
      · rw [if_neg hb]
    · rw [if_neg hr]
      have hs : set s (proposalAddrKey env b) [1]
          = .ok (Put s (proposalAddrKey env b) [1]) := rfl
      rw [hs]
      simp only [storeAfter]
      rw [proposalReserved_set env s _ _ _ a hs]
      by_cases hb : b = a
      · subst hb; simp
      · rw [if_neg hb, if_neg (fun e => hb (proposalAddrKey_inj env a b e).symm)]
  | delProposal b =>
    have hs : delProposalAddr env s b
        = .ok (Delete s (proposalAddrKey env b)) := rfl
    simp only [IdentityCall.run, hs, storeAfter]
    rw [proposalReserved_del env s _ _ a hs]
    by_cases hb : b = a
    · subst hb; simp
    · rw [if_neg hb, if_neg (fun e => hb (proposalAddrKey_inj env a b e).symm)]
  | setSigner b =>
    simp only [IdentityCall.run]
    rw [setSignerAddr_eq]
    by_cases hr : signerReserved env s b = true
    · rw [if_pos hr]; rfl
    · rw [if_neg hr]
      have hs : set s (signerAddrKey env b) [1]
          = .ok (Put s (signerAddrKey env b) [1]) := rfl
      rw [hs]
      simp only [storeAfter]
      rw [proposalReserved_set env s _ _ _ a hs, if_neg (signer_ne_proposal env b a).symm]
  | delSigner b =>
    have hs : delSignerAddr env s b
        = .ok (Delete s (signerAddrKey env b)) := rfl
    simp only [IdentityCall.run, hs, storeAfter]
    rw [proposalReserved_del env s _ _ a hs, if_neg (signer_ne_proposal env b a).symm]

/-- The store after a history of calls reserves exactly the signer addresses
that the history holds. -/
theorem signerReserved_run (env : Env) (calls : List IdentityCall) :
    ∀ (s : ModuleContract) (a : Address),
      signerReserved env (runIdentityCalls env s calls) a
        = signerHeld (signerReserved env s a) calls a := by
  induction calls with
  | nil => intro s a; rfl
  | cons c rest ih =>
    intro s a
    unfold runIdentityCalls signerHeld
    simp only [List.foldl_cons]
    have := ih (storeAfter s (c.run env s)) a
    unfold runIdentityCalls signerHeld at this
    rw [this, signerReserved_step env s c a]

/-- The store after a history of calls reserves exactly the proposal addresses
that the history holds. -/
theorem proposalReserved_run (env : Env) (calls : List IdentityCall) :
    ∀ (s : ModuleContract) (a : Address),
      proposalReserved env (runIdentityCalls env s calls) a
        = proposalHeld (proposalReserved env s a) calls a := by
  induction calls with
  | nil => intro s a; rfl
  | cons c rest ih =>
    intro s a
    unfold runIdentityCalls proposalHeld
    simp only [List.foldl_cons]
    have := ih (storeAfter s (c.run env s)) a
    unfold runIdentityCalls proposalHeld at this
    rw [this, proposalReserved_step env s c a]

/-- C12. Start from a store without reservations and make any history of
`setSignerAddr`, `delSignerAddr`, `setProposalAddr` and `delProposalAddr`
calls.  Then `setSignerAddr a` returns an error, with the store as it was,
exactly when the last call of the history that names the signer address `a` is
a `setSignerAddr`; otherwise it succeeds and `a` is reserved afterwards.  The
same holds for `setProposalAddr` on the proposal addresses. -/
theorem identity_reservation (env : Env) (s0 : ModuleContract) (calls : List IdentityCall)
    (a : Address)
    (h0s : ∀ b, signerReserved env s0 b = false)
    (h0p : ∀ b, proposalReserved env s0 b = false) :
    (signerHeld false calls a = true →
        setSignerAddr env (runIdentityCalls env s0 calls) a = .error .wrapped ∧
        storeAfter (runIdentityCalls env s0 calls)
          (setSignerAddr env (runIdentityCalls env s0 calls) a)
          = runIdentityCalls env s0 calls) ∧
      (signerHeld false calls a = false →
        ∃ s1, setSignerAddr env (runIdentityCalls env s0 calls) a = .ok s1 ∧
          signerReserved env s1 a = true) ∧
      (proposalHeld false calls a = true →
        setProposalAddr env (runIdentityCalls env s0 calls) a = .error .wrapped ∧
        storeAfter (runIdentityCalls env s0 calls)
          (setProposalAddr env (runIdentityCalls env s0 calls) a)
          = runIdentityCalls env s0 calls) ∧
      (proposalHeld false calls a = false →
        ∃ s1, setProposalAddr env (runIdentityCalls env s0 calls) a = .ok s1 ∧
          proposalReserved env s1 a = true) := by
  have hs := signerReserved_run env calls s0 a
  have hp := proposalReserved_run env calls s0 a
  rw [h0s a] at hs
  rw [h0p a] at hp
  refine ⟨?_, ?_, ?_, ?_⟩
  · intro h
    rw [h] at hs
    have e := setSignerAddr_eq env (runIdentityCalls env s0 calls) a
    rw [if_pos hs] at e
    rw [e]
    exact ⟨rfl, rfl⟩
  · intro h
    rw [h] at hs
    have e := setSignerAddr_eq env (runIdentityCalls env s0 calls) a
    rw [if_neg (by rw [hs]; simp)] at e
    refine ⟨_, e, ?_⟩
    rw [signerReserved_set env _ _ _ _ a rfl, if_pos rfl]
    rfl
  · intro h
    rw [h] at hp
    have e := setProposalAddr_eq env (runIdentityCalls env s0 calls) a
    rw [if_pos hp] at e
    rw [e]
    exact ⟨rfl, rfl⟩
  · intro h
    rw [h] at hp
    have e := setProposalAddr_eq env (runIdentityCalls env s0 calls) a
    rw [if_neg (by rw [hp]; simp)] at e
    refine ⟨_, e, ?_⟩
    rw [proposalReserved_set env _ _ _ _ a rfl, if_pos rfl]
    rfl

/-- Witness for C12: after reserving `[2]`, releasing it and reserving `[3]`,
the signer address `[3]` is refused and `[2]` is accepted. -/
theorem identity_reservation_witness :
    setSignerAddr sampleEnv
        (runIdentityCalls sampleEnv (emptyContract 0)
          [.setSigner [2], .delSigner [2], .setSigner [3]]) [3] = .error .wrapped ∧
      ∃ s1, setSignerAddr sampleEnv
          (runIdentityCalls sampleEnv (emptyContract 0)
            [.setSigner [2], .delSigner [2], .setSigner [3]]) [2] = .ok s1 ∧
        signerReserved sampleEnv s1 [2] = true :=
  ⟨((identity_reservation sampleEnv (emptyContract 0)
      [.setSigner [2], .delSigner [2], .setSigner [3]] [3] (fun _ => rfl) (fun _ => rfl)).1
      rfl).1,
    (identity_reservation sampleEnv (emptyContract 0)
      [.setSigner [2], .delSigner [2], .setSigner [3]] [2] (fun _ => rfl) (fun _ => rfl)).2.1
      rfl⟩

theorem signer_ne_snapshot (env : Env) (a b : Address) (p : Nat) :
    signerAddrKey env a ≠ validatorSnapshotRewardsKey env b p :=
  ConcatKey_ne_of_prefix _ _ _ _ _ 3 115 118 rfl rfl (by decide)

theorem signer_ne_accumulated (env : Env) (a b : Address) :
    signerAddrKey env a ≠ validatorAccumulatedRewardsKey env b :=
  ConcatKey_ne_of_prefix _ _ _ _ _ 3 115 118 rfl rfl (by decide)

theorem signer_ne_outstanding (env : Env) (a b : Address) :
    signerAddrKey env a ≠ validatorOutstandingRewardsKey env b :=
  ConcatKey_ne_of_prefix _ _ _ _ _ 3 115 118 rfl rfl (by decide)

theorem signer_ne_commission (env : Env) (a b : Address) :
    signerAddrKey env a ≠ accumulatedCommissionKey env b :=
  ConcatKey_ne_of_prefix _ _ _ _ _ 3 115 97 rfl rfl (by decide)

theorem proposal_ne_snapshot (env : Env) (a b : Address) (p : Nat) :
    proposalAddrKey env a ≠ validatorSnapshotRewardsKey env b p :=
  ConcatKey_ne_of_prefix _ _ _ _ _ 3 112 118 rfl rfl (by decide)

theorem proposal_ne_accumulated (env : Env) (a b : Address) :
    proposalAddrKey env a ≠ validatorAccumulatedRewardsKey env b :=
  ConcatKey_ne_of_prefix _ _ _ _ _ 3 112 118 rfl rfl (by decide)

theorem proposal_ne_outstanding (env : Env) (a b : Address) :
    proposalAddrKey env a ≠ validatorOutstandingRewardsKey env b :=
  ConcatKey_ne_of_prefix _ _ _ _ _ 3 112 118 rfl rfl (by decide)

theorem proposal_ne_commission (env : Env) (a b : Address) :
    proposalAddrKey env a ≠ accumulatedCommissionKey env b :=
  ConcatKey_ne_of_prefix _ _ _ _ _ 3 112 97 rfl rfl (by decide)

/-- The reservations after a successful `AfterValidatorRemoved`. -/
theorem AfterValidatorRemoved_reservations (env : Env) (s s7 : ModuleContract)
    (validator : Validator) (h : AfterValidatorRemoved env s validator = .ok s7) :
    (∀ b, signerReserved env s7 b =
        if b = validator.SignerAddress then false else signerReserved env s b) ∧
      (∀ b, proposalReserved env s7 b =
        if b = validator.ProposalAddress then false else proposalReserved env s b) := by
  obtain ⟨out1, ci1, s1, s2, s3, s4, s5, acc1, s6, _, _, h3, h4, h5, h6, h7, _, h9, h10⟩ :=
    AfterValidatorRemoved_steps env s s7 validator h
  obtain ⟨hdb, _⟩ := ModuleTransfer_ok env s s1 _ _ _ h3
  unfold delSignerAddr at h4
  unfold delProposalAddr at h5
  unfold delValidatorOutstandingRewards at h6
  unfold delAccumulatedCommission at h7
  unfold delValidatorAccumulatedRewards at h9
  unfold delValidatorSnapshotRewards at h10
  constructor
  · intro b
    rw [signerReserved_del env s6 s7 _ b h10, if_neg (signer_ne_snapshot env _ _ _),
      signerReserved_del env s5 s6 _ b h9, if_neg (signer_ne_accumulated env _ _),
      signerReserved_del env s4 s5 _ b h7, if_neg (signer_ne_commission env _ _),
      signerReserved_del env s3 s4 _ b h6, if_neg (signer_ne_outstanding env _ _),
      signerReserved_del env s2 s3 _ b h5, if_neg (signer_ne_proposal env _ _),
      signerReserved_del env s1 s2 _ b h4,
      signerReserved_congr env s s1 b (get_of_cacheDB s s1 hdb _)]
    by_cases hb : b = validator.SignerAddress
    · subst hb; simp
    · rw [if_neg hb, if_neg (fun e => hb (signerAddrKey_inj env _ _ e))]
  · intro b
    rw [proposalReserved_del env s6 s7 _ b h10, if_neg (proposal_ne_snapshot env _ _ _),
      proposalReserved_del env s5 s6 _ b h9, if_neg (proposal_ne_accumulated env _ _),
      proposalReserved_del env s4 s5 _ b h7, if_neg (proposal_ne_commission env _ _),
      proposalReserved_del env s3 s4 _ b h6, if_neg (proposal_ne_outstanding env _ _),
      proposalReserved_del env s2 s3 _ b h5]
    by_cases hb : b = validator.ProposalAddress
    · subst hb; simp
    · rw [if_neg hb, if_neg (fun e => hb (proposalAddrKey_inj env _ _ e)),
        proposalReserved_del env s1 s2 _ b h4, if_neg (signer_ne_proposal env _ _).symm,
        proposalReserved_congr env s s1 b (get_of_cacheDB s s1 hdb _)]

/-- C13. After `AfterValidatorRemoved` succeeds, a `setSignerAddr` with the
signer address of the validator succeeds and a following `setProposalAddr` with
its proposal address succeeds too; the reservations of every other signer
address and proposal address are as before the removal. -/
theorem AfterValidatorRemoved_releases (env : Env) (s s7 : ModuleContract)
    (validator : Validator) (h : AfterValidatorRemoved env s validator = .ok s7) :
    (∃ s8 s9, setSignerAddr env s7 validator.SignerAddress = .ok s8 ∧
        setProposalAddr env s8 validator.ProposalAddress = .ok s9) ∧
      (∃ s8, setProposalAddr env s7 validator.ProposalAddress = .ok s8) ∧
      (∀ b, b ≠ validator.SignerAddress →
        signerReserved env s7 b = signerReserved env s b) ∧
      (∀ b, b ≠ validator.ProposalAddress →
        proposalReserved env s7 b = proposalReserved env s b) := by
  obtain ⟨hs, hp⟩ := AfterValidatorRemoved_reservations env s s7 validator h
  have hs0 : signerReserved env s7 validator.SignerAddress = false := by
    rw [hs, if_pos rfl]
  have hp0 : proposalReserved env s7 validator.ProposalAddress = false := by
    rw [hp, if_pos rfl]
  have e1 := setSignerAddr_eq env s7 validator.SignerAddress
  rw [if_neg (by rw [hs0]; simp)] at e1
  have e2 := setProposalAddr_eq env s7 validator.ProposalAddress
  rw [if_neg (by rw [hp0]; simp)] at e2
  have hp1 : ∀ s8, set s7 (signerAddrKey env validator.SignerAddress) [1] = .ok s8 →
      proposalReserved env s8 validator.ProposalAddress = false := by
    intro s8 h8
    rw [proposalReserved_set env s7 s8 _ _ _ h8, if_neg (signer_ne_proposal env _ _).symm, hp0]
  obtain ⟨s8, h8⟩ : ∃ s8, set s7 (signerAddrKey env validator.SignerAddress) [1] = .ok s8 :=
    ⟨_, rfl⟩
  have e3 := setProposalAddr_eq env s8 validator.ProposalAddress
  rw [if_neg (by rw [hp1 s8 h8]; simp)] at e3
  refine ⟨⟨s8, _, e1.trans h8, e3⟩, ⟨_, e2⟩, ?_, ?_⟩
  · intro b hb
    rw [hs, if_neg hb]
  · intro b hb
    rw [hp, if_neg hb]

/-- Witness for C13: `sampleValidator` holds the signer address `[2]` and the
proposal address `[3]`; after its removal both can be reserved again, and the
signer address `[7]` is still reserved. -/
theorem AfterValidatorRemoved_releases_witness :
    AfterValidatorRemoved sampleEnv sampleReservedContract sampleValidator
        = .ok sampleReleasedContract ∧
      setSignerAddr sampleEnv sampleReservedContract [2] = .error .wrapped ∧
      (∃ s8 s9, setSignerAddr sampleEnv sampleReleasedContract [2] = .ok s8 ∧
        setProposalAddr sampleEnv s8 [3] = .ok s9) ∧
      signerReserved sampleEnv sampleReleasedContract [7]
        = signerReserved sampleEnv sampleReservedContract [7] ∧
      signerReserved sampleEnv sampleReservedContract [7] = true :=
  have h := AfterValidatorRemoved_releases sampleEnv sampleReservedContract
    sampleReleasedContract sampleValidator rfl
  ⟨rfl, rfl, h.1, h.2.2.1 [7] (by decide), rfl⟩

/-- The in-place compaction loop of `removeFromAllValidators` computes the
filter of the part of the list that is still to be read, behind the part
already written. -/
theorem removeLoop_eq (consensusAddr : Address) (orig : List Address) :
    ∀ (k i : Nat) (arr : List Address) (j : Nat),
      i + k = orig.length → arr.length = orig.length → j ≤ i →
      arr.drop i = orig.drop i →
      removeLoop consensusAddr k i arr j =
        .ok (arr.take j ++ (orig.drop i).filter (fun v => decide (v ≠ consensusAddr))) := by
  intro k
  induction k with
  | zero =>
    intro i arr j hik hlen hji hdrop
    have hi : orig.length ≤ i := by omega
    simp [removeLoop, List.drop_of_length_le hi]
  | succ k ih =>
    intro i arr j hik hlen hji hdrop
    have hi : i < orig.length := by omega
    have hia : i < arr.length := by omega
    have hget : arr.get? i = some orig[i] := by
      have h1 : (arr.drop i)[0]? = (orig.drop i)[0]? := by rw [hdrop]
      rw [List.getElem?_drop, List.getElem?_drop] at h1
      simp only [Nat.add_zero] at h1
      rw [List.get?_eq_getElem?, h1, List.getElem?_eq_getElem hi]
    have horig : orig.drop i = orig[i] :: orig.drop (i + 1) := List.drop_eq_getElem_cons hi
    have harr : arr.drop (i + 1) = orig.drop (i + 1) := by
      have h1 : (arr.drop i).drop 1 = (orig.drop i).drop 1 := by rw [hdrop]
      rw [List.drop_drop, List.drop_drop] at h1
      exact h1
    simp only [removeLoop, hget]
    by_cases hc : orig[i] ≠ consensusAddr
    · rw [if_pos hc]
      have hlen1 : (arr.set j orig[i]).length = orig.length := by
        rw [List.length_set]; exact hlen
      have hdrop1 : (arr.set j orig[i]).drop (i + 1) = orig.drop (i + 1) := by
        rw [← harr]
        apply List.ext_getElem?
        intro n
        rw [List.getElem?_drop, List.getElem?_drop, List.getElem?_set_ne (by omega)]
      rw [ih (i + 1) _ (j + 1) (by omega) hlen1 (by omega) hdrop1, horig]
      have htake : (arr.set j orig[i]).take (j + 1) = arr.take j ++ [orig[i]] := by
        apply List.ext_getElem?
        intro n
        have hl : (List.take j arr).length = j := by
          rw [List.length_take]; omega
        by_cases hn : n < j
        · rw [List.getElem?_take_of_lt (by omega), List.getElem?_append_left (by omega),
            List.getElem?_set_ne (by omega), List.getElem?_take_of_lt hn]
        · by_cases hn2 : n = j
          · subst hn2
            rw [List.getElem?_take_of_lt (by omega), List.getElem?_append_right (by omega), hl,
              List.getElem?_set_self (by omega)]
            simp
          · rw [List.getElem?_eq_none, List.getElem?_eq_none]
            · rw [List.length_append, hl]; simp; omega
            · rw [List.length_take, List.length_set]; omega
      rw [List.filter_cons, if_pos (decide_eq_true hc), htake]
      simp only [List.append_assoc, List.singleton_append]
    · rw [if_neg hc, horig, List.filter_cons, if_neg (by simpa using hc)]
      exact ih (i + 1) arr j (by omega) hlen (by omega) harr

theorem getAllValidators_congr (env : ConfigEnv) (s s1 : ModuleContract)
    (h : get s1 (allValidatorKey env.toEnv) = get s (allValidatorKey env.toEnv)) :
    getAllValidators env s1 = getAllValidators env s := by
  unfold getAllValidators
  rw [h]

theorem setAllValidators_ok (env : ConfigEnv) (s s1 : ModuleContract) (av : AllValidators)
    (h : setAllValidators env s av = .ok s1) :
    ∃ b, env.rlpAllValidators.enc av = some b ∧ b ≠ [] ∧
      set s (allValidatorKey env.toEnv) b = .ok s1 := by
  unfold setAllValidators at h
  cases henc : env.rlpAllValidators.enc av with
  | none => simp [Codec.encode, henc, wrapErr] at h
  | some b =>
    simp only [Codec.encode, henc, wrapErr] at h
    refine ⟨b, rfl, ?_, h⟩
    intro hb
    subst hb
    exact env.rlpAllValidators.enc_ne_nil av henc

theorem setAllValidators_of_enc (env : ConfigEnv) (s : ModuleContract) (av : AllValidators)
    (b : Bytes) (henc : env.rlpAllValidators.enc av = some b) :
    setAllValidators env s av = set s (allValidatorKey env.toEnv) b := by
  unfold setAllValidators
  simp only [Codec.encode, henc, wrapErr]

theorem getAllValidators_set (env : ConfigEnv) (s s1 : ModuleContract) (av : AllValidators)
    (h : setAllValidators env s av = .ok s1) : getAllValidators env s1 = .ok av := by
  obtain ⟨b, henc, hb, hset⟩ := setAllValidators_ok env s s1 av h
  have hg := get_set_same s s1 _ b hset
  rw [if_neg hb] at hg
  unfold getAllValidators
  rw [hg]
  simp [Codec.decode, env.rlpAllValidators.dec_enc av b henc, wrapErr]

/-- What `addToAllValidators` does on a stored list. -/
theorem addToAllValidators_eq (env : ConfigEnv) (s : ModuleContract) (a : Address)
    (av : AllValidators) (hget : getAllValidators env s = .ok av) :
    addToAllValidators env s a =
      if av.AllValidators.length + 1 > env.MaxValidatorNum then .error .wrapped
      else wrapErr (setAllValidators env s (AllValidators.mk (av.AllValidators ++ [a]))) := by
  unfold addToAllValidators
  rw [hget]
  simp only [wrapErr, List.length_append, List.length_singleton]

/-- What `removeFromAllValidators` does on a stored list. -/
theorem removeFromAllValidators_eq (env : ConfigEnv) (s : ModuleContract) (a : Address)
    (av : AllValidators) (hget : getAllValidators env s = .ok av) :
    removeFromAllValidators env s a =
      wrapErr (setAllValidators env s
        (AllValidators.mk (av.AllValidators.filter (fun v => decide (v ≠ a))))) := by
  unfold removeFromAllValidators
  rw [hget]
  have hl := removeLoop_eq a av.AllValidators av.AllValidators.length 0 av.AllValidators 0
    (by omega) rfl (by omega) rfl
  simp only [List.drop_zero, List.take_zero, List.nil_append] at hl
  simp only [wrapErr, hl]

/-- The list read back after a successful `removeFromAllValidators`. -/
theorem removeFromAllValidators_result (env : ConfigEnv) (s s1 : ModuleContract) (a : Address)
    (av : AllValidators) (hget : getAllValidators env s = .ok av)
    (h : removeFromAllValidators env s a = .ok s1) :
    getAllValidators env s1 =
      .ok (AllValidators.mk (av.AllValidators.filter (fun v => decide (v ≠ a)))) := by
  rw [removeFromAllValidators_eq env s a av hget] at h
  exact getAllValidators_set env s s1 _ ((wrapErr_ok _ _).mp h)

/-- C14. Let the stored list of all validators have at most `MaxValidatorNum`
entries.  On a full list `addToAllValidators` returns an error and the list
read back is the old one; on a shorter list a successful call leaves the old
list with the address appended last, and the call succeeds when the longer list
can be encoded; `removeFromAllValidators` never lengthens the list; and after
either call the stored list still has at most `MaxValidatorNum` entries. -/
theorem allValidators_bounded (env : ConfigEnv) (s : ModuleContract) (a : Address)
    (av : AllValidators) (hget : getAllValidators env s = .ok av)
    (hlen : av.AllValidators.length ≤ env.MaxValidatorNum) :
    (av.AllValidators.length = env.MaxValidatorNum →
        addToAllValidators env s a = .error .wrapped ∧
        getAllValidators env (storeAfter s (addToAllValidators env s a)) = .ok av) ∧
      (av.AllValidators.length < env.MaxValidatorNum →
        (∀ s1, addToAllValidators env s a = .ok s1 →
          getAllValidators env s1 = .ok (AllValidators.mk (av.AllValidators ++ [a]))) ∧
        ((env.rlpAllValidators.enc (AllValidators.mk (av.AllValidators ++ [a]))).isSome = true →
          ∃ s1, addToAllValidators env s a = .ok s1)) ∧
      (∀ s1, removeFromAllValidators env s a = .ok s1 →
        ∃ av1, getAllValidators env s1 = .ok av1 ∧
          av1.AllValidators.length ≤ av.AllValidators.length) ∧
      (∀ s1, addToAllValidators env s a = .ok s1 ∨ removeFromAllValidators env s a = .ok s1 →
        ∃ av1, getAllValidators env s1 = .ok av1 ∧
          av1.AllValidators.length ≤ env.MaxValidatorNum) := by
  have hadd := addToAllValidators_eq env s a av hget
  have hrem : ∀ s1, removeFromAllValidators env s a = .ok s1 →
      ∃ av1, getAllValidators env s1 = .ok av1 ∧
        av1.AllValidators.length ≤ av.AllValidators.length := by
    intro s1 h1
    exact ⟨_, removeFromAllValidators_result env s s1 a av hget h1, List.length_filter_le _ _⟩
  have haddok : ∀ s1, addToAllValidators env s a = .ok s1 →
      av.AllValidators.length < env.MaxValidatorNum ∧
      getAllValidators env s1 = .ok (AllValidators.mk (av.AllValidators ++ [a])) := by
    intro s1 h1
    rw [hadd] at h1
    by_cases hfull : av.AllValidators.length + 1 > env.MaxValidatorNum
    · rw [if_pos hfull] at h1; simp at h1
    · rw [if_neg hfull] at h1
      exact ⟨by omega, getAllValidators_set env s s1 _ ((wrapErr_ok _ _).mp h1)⟩
  refine ⟨?_, ?_, hrem, ?_⟩
  · intro hfull
    have e : addToAllValidators env s a = .error .wrapped := by
      rw [hadd, if_pos (by omega)]
    rw [e]
    exact ⟨rfl, hget⟩
  · intro hshort
    refine ⟨fun s1 h1 => (haddok s1 h1).2, ?_⟩
    intro henc
    obtain ⟨b, hb⟩ := Option.isSome_iff_exists.mp henc
    rw [hadd, if_neg (by omega), setAllValidators_of_enc env s _ b hb]
    exact ⟨_, rfl⟩
  · intro s1 h1
    rcases h1 with h1 | h1
    · obtain ⟨hlt, hg⟩ := haddok s1 h1
      refine ⟨_, hg, ?_⟩
      simp only [List.length_append, List.length_singleton]
      omega
    · obtain ⟨av1, hg, hle⟩ := hrem s1 h1
      exact ⟨av1, hg, by omega⟩

/-- Witness for C14 with at most two validators: adding to the list `[1], [2]`
is refused, adding to the list `[1]` gives `[1], [2]`. -/
theorem allValidators_bounded_witness :
    addToAllValidators sampleConfigEnv (sampleValidatorsContract [[1], [2]]) [3]
        = .error .wrapped ∧
      getAllValidators sampleConfigEnv
        (storeAfter (sampleValidatorsContract [[1], [2]])
          (addToAllValidators sampleConfigEnv (sampleValidatorsContract [[1], [2]]) [3]))
        = .ok (AllValidators.mk [[1], [2]]) ∧
      ∀ s1, addToAllValidators sampleConfigEnv (sampleValidatorsContract [[1]]) [2] = .ok s1 →
        getAllValidators sampleConfigEnv s1 = .ok (AllValidators.mk [[1], [2]]) :=
  have h := allValidators_bounded sampleConfigEnv (sampleValidatorsContract [[1], [2]]) [3]
    (AllValidators.mk [[1], [2]]) rfl (by decide)
  have h1 := allValidators_bounded sampleConfigEnv (sampleValidatorsContract [[1]]) [2]
    (AllValidators.mk [[1]]) rfl (by decide)
  ⟨(h.1 rfl).1, (h.1 rfl).2, (h1.2.1 (by decide)).1⟩

/-- C15. After `removeFromAllValidators` succeeds the stored list is the old
list without the occurrences of the address, the other addresses in their old
order; when the address does not occur the list is the old one; and a second
removal leaves the list of the first. -/
theorem removeFromAllValidators_filters (env : ConfigEnv) (s s1 : ModuleContract) (a : Address)
    (av : AllValidators) (hget : getAllValidators env s = .ok av)
    (h : removeFromAllValidators env s a = .ok s1) :
    getAllValidators env s1 =
        .ok (AllValidators.mk (av.AllValidators.filter (fun v => decide (v ≠ a)))) ∧
      (a ∉ av.AllValidators → getAllValidators env s1 = .ok av) ∧
      (∀ s2, removeFromAllValidators env s1 a = .ok s2 →
        getAllValidators env s2 = getAllValidators env s1) := by
  have h1 := removeFromAllValidators_result env s s1 a av hget h
  refine ⟨h1, ?_, ?_⟩
  · intro hnot
    rw [h1]
    have : av.AllValidators.filter (fun v => decide (v ≠ a)) = av.AllValidators := by
      rw [List.filter_eq_self]
      intro v hv
      exact decide_eq_true (fun e => hnot (e ▸ hv))
    rw [this]
  · intro s2 h2
    rw [removeFromAllValidators_result env s1 s2 a _ h1 h2, h1]
    simp only [List.filter_filter, Bool.and_self]

/-- Witness for C15: removing `[2]` from the list `[1], [2], [3], [2]`. -/
theorem removeFromAllValidators_filters_witness :
    (∃ s1, removeFromAllValidators sampleConfigEnv
        (sampleValidatorsContract [[1], [2], [3], [2]]) [2] = .ok s1) ∧
      ∀ s1, removeFromAllValidators sampleConfigEnv
          (sampleValidatorsContract [[1], [2], [3], [2]]) [2] = .ok s1 →
        getAllValidators sampleConfigEnv s1 = .ok (AllValidators.mk [[1], [3]]) :=
  ⟨⟨_, rfl⟩, fun s1 h1 =>
    (removeFromAllValidators_filters sampleConfigEnv
      (sampleValidatorsContract [[1], [2], [3], [2]]) s1 [2]
      (AllValidators.mk [[1], [2], [3], [2]]) rfl h1).1⟩

/-- What `addUnlockingInfo` does on a stored queue. -/
theorem addUnlockingInfo_eq (env : ConfigEnv) (s : ModuleContract) (a : Address)
    (u : UnlockingStake) (info : UnlockingInfo)
    (hget : getUnlockingInfo env.toEnv s a = .ok info) :
    addUnlockingInfo env s a u =
      if info.UnlockingStake.length + 1 > env.MaxUnlockingNum then .error .wrapped
      else wrapErr (setUnlockingInfo env.toEnv s
        (UnlockingInfo.mk info.StakeAddress (info.UnlockingStake ++ [u]))) := by
  unfold addUnlockingInfo
  rw [hget]
  simp only [wrapErr, List.length_append, List.length_singleton]

theorem setUnlockingInfo_of_enc (env : Env) (s : ModuleContract) (info : UnlockingInfo)
    (b : Bytes) (henc : env.rlpUnlockingInfo.enc info = some b) :
    setUnlockingInfo env s info = set s (unlockingInfoKey env info.StakeAddress) b := by
  unfold setUnlockingInfo
  simp only [Codec.encode, henc, wrapErr, bind, Except.bind]

/-- C16. For a staker whose stored queue holds `MaxUnlockingNum` entries (or
more) `addUnlockingInfo` returns an error and the queue read back is the old
one; when the queue holds fewer entries a successful call leaves the old queue
with the new entry appended last, and the call succeeds when the longer queue
can be encoded. -/
theorem addUnlockingInfo_bounded (env : ConfigEnv) (s : ModuleContract) (stakeAddress : Address)
    (u : UnlockingStake) (info : UnlockingInfo)
    (hget : getUnlockingInfo env.toEnv s stakeAddress = .ok info)
    (haddr : info.StakeAddress = stakeAddress) :
    (env.MaxUnlockingNum ≤ info.UnlockingStake.length →
        addUnlockingInfo env s stakeAddress u = .error .wrapped ∧
        getUnlockingInfo env.toEnv (storeAfter s (addUnlockingInfo env s stakeAddress u))
          stakeAddress = .ok info) ∧
      (info.UnlockingStake.length < env.MaxUnlockingNum →
        (∀ s1, addUnlockingInfo env s stakeAddress u = .ok s1 →
          getUnlockingInfo env.toEnv s1 stakeAddress
            = .ok (UnlockingInfo.mk stakeAddress (info.UnlockingStake ++ [u]))) ∧
        ((env.rlpUnlockingInfo.enc
            (UnlockingInfo.mk stakeAddress (info.UnlockingStake ++ [u]))).isSome = true →
          ∃ s1, addUnlockingInfo env s stakeAddress u = .ok s1)) := by
  have hadd := addUnlockingInfo_eq env s stakeAddress u info hget
  rw [haddr] at hadd
  constructor
  · intro hfull
    have e : addUnlockingInfo env s stakeAddress u = .error .wrapped := by
      rw [hadd, if_pos (by omega)]
    rw [e]
    exact ⟨rfl, hget⟩
  · intro hshort
    rw [if_neg (by omega)] at hadd
    constructor
    · intro s1 h1
      rw [hadd] at h1
      exact getUnlockingInfo_set env.toEnv s s1 _ ((wrapErr_ok _ _).mp h1)
    · intro henc
      obtain ⟨b, hb⟩ := Option.isSome_iff_exists.mp henc
      rw [hadd, setUnlockingInfo_of_enc env.toEnv s _ b hb]
      exact ⟨_, rfl⟩

/-- Witness for C16 with at most two entries: a third entry is refused for the
staker `[7]`, whose queue holds four, and the first entry of the staker `[8]`
is stored. -/
theorem addUnlockingInfo_bounded_witness :
    addUnlockingInfo sampleConfigEnv sampleQueueContract [7] (UnlockingStake.mk 40 2)
        = .error .wrapped ∧
      getUnlockingInfo sampleEnv
        (storeAfter sampleQueueContract
          (addUnlockingInfo sampleConfigEnv sampleQueueContract [7] (UnlockingStake.mk 40 2)))
        [7] = .ok sampleQueue ∧
      ∀ s1, addUnlockingInfo sampleConfigEnv sampleQueueContract [8] (UnlockingStake.mk 40 2)
          = .ok s1 →
        getUnlockingInfo sampleEnv s1 [8]
          = .ok (UnlockingInfo.mk [8] [UnlockingStake.mk 40 2]) :=
  have h := addUnlockingInfo_bounded sampleConfigEnv sampleQueueContract [7]
    (UnlockingStake.mk 40 2) sampleQueue rfl rfl
  have h1 := addUnlockingInfo_bounded sampleConfigEnv sampleQueueContract [8]
    (UnlockingStake.mk 40 2) (UnlockingInfo.mk [8] []) rfl rfl
  ⟨(h.1 (by decide)).1, (h.1 (by decide)).2, (h1.2 (by decide)).1⟩

/-- C17.  `SetGlobalConfig` with a `MaxCommissionChange` above `PercentDecimal`
returns an error and writes nothing, and `GetGlobalConfigImpl` answers after
the call as before it.  But the answer on a store without a configuration is
not always the genesis configuration: once `GetGlobalConfigImpl` has decoded a
stored configuration, on any store, the `Genesis` variables hold the big
integers of that configuration, and every later read of a store without a
configuration returns them. -/
theorem GetGlobalConfigImpl_overwrites_genesis (env : ConfigEnv) (s s0 : ModuleContract)
    (stored globalConfig : GlobalConfig) (b : Bytes)
    (hover : env.PercentDecimal < globalConfig.MaxCommissionChange)
    (hs : get s (globalConfigKey env.toEnv) = .ok b)
    (hdec : env.rlpGlobalConfig.dec b = some stored)
    (h0 : get s0 (globalConfigKey env.toEnv) = .error .eof) :
    SetGlobalConfig env s0 globalConfig = .error .wrapped ∧
      storeAfter s0 (SetGlobalConfig env s0 globalConfig) = s0 ∧
      (∀ genesis, GetGlobalConfigImpl env genesis (storeAfter s0 (SetGlobalConfig env s0 globalConfig))
        = GetGlobalConfigImpl env genesis s0) ∧
      (GetGlobalConfigImpl env env.GenesisGlobalConfig s0).1 = .ok env.GenesisGlobalConfig ∧
      (GetGlobalConfigImpl env env.GenesisGlobalConfig s).1 = .ok stored ∧
      (GetGlobalConfigImpl env (GetGlobalConfigImpl env env.GenesisGlobalConfig s).2
          (storeAfter s0 (SetGlobalConfig env s0 globalConfig))).1 =
        .ok (GlobalConfig.mk stored.MaxCommissionChange stored.MinInitialStake
          stored.MinProposalStake stored.BlockPerEpoch
          env.GenesisGlobalConfig.ConsensusValidatorNum
          env.GenesisGlobalConfig.VoterValidatorNum) := by
  have e : SetGlobalConfig env s0 globalConfig = .error .wrapped := by
    unfold SetGlobalConfig
    rw [if_pos hover]
  rw [e]
  refine ⟨rfl, rfl, fun _ => rfl, ?_, ?_, ?_⟩
  · unfold GetGlobalConfigImpl
    rw [h0]
  · unfold GetGlobalConfigImpl
    rw [hs]
    simp only [hdec]
  · simp only [storeAfter]
    unfold GetGlobalConfigImpl
    rw [h0, hs]
    simp only [hdec]

/-- Witness for C17: after the stored configuration with a commission-change
cap of 700 has been read, the empty store reads 700, 200000, 2000 and 500000
where the genesis configuration has 500, 100000, 1000 and 400000. -/
theorem GetGlobalConfigImpl_overwrites_genesis_witness :
    sampleConfigEnv.GenesisGlobalConfig = GlobalConfig.mk 500 100000 1000 400000 4 4 ∧
      SetGlobalConfig sampleConfigEnv (emptyContract 0) (GlobalConfig.mk 10100 100000 1000 400000 4 4)
        = .error .wrapped ∧
      (GetGlobalConfigImpl sampleConfigEnv sampleConfigEnv.GenesisGlobalConfig
        (emptyContract 0)).1 = .ok (GlobalConfig.mk 500 100000 1000 400000 4 4) ∧
      (GetGlobalConfigImpl sampleConfigEnv sampleConfigEnv.GenesisGlobalConfig
        sampleConfigContract).1 = .ok (GlobalConfig.mk 700 200000 2000 500000 5 5) ∧
      (GetGlobalConfigImpl sampleConfigEnv
        (GetGlobalConfigImpl sampleConfigEnv sampleConfigEnv.GenesisGlobalConfig
          sampleConfigContract).2
        (storeAfter (emptyContract 0) (SetGlobalConfig sampleConfigEnv (emptyContract 0)
          (GlobalConfig.mk 10100 100000 1000 400000 4 4)))).1 =
        .ok (GlobalConfig.mk 700 200000 2000 500000 4 4) :=
  have h := GetGlobalConfigImpl_overwrites_genesis sampleConfigEnv sampleConfigContract
    (emptyContract 0) (GlobalConfig.mk 700 200000 2000 500000 5 5)
    (GlobalConfig.mk 10100 100000 1000 400000 4 4) [9, 1400, 400000, 4000, 1000000, 5, 5]
    (by decide) rfl rfl rfl
  ⟨rfl, h.1, h.2.2.2.1, h.2.2.2.2.1, h.2.2.2.2.2⟩

theorem GetCommunityInfoImpl_set (env : Env) (s s1 : ModuleContract) (ci : CommunityInfo)
    (b : Bytes) (henc : env.rlpCommunityInfo.enc ci = some b)
    (hset : set s (communityInfoKey env) b = .ok s1) :
    GetCommunityInfoImpl env s1 = .ok ci := by
  have hb : b ≠ [] := by
    intro hb
    subst hb
    exact env.rlpCommunityInfo.enc_ne_nil ci henc
  have hg := get_set_same s s1 _ b hset
  rw [if_neg hb] at hg
  unfold GetCommunityInfoImpl
  rw [hg]
  simp [Codec.decode, env.rlpCommunityInfo.dec_enc ci b henc, wrapErr]

/-- C18 as stated fails.  The rate -1 does not exceed `PercentDecimal`, and
`SetCommunityInfo` rejects it all the same: the encoder refuses a negative
integer. -/
theorem SetCommunityInfo_rejects_negative :
    ¬ (sampleConfigEnv.PercentDecimal < (CommunityInfo.mk (-1) [6]).CommunityRate) ∧
      SetCommunityInfo sampleConfigEnv (emptyContract 0) (CommunityInfo.mk (-1) [6]) =
        .error .wrapped :=
  ⟨by decide, rfl⟩

/-- C18, amended.  With an encoder that, like RLP, refuses exactly the negative
rates, `SetCommunityInfo` is rejected exactly when `CommunityRate` exceeds
`PercentDecimal` or is negative, so a non-negative rate equal to
`PercentDecimal` is accepted.  A rejected call has written nothing:
`GetCommunityInfoImpl` answers as before.  After an accepted call
`GetCommunityInfoImpl` returns the rate and the address that were given. -/
theorem SetCommunityInfo_bound (env : ConfigEnv) (s : ModuleContract)
    (communityInfo : CommunityInfo)
    (hrlp : ∀ ci : CommunityInfo, env.rlpCommunityInfo.enc ci = none ↔ ci.CommunityRate < 0) :
    ((∃ e, SetCommunityInfo env s communityInfo = .error e) ↔
        (env.PercentDecimal < communityInfo.CommunityRate ∨ communityInfo.CommunityRate < 0)) ∧
      ((∃ e, SetCommunityInfo env s communityInfo = .error e) →
        storeAfter s (SetCommunityInfo env s communityInfo) = s ∧
          GetCommunityInfoImpl env.toEnv (storeAfter s (SetCommunityInfo env s communityInfo))
            = GetCommunityInfoImpl env.toEnv s) ∧
      (0 ≤ communityInfo.CommunityRate → communityInfo.CommunityRate ≤ env.PercentDecimal →
        ∃ s1, SetCommunityInfo env s communityInfo = .ok s1 ∧
          GetCommunityInfoImpl env.toEnv s1 = .ok communityInfo) := by
  have hok : 0 ≤ communityInfo.CommunityRate → communityInfo.CommunityRate ≤ env.PercentDecimal →
      ∃ b, env.rlpCommunityInfo.enc communityInfo = some b ∧
        SetCommunityInfo env s communityInfo = set s (communityInfoKey env.toEnv) b := by
    intro h0 hle
    cases hb : env.rlpCommunityInfo.enc communityInfo with
    | none => exact absurd ((hrlp communityInfo).1 hb) (by omega)
    | some b =>
      refine ⟨b, rfl, ?_⟩
      unfold SetCommunityInfo
      rw [if_neg (by omega)]
      simp only [Codec.encode, hb, wrapErr]
  refine ⟨⟨?_, ?_⟩, ?_, ?_⟩
  · rintro ⟨e, he⟩
    by_contra hnot
    obtain ⟨b, _, hset⟩ := hok (by omega) (by omega)
    rw [hset] at he
    simp [set] at he
  · intro hcase
    refine ⟨.wrapped, ?_⟩
    unfold SetCommunityInfo
    by_cases hover : communityInfo.CommunityRate > env.PercentDecimal
    · rw [if_pos hover]
    · rw [if_neg hover]
      have hneg : communityInfo.CommunityRate < 0 := by
        rcases hcase with h | h
        · exact absurd h hover
        · exact h
      simp only [Codec.encode, (hrlp communityInfo).2 hneg, wrapErr]
  · rintro ⟨e, he⟩
    rw [he]
    exact ⟨rfl, rfl⟩
  · intro h0 hle
    obtain ⟨b, hb, hset⟩ := hok h0 hle
    exact ⟨_, hset, GetCommunityInfoImpl_set env.toEnv s _ communityInfo b hb rfl⟩

/-- Witness for C18, amended: the rate 10000, equal to `PercentDecimal`, is
accepted and read back; the rates 10001 and -1 are rejected. -/
theorem SetCommunityInfo_bound_witness :
    (∃ s1, SetCommunityInfo sampleConfigEnv (emptyContract 0) (CommunityInfo.mk 10000 [6])
        = .ok s1 ∧
      GetCommunityInfoImpl sampleEnv s1 = .ok (CommunityInfo.mk 10000 [6])) ∧
      (∃ e, SetCommunityInfo sampleConfigEnv (emptyContract 0) (CommunityInfo.mk 10001 [6])
        = .error e) ∧
      ∃ e, SetCommunityInfo sampleConfigEnv (emptyContract 0) (CommunityInfo.mk (-1) [6])
        = .error e :=
  have hrlp : ∀ ci : CommunityInfo,
      sampleConfigEnv.rlpCommunityInfo.enc ci = none ↔ ci.CommunityRate < 0 := by
    intro ci
    show (if ci.CommunityRate < 0 then none
      else some (5 :: intTok ci.CommunityRate :: ci.CommunityAddress)) = none ↔ _
    by_cases h : ci.CommunityRate < 0
    · simp [h]
    · simp [h]
  ⟨(SetCommunityInfo_bound sampleConfigEnv (emptyContract 0) (CommunityInfo.mk 10000 [6])
      hrlp).2.2 (by decide) (by decide),
    (SetCommunityInfo_bound sampleConfigEnv (emptyContract 0) (CommunityInfo.mk 10001 [6])
      hrlp).1.2 (Or.inl (by decide)),
    (SetCommunityInfo_bound sampleConfigEnv (emptyContract 0) (CommunityInfo.mk (-1) [6])
      hrlp).1.2 (Or.inr (by decide))⟩

theorem bytesLE_foldr : ∀ (fuel n : Nat), n ≤ fuel →
    (bytesLE fuel n).foldr (fun x acc => acc * 256 + x) 0 = n := by
  intro fuel
  induction fuel with
  | zero =>
    intro n hn
    have : n = 0 := by omega
    subst this
    rfl
  | succ fuel ih =>
    intro n hn
    unfold bytesLE
    by_cases h0 : n = 0
    · rw [if_pos h0, h0]; rfl
    · rw [if_neg h0, List.foldr_cons, ih (n / 256) (by omega)]
      omega

/-- Reading back the bytes of a non-negative integer gives the integer. -/
theorem SetBytes_BigIntBytes (z : Int) (hz : 0 ≤ z) : SetBytes (BigIntBytes z) = z := by
  unfold SetBytes BigIntBytes
  rw [List.foldl_reverse, bytesLE_foldr _ _ (le_refl _)]
  omega

/-- The bytes of a non-zero integer are not empty. -/
theorem BigIntBytes_ne_nil (z : Int) (hz : z ≠ 0) : BigIntBytes z ≠ [] := by
  unfold BigIntBytes
  have hn : z.natAbs ≠ 0 := by omega
  obtain ⟨m, hm⟩ := Nat.exists_eq_succ_of_ne_zero hn
  rw [hm]
  unfold bytesLE
  rw [if_neg (by omega)]
  simp

theorem epochInfo_ne_currentEpoch (env : Env) (ID : Int) :
    epochInfoKey env ID ≠ currentEpochKey env :=
  ConcatKey_ne_of_prefix _ _ _ _ _ 3 101 99 rfl rfl (by decide)

theorem getCurrentEpoch_congr (env : ConfigEnv) (s s1 : ModuleContract)
    (h : get s1 (currentEpochKey env.toEnv) = get s (currentEpochKey env.toEnv)) :
    getCurrentEpoch env s1 = getCurrentEpoch env s := by
  unfold getCurrentEpoch
  rw [h]

theorem getEpochInfo_congr (env : ConfigEnv) (s s1 : ModuleContract) (ID : Int)
    (h : get s1 (epochInfoKey env.toEnv ID) = get s (epochInfoKey env.toEnv ID)) :
    getEpochInfo env s1 ID = getEpochInfo env s ID := by
  unfold getEpochInfo
  rw [h]

/-- Reading back the bytes of an integer gives its absolute value. -/
theorem SetBytes_BigIntBytes_natAbs (z : Int) : SetBytes (BigIntBytes z) = (z.natAbs : Int) := by
  unfold SetBytes BigIntBytes
  rw [List.foldl_reverse, bytesLE_foldr _ _ (le_refl _)]

theorem setOn_ok (putOk : Bytes → Bytes → Bool) (s s1 : ModuleContract) (key value : Bytes)
    (h : setOn putOk s key value = .ok s1) : putOk key value = true ∧ set s key value = .ok s1 := by
  unfold setOn at h
  by_cases hp : putOk key value = true
  · rw [if_pos hp] at h
    exact ⟨hp, h⟩
  · rw [if_neg hp] at h
    cases h

/-- The pointer read back after `setCurrentEpoch` with a positive ID. -/
theorem getCurrentEpoch_set (env : ConfigEnv) (putOk : Bytes → Bytes → Bool)
    (s s1 : ModuleContract) (ID : Int)
    (hpos : 0 < ID) (h : setCurrentEpoch env putOk s ID = .ok s1) :
    getCurrentEpoch env s1 = .ok ID := by
  unfold setCurrentEpoch at h
  have hg := get_set_same s s1 _ _ (setOn_ok _ _ _ _ _ h).2
  rw [if_neg (BigIntBytes_ne_nil ID (by omega))] at hg
  unfold getCurrentEpoch
  rw [hg]
  simp only [SetBytes_BigIntBytes ID (by omega)]

/-- The three outcomes of `setCurrentEpochInfo`: the database refuses the
pointer write, the call fails and nothing is written; or the pointer is written
and then the epoch info cannot be encoded or the database refuses the second
write, the call fails and the store holds the pointer write alone; or both
writes are made. -/
theorem setCurrentEpochInfo_cases (env : ConfigEnv) (putOk : Bytes → Bytes → Bool)
    (s : ModuleContract) (epochInfo : EpochInfo) :
    (putOk (currentEpochKey env.toEnv) (BigIntBytes epochInfo.ID) = false ∧
        setCurrentEpochInfo env putOk s epochInfo = (.error .store, s)) ∨
      (putOk (currentEpochKey env.toEnv) (BigIntBytes epochInfo.ID) = true ∧
        ∃ s1, set s (currentEpochKey env.toEnv) (BigIntBytes epochInfo.ID) = .ok s1 ∧
          (((env.rlpEpochInfo.enc epochInfo = none ∨
              ∃ b, env.rlpEpochInfo.enc epochInfo = some b ∧
                putOk (epochInfoKey env.toEnv epochInfo.ID) b = false) ∧
              setCurrentEpochInfo env putOk s epochInfo = (.error .wrapped, s1)) ∨
            (∃ b s2, env.rlpEpochInfo.enc epochInfo = some b ∧ b ≠ [] ∧
              set s1 (epochInfoKey env.toEnv epochInfo.ID) b = .ok s2 ∧
              setCurrentEpochInfo env putOk s epochInfo = (.ok (), s2)))) := by
  by_cases hp : putOk (currentEpochKey env.toEnv) (BigIntBytes epochInfo.ID) = true
  · right
    obtain ⟨s1, h1⟩ : ∃ s1, set s (currentEpochKey env.toEnv) (BigIntBytes epochInfo.ID) =
        .ok s1 := ⟨_, rfl⟩
    refine ⟨hp, s1, h1, ?_⟩
    have hcur : setCurrentEpoch env putOk s epochInfo.ID = .ok s1 := by
      unfold setCurrentEpoch setOn
      rw [if_pos hp, h1]
    unfold setCurrentEpochInfo
    rw [hcur]
    simp only
    unfold setEpochInfo
    cases henc : env.rlpEpochInfo.enc epochInfo with
    | none =>
      left
      simp only [Codec.encode, henc, wrapErr, true_or, and_self]
    | some b =>
      by_cases hp2 : putOk (epochInfoKey env.toEnv epochInfo.ID) b = true
      · right
        refine ⟨b, _, rfl, ?_, rfl, ?_⟩
        · intro hb
          subst hb
          exact env.rlpEpochInfo.enc_ne_nil epochInfo henc
        · simp only [Codec.encode, henc, wrapErr, setOn, if_pos hp2, set]
      · left
        have hp3 : putOk (epochInfoKey env.toEnv epochInfo.ID) b = false := by
          cases hq : putOk (epochInfoKey env.toEnv epochInfo.ID) b
          · rfl
          · exact absurd hq hp2
        refine ⟨Or.inr ⟨b, rfl, hp3⟩, ?_⟩
        simp only [Codec.encode, henc, wrapErr, setOn, hp3, Bool.false_eq_true, if_false]
  · left
    have hp3 : putOk (currentEpochKey env.toEnv) (BigIntBytes epochInfo.ID) = false := by
      cases hq : putOk (currentEpochKey env.toEnv) (BigIntBytes epochInfo.ID)
      · rfl
      · exact absurd hq hp
    refine ⟨hp3, ?_⟩
    unfold setCurrentEpochInfo setCurrentEpoch setOn
    simp only [hp3, Bool.false_eq_true, if_false]

/-- What `setCurrentEpochInfo` leaves in the store, on success and on failure. -/
theorem setCurrentEpochInfo_result (env : ConfigEnv) (putOk : Bytes → Bytes → Bool)
    (s : ModuleContract) (epochInfo : EpochInfo) :
    (∀ s2, setCurrentEpochInfo env putOk s epochInfo = (.ok (), s2) → 0 < epochInfo.ID →
        getCurrentEpoch env s2 = .ok epochInfo.ID ∧
        getEpochInfo env s2 epochInfo.ID = .ok epochInfo) ∧
      (∀ e s1, setCurrentEpochInfo env putOk s epochInfo = (.error e, s1) →
        (∀ ID, getEpochInfo env s1 ID = getEpochInfo env s ID) ∧
        ((putOk (currentEpochKey env.toEnv) (BigIntBytes epochInfo.ID) = false ∧
            e = .store ∧ s1 = s) ∨
          (putOk (currentEpochKey env.toEnv) (BigIntBytes epochInfo.ID) = true ∧
            e = .wrapped ∧
            s1.cacheDB (currentEpochKey env.toEnv) = BigIntBytes epochInfo.ID ∧
            (epochInfo.ID ≠ 0 →
              getCurrentEpoch env s1 = .ok (epochInfo.ID.natAbs : Int))))) := by
  rcases setCurrentEpochInfo_cases env putOk s epochInfo with
    ⟨hp, hfail⟩ | ⟨hp, s1, h1, hcase⟩
  · constructor
    · intro s2 h2 _
      rw [hfail] at h2
      simp at h2
    · intro e s2 h2
      rw [hfail] at h2
      simp only [Prod.mk.injEq, Except.error.injEq] at h2
      obtain ⟨he, hs⟩ := h2
      subst hs
      exact ⟨fun _ => rfl, Or.inl ⟨hp, he.symm, rfl⟩⟩
  · have hcur : setCurrentEpoch env putOk s epochInfo.ID = .ok s1 := by
      unfold setCurrentEpoch setOn
      rw [if_pos hp, h1]
    have hptr : 0 < epochInfo.ID → getCurrentEpoch env s1 = .ok epochInfo.ID :=
      fun hpos => getCurrentEpoch_set env putOk s s1 _ hpos hcur
    have hrec : ∀ ID, getEpochInfo env s1 ID = getEpochInfo env s ID := by
      intro ID
      apply getEpochInfo_congr
      exact get_set_other s s1 _ _ _ h1 (epochInfo_ne_currentEpoch env.toEnv ID)
    have hbytes : s1.cacheDB (currentEpochKey env.toEnv) = BigIntBytes epochInfo.ID := by
      simp only [set, Put, Except.ok.injEq] at h1
      rw [← h1]
      simp only [customSet, if_true]
    have hread : epochInfo.ID ≠ 0 →
        getCurrentEpoch env s1 = .ok (epochInfo.ID.natAbs : Int) := by
      intro hne
      have hg := get_set_same s s1 _ _ h1
      rw [if_neg (BigIntBytes_ne_nil epochInfo.ID hne)] at hg
      unfold getCurrentEpoch
      rw [hg]
      simp only [SetBytes_BigIntBytes_natAbs]
    constructor
    · intro s2 h2 hpos
      rcases hcase with ⟨_, hfail⟩ | ⟨b, s3, henc, hb, hset, hok⟩
      · rw [hfail] at h2
        simp at h2
      · rw [hok] at h2
        simp only [Prod.mk.injEq, true_and] at h2
        subst h2
        constructor
        · rw [getCurrentEpoch_congr env s1 s3
            (get_set_other s1 s3 _ b _ hset (epochInfo_ne_currentEpoch env.toEnv _).symm)]
          exact hptr hpos
        · have hg := get_set_same s1 s3 _ b hset
          rw [if_neg hb] at hg
          unfold getEpochInfo
          rw [hg]
          simp [Codec.decode, env.rlpEpochInfo.dec_enc epochInfo b henc, wrapErr]
    · intro e s2 h2
      rcases hcase with ⟨_, hfail⟩ | ⟨b, s3, henc, hb, hset, hok⟩
      · rw [hfail] at h2
        simp only [Prod.mk.injEq, Except.error.injEq] at h2
        obtain ⟨he, h3⟩ := h2
        subst h3
        exact ⟨hrec, Or.inr ⟨hp, he.symm, hbytes, hread⟩⟩
      · rw [hok] at h2
        simp at h2

/-- C19 as stated fails.  On the store whose current epoch is 1, with a
database that accepts every write, a call with an epoch info of ID 2 that
cannot be encoded returns an error, and on the store it leaves behind the
current-epoch pointer is 2, while no epoch info is stored for the epoch 2. -/
theorem setCurrentEpochInfo_error_moves_pointer :
    getCurrentEpoch sampleConfigEnv sampleEpochContract = .ok 1 ∧
      (setCurrentEpochInfo sampleConfigEnv (fun _ _ => true) sampleEpochContract
        (EpochInfo.mk 2 [[1]] [[1]] (-1) 200)).1 = .error .wrapped ∧
      getCurrentEpoch sampleConfigEnv
        (setCurrentEpochInfo sampleConfigEnv (fun _ _ => true) sampleEpochContract
          (EpochInfo.mk 2 [[1]] [[1]] (-1) 200)).2 = .ok 2 ∧
      getEpochInfo sampleConfigEnv
        (setCurrentEpochInfo sampleConfigEnv (fun _ _ => true) sampleEpochContract
          (EpochInfo.mk 2 [[1]] [[1]] (-1) 200)).2 2 = .error .wrapped :=
  ⟨rfl, rfl, rfl, rfl⟩

/-- C19, amended.  `setCurrentEpochInfo` writes the pointer first and the epoch
info second, on a database that may refuse either write.  When it succeeds
with a positive ID, the pointer holds the new ID and the record of that ID
holds the new epoch info.  When it returns an error, no epoch-info record has
changed; if the error is that of the pointer write, the store is the one of the
call; and if it comes from `setEpochInfo`, the pointer key holds the bytes of
the new ID already, which read back as the absolute value of a non-zero ID. -/
theorem setCurrentEpochInfo_write_order (env : ConfigEnv) (putOk : Bytes → Bytes → Bool)
    (s : ModuleContract) (epochInfo : EpochInfo) :
    (∀ s2, setCurrentEpochInfo env putOk s epochInfo = (.ok (), s2) → 0 < epochInfo.ID →
        getCurrentEpoch env s2 = .ok epochInfo.ID ∧
        getEpochInfo env s2 epochInfo.ID = .ok epochInfo) ∧
      (∀ e s1, setCurrentEpochInfo env putOk s epochInfo = (.error e, s1) →
        (∀ ID, getEpochInfo env s1 ID = getEpochInfo env s ID) ∧
        ((putOk (currentEpochKey env.toEnv) (BigIntBytes epochInfo.ID) = false ∧
            e = .store ∧ s1 = s) ∨
          (putOk (currentEpochKey env.toEnv) (BigIntBytes epochInfo.ID) = true ∧
            e = .wrapped ∧
            s1.cacheDB (currentEpochKey env.toEnv) = BigIntBytes epochInfo.ID ∧
            (epochInfo.ID ≠ 0 →
              getCurrentEpoch env s1 = .ok (epochInfo.ID.natAbs : Int))))) :=
  setCurrentEpochInfo_result env putOk s epochInfo

/-- Witness for C19, amended: the first epoch written on the empty store; an
epoch info with the ID -3, which cannot be encoded, after which the pointer
reads 3; and a database that refuses the pointer write, after which the store
is the one of the call. -/
theorem setCurrentEpochInfo_write_order_witness :
    (setCurrentEpochInfo sampleConfigEnv (fun _ _ => true) (emptyContract 0) sampleEpochInfo
        = (.ok (), sampleEpochContract) ∧
      getCurrentEpoch sampleConfigEnv sampleEpochContract = .ok 1 ∧
      getEpochInfo sampleConfigEnv sampleEpochContract 1 = .ok sampleEpochInfo) ∧
      ((setCurrentEpochInfo sampleConfigEnv (fun _ _ => true) sampleEpochContract
          (EpochInfo.mk (-3) [[1]] [[1]] 101 200)).1 = .error .wrapped ∧
        getCurrentEpoch sampleConfigEnv
          (setCurrentEpochInfo sampleConfigEnv (fun _ _ => true) sampleEpochContract
            (EpochInfo.mk (-3) [[1]] [[1]] 101 200)).2 = .ok 3 ∧
        ∀ ID, getEpochInfo sampleConfigEnv
            (setCurrentEpochInfo sampleConfigEnv (fun _ _ => true) sampleEpochContract
              (EpochInfo.mk (-3) [[1]] [[1]] 101 200)).2 ID =
          getEpochInfo sampleConfigEnv sampleEpochContract ID) ∧
      ((setCurrentEpochInfo sampleConfigEnv (fun _ _ => false) sampleEpochContract
          (EpochInfo.mk 2 [[1]] [[1]] 101 200)).1 = .error .store ∧
        getCurrentEpoch sampleConfigEnv
          (setCurrentEpochInfo sampleConfigEnv (fun _ _ => false) sampleEpochContract
            (EpochInfo.mk 2 [[1]] [[1]] 101 200)).2 = .ok 1) :=
  have h := (setCurrentEpochInfo_write_order sampleConfigEnv (fun _ _ => true) (emptyContract 0)
    sampleEpochInfo).1 sampleEpochContract rfl (by decide)
  have h1 := (setCurrentEpochInfo_write_order sampleConfigEnv (fun _ _ => true)
    sampleEpochContract (EpochInfo.mk (-3) [[1]] [[1]] 101 200)).2 .wrapped
    (setCurrentEpochInfo sampleConfigEnv (fun _ _ => true) sampleEpochContract
      (EpochInfo.mk (-3) [[1]] [[1]] 101 200)).2 (by rfl)
  ⟨⟨rfl, h.1, h.2⟩, ⟨rfl, rfl, h1.1⟩, ⟨rfl, rfl⟩⟩

/-- C20 as stated fails.  On the store whose current epoch is 1, a call with an
epoch info of ID 5 succeeds and the current-epoch pointer is 5 afterwards, not
2. -/
theorem setCurrentEpochInfo_skips_ids :
    getCurrentEpoch sampleConfigEnv sampleEpochContract = .ok 1 ∧
      (setCurrentEpochInfo sampleConfigEnv (fun _ _ => true) sampleEpochContract
        (EpochInfo.mk 5 [[1]] [[1]] 101 200)).1 = .ok () ∧
      getCurrentEpoch sampleConfigEnv
        (setCurrentEpochInfo sampleConfigEnv (fun _ _ => true) sampleEpochContract
          (EpochInfo.mk 5 [[1]] [[1]] 101 200)).2 = .ok 5 :=
  ⟨rfl, rfl, rfl⟩

/-- C20, amended.  The first epoch ID is `StartEpochID = 1`.  A successful
`setCurrentEpochInfo` sets the pointer to the positive ID of the epoch info it
is given, whatever the previous value: the pointer moves from `n` to `n + 1`
when the epoch info carries the ID `n + 1`. -/
theorem setCurrentEpochInfo_pointer (env : ConfigEnv) (putOk : Bytes → Bytes → Bool)
    (s s2 : ModuleContract) (epochInfo : EpochInfo) (n : Int)
    (hprev : getCurrentEpoch env s = .ok n)
    (hcall : setCurrentEpochInfo env putOk s epochInfo = (.ok (), s2)) :
    StartEpochID = 1 ∧
      (0 < epochInfo.ID → getCurrentEpoch env s2 = .ok epochInfo.ID) ∧
      (epochInfo.ID = n + 1 → getCurrentEpoch env s2 = .ok (n + 1)) := by
  have h := (setCurrentEpochInfo_result env putOk s epochInfo).1 s2 hcall
  have hn : 0 ≤ n := by
    unfold getCurrentEpoch at hprev
    rcases get_cases s (currentEpochKey env.toEnv) with hg | ⟨v, _, hg⟩
    · rw [hg] at hprev
      simp [wrapErr] at hprev
    · rw [hg] at hprev
      simp only [Except.ok.injEq] at hprev
      rw [← hprev]
      unfold SetBytes
      omega
  refine ⟨rfl, fun hpos => (h hpos).1, ?_⟩
  intro hid
  rw [← hid]
  exact (h (by omega)).1

/-- Witness for C20, amended: from epoch 1 to epoch 2. -/
theorem setCurrentEpochInfo_pointer_witness :
    getCurrentEpoch sampleConfigEnv sampleEpochContract = .ok 1 ∧
      getCurrentEpoch sampleConfigEnv
        (setCurrentEpochInfo sampleConfigEnv (fun _ _ => true) sampleEpochContract
          (EpochInfo.mk 2 [[1]] [[1]] 101 200)).2 = .ok (1 + 1) :=
  ⟨rfl, (setCurrentEpochInfo_pointer sampleConfigEnv (fun _ _ => true) sampleEpochContract
    (setCurrentEpochInfo sampleConfigEnv (fun _ _ => true) sampleEpochContract
      (EpochInfo.mk 2 [[1]] [[1]] 101 200)).2
    (EpochInfo.mk 2 [[1]] [[1]] 101 200) 1 rfl rfl).2.2 rfl⟩

/-! ### 256-bit integers as 32 bytes -/

theorem bytesLE_length : ∀ (k fuel n : Nat), n < 256 ^ k → (bytesLE fuel n).length ≤ k := by
  intro k
  induction k with
  | zero =>
    intro fuel n hn
    have h0 : n = 0 := by simpa using hn
    subst h0
    cases fuel <;> simp [bytesLE]
  | succ k ih =>
    intro fuel n hn
    cases fuel with
    | zero => simp [bytesLE]
    | succ fuel =>
      unfold bytesLE
      by_cases h0 : n = 0
      · rw [if_pos h0]; simp
      · rw [if_neg h0, List.length_cons]
        have hlt : n / 256 < 256 ^ k := by
          rw [Nat.div_lt_iff_lt_mul (by norm_num)]
          rw [pow_succ] at hn
          exact hn
        have := ih fuel (n / 256) hlt
        omega

theorem BigIntBytes_length (n : Int) (h0 : 0 ≤ n) (h1 : n < 2 ^ 256) :
    (BigIntBytes n).length ≤ 32 := by
  unfold BigIntBytes
  rw [List.length_reverse]
  apply bytesLE_length
  have h2 : (256 : Nat) ^ 32 = 2 ^ 256 := by norm_num
  rw [h2]
  omega

theorem SetBytes_zero_cons (l : Bytes) : SetBytes (0 :: l) = SetBytes l := by
  simp [SetBytes]

theorem SetBytes_replicate_append (k : Nat) (l : Bytes) :
    SetBytes (List.replicate k 0 ++ l) = SetBytes l := by
  induction k with
  | zero => simp
  | succ k ih => rw [List.replicate_succ, List.cons_append, SetBytes_zero_cons, ih]

theorem SetBytes_TrimLeftZeroes : ∀ l : Bytes, SetBytes (TrimLeftZeroes l) = SetBytes l := by
  intro l
  induction l with
  | nil => rfl
  | cons x rest ih =>
    cases x with
    | zero =>
      show SetBytes (TrimLeftZeroes rest) = SetBytes (0 :: rest)
      rw [SetBytes_zero_cons, ih]
    | succ x => rfl

theorem LeftPadBytes_eq (l : Bytes) (k : Nat) (h : l.length ≤ k) :
    LeftPadBytes l k = List.replicate (k - l.length) 0 ++ l := by
  unfold LeftPadBytes
  by_cases hk : k ≤ l.length
  · rw [if_pos hk]
    have : k - l.length = 0 := by omega
    rw [this]
    rfl
  · rw [if_neg hk]

/-- C28. For every integer `n` with `0 ≤ n < 2 ^ 256`, `Uint256ToBytes n` has
exactly 32 bytes, consists of zeros followed by the big-endian bytes of `n`,
reads back as `n` as a big-endian number, and `BytesToUint256` returns `n` on
it; the nil number encodes as 32 zero bytes, and the nil or empty slice decodes
to 0. -/
theorem Uint256ToBytes_roundtrip (n : Int) (h0 : 0 ≤ n) (h1 : n < 2 ^ 256) :
    (Uint256ToBytes (some n)).length = 32 ∧
      Uint256ToBytes (some n) =
        List.replicate (32 - (BigIntBytes n).length) 0 ++ BigIntBytes n ∧
      SetBytes (Uint256ToBytes (some n)) = n ∧
      BytesToUint256 (Uint256ToBytes (some n)) = n ∧
      Uint256ToBytes none = List.replicate 32 0 ∧
      BytesToUint256 [] = 0 := by
  have hlen := BigIntBytes_length n h0 h1
  have hpad : Uint256ToBytes (some n) =
      List.replicate (32 - (BigIntBytes n).length) 0 ++ BigIntBytes n :=
    LeftPadBytes_eq _ 32 hlen
  have hl : (Uint256ToBytes (some n)).length = 32 := by
    rw [hpad, List.length_append, List.length_replicate]
    omega
  have hv : SetBytes (Uint256ToBytes (some n)) = n := by
    rw [hpad, SetBytes_replicate_append, SetBytes_BigIntBytes n h0]
  refine ⟨hl, hpad, hv, ?_, rfl, rfl⟩
  unfold BytesToUint256
  rw [if_neg (by rw [hl]; decide), SetBytes_TrimLeftZeroes, hv]

theorem Uint256ToBytes_roundtrip_witness :
    (Uint256ToBytes (some 258)).length = 32 ∧
      Uint256ToBytes (some 258) =
        List.replicate (32 - (BigIntBytes 258).length) 0 ++ BigIntBytes 258 ∧
      SetBytes (Uint256ToBytes (some 258)) = 258 ∧
      BytesToUint256 (Uint256ToBytes (some 258)) = 258 ∧
      Uint256ToBytes none = List.replicate 32 0 ∧
      BytesToUint256 [] = 0 :=
  Uint256ToBytes_roundtrip 258 (by decide) (by norm_num)

/-! ### Storage keys of the proposal manager -/

theorem ConcatKey_one (c a : Bytes) : ConcatKey c [a] = c ++ a := by
  simp [ConcatKey]

theorem BigIntBytes_inj (a b : Int) (ha : 0 ≤ a) (hb : 0 ≤ b)
    (h : BigIntBytes a = BigIntBytes b) : a = b := by
  rw [← SetBytes_BigIntBytes a ha, ← SetBytes_BigIntBytes b hb, h]

/-- C29. The key of the proposal with ID 6252900 is the key of the ID counter,
and the key of the proposal with ID 409840743284 is the key of the proposal
list: the bytes of these IDs spell the endings "_id" and "_list" of the
prefixes.  The keys of the configuration and community proposal lists are never
keys of proposals, and different non-negative IDs have different keys. -/
theorem proposalKey_collides (this : Address) :
    proposalKey this 6252900 = proposalIDKey this ∧
      proposalKey this 409840743284 = proposalListKey this ∧
      (∀ ID : Int, proposalKey this ID ≠ configProposalListKey this) ∧
      (∀ ID : Int, proposalKey this ID ≠ communityProposalListKey this) ∧
      (∀ a b : Int, 0 ≤ a → 0 ≤ b → proposalKey this a = proposalKey this b → a = b) := by
  refine ⟨?_, ?_, ?_, ?_, ?_⟩
  · unfold proposalKey proposalIDKey
    rw [ConcatKey_two, ConcatKey_one]
    congr 1
  · unfold proposalKey proposalListKey
    rw [ConcatKey_two, ConcatKey_one]
    congr 1
  · intro ID
    exact ConcatKey_ne_of_prefix _ _ _ _ _ 3 112 99 rfl rfl (by decide)
  · intro ID
    exact ConcatKey_ne_of_prefix _ _ _ _ _ 4 114 111 rfl rfl (by decide)
  · intro a b ha hb h
    exact BigIntBytes_inj a b ha hb (ConcatKey_two_inj _ _ _ _ h)

/-! ### The cache database -/

theorem Get_Put_same (s : ModuleContract) (key value : Bytes) :
    Get (Put s key value) key = some value := by
  unfold Get Put customSet
  by_cases hv : value = []
  · subst hv
    simp
  · simp [hv]

theorem Get_congr (s s1 : ModuleContract) (key : Bytes)
    (h1 : s1.cacheDB key = s.cacheDB key) (h2 : s1.emptyStored key = s.emptyStored key) :
    Get s1 key = Get s key := by
  unfold Get
  rw [h1, h2]

theorem Get_Put_other (s : ModuleContract) (key value k1 : Bytes) (hk : k1 ≠ key) :
    Get (Put s key value) k1 = Get s k1 := by
  apply Get_congr
  · simp only [Put, customSet, if_neg hk]
  · simp only [Put, if_neg hk]

theorem Get_Delete_same (s : ModuleContract) (key : Bytes) : Get (Delete s key) key = none := by
  simp [Get, Delete, customDel]

theorem Get_Delete_other (s : ModuleContract) (key k1 : Bytes) (hk : k1 ≠ key) :
    Get (Delete s key) k1 = Get s k1 := by
  apply Get_congr
  · simp only [Delete, customDel, if_neg hk]
  · simp only [Delete, if_neg hk]

/-! ### Ripple extra info of a side chain -/

theorem GetSideChainObject_Put (env : ChainEnv) (s : ModuleContract) (sideChain : SideChain)
    (blob : Bytes) (henc : env.rlpSideChain.enc sideChain = some blob) :
    GetSideChainObject env (Put s (sideChainKey env sideChain.ChainID) blob) sideChain.ChainID =
      .ok (some sideChain) := by
  unfold GetSideChainObject
  rw [Get_Put_same]
  simp only [Codec.decode, env.rlpSideChain.dec_enc sideChain blob henc, wrapErr]

/-- For a registered chain whose record carries its own chain ID, a successful
`PutRippleExtraInfo` stores the encoded info in the record and changes no other
field, and `GetRippleExtraInfo` then returns the info. -/
theorem PutRippleExtraInfo_registered (env : ChainEnv) (s s1 : ModuleContract) (chainId : Nat)
    (sideChainInfo : SideChain) (info : RippleExtraInfo)
    (hget : GetSideChainObject env s chainId = .ok (some sideChainInfo))
    (hid : sideChainInfo.ChainID = chainId)
    (hput : PutRippleExtraInfo env s chainId info = .ok s1) :
    ∃ blob, env.rlpRippleExtraInfo.enc info = some blob ∧
      GetSideChainObject env s1 chainId =
        .ok (some (SideChain.mk sideChainInfo.Owner sideChainInfo.ChainID sideChainInfo.Router
          sideChainInfo.Name sideChainInfo.CCMCAddress blob)) ∧
      GetRippleExtraInfo env s1 chainId = .ok info := by
  unfold PutRippleExtraInfo at hput
  cases henc : env.rlpRippleExtraInfo.enc info with
  | none => simp [Codec.encode, henc, wrapErr] at hput
  | some blob =>
    simp only [Codec.encode, henc, wrapErr, hget] at hput
    replace hput := (wrapErr_ok _ _).1 hput
    unfold PutSideChain at hput
    cases henc2 : env.rlpSideChain.enc (SideChain.mk sideChainInfo.Owner sideChainInfo.ChainID
        sideChainInfo.Router sideChainInfo.Name sideChainInfo.CCMCAddress blob) with
    | none => simp [Codec.encode, henc2, wrapErr] at hput
    | some b2 =>
      simp only [Codec.encode, henc2, wrapErr, Except.ok.injEq] at hput
      have hobj := GetSideChainObject_Put env s _ b2 henc2
      simp only at hobj
      rw [hput] at hobj
      have hobj2 : GetSideChainObject env s1 chainId =
          .ok (some (SideChain.mk sideChainInfo.Owner sideChainInfo.ChainID sideChainInfo.Router
            sideChainInfo.Name sideChainInfo.CCMCAddress blob)) := by
        rw [← hid]
        exact hobj
      clear hobj
      have hobj := hobj2
      refine ⟨blob, rfl, hobj, ?_⟩
      unfold GetRippleExtraInfo
      rw [hobj]
      simp only [wrapErr, Codec.decode, env.rlpRippleExtraInfo.dec_enc info blob henc]

/-- C30. For a chain ID under which no side chain is stored and an info that
can be encoded, `PutRippleExtraInfo` dereferences the nil record and panics,
whereas `GetRippleExtraInfo` returns an error. -/
theorem PutRippleExtraInfo_unregistered_panics (env : ChainEnv) (s : ModuleContract)
    (chainId : Nat) (info : RippleExtraInfo) (blob : Bytes)
    (hnone : Get s (sideChainKey env chainId) = none)
    (henc : env.rlpRippleExtraInfo.enc info = some blob) :
    GetSideChainObject env s chainId = .ok none ∧
      PutRippleExtraInfo env s chainId info = .error .panic ∧
      GetRippleExtraInfo env s chainId = .error .wrapped := by
  have hobj : GetSideChainObject env s chainId = .ok none := by
    unfold GetSideChainObject
    rw [hnone]
  refine ⟨hobj, ?_, ?_⟩
  · unfold PutRippleExtraInfo
    simp only [Codec.encode, henc, wrapErr, hobj]
  · unfold GetRippleExtraInfo
    simp only [wrapErr, hobj]

theorem PutRippleExtraInfo_unregistered_panics_witness :
    GetSideChainObject sampleChainEnv (emptyContract 0) 7 = .ok none ∧
      PutRippleExtraInfo sampleChainEnv (emptyContract 0) 7 (RippleExtraInfo.mk [[1, 2]]) =
        .error .panic ∧
      GetRippleExtraInfo sampleChainEnv (emptyContract 0) 7 = .error .wrapped :=
  PutRippleExtraInfo_unregistered_panics sampleChainEnv (emptyContract 0) 7
    (RippleExtraInfo.mk [[1, 2]]) [14, 2, 3, 0] rfl rfl

/-! ### Total pool -/

theorem getTotalPool_setTotalPool (env : ChainEnv) (s s1 : ModuleContract) (totalPool : TotalPool)
    (h : setTotalPool env s totalPool = .ok s1) : getTotalPool env s1 = .ok totalPool := by
  unfold setTotalPool at h
  cases henc : env.rlpTotalPool.enc totalPool with
  | none => simp [Codec.encode, henc, wrapErr] at h
  | some b =>
    simp only [Codec.encode, henc, wrapErr] at h
    have hb : b ≠ [] := by
      intro hb
      subst hb
      exact env.rlpTotalPool.enc_ne_nil totalPool henc
    have hg := get_set_same s s1 _ b h
    rw [if_neg hb] at hg
    unfold getTotalPool
    rw [hg]
    simp only [Codec.decode, env.rlpTotalPool.dec_enc totalPool b henc, wrapErr]

theorem getTotalPool_absent (env : ChainEnv) (s : ModuleContract)
    (h : s.cacheDB (totalPoolKey env.toEnv) = []) : getTotalPool env s = .ok (TotalPool.mk 0) := by
  unfold getTotalPool get customGet
  rw [if_pos h]

theorem Dec.Sub_ok (env : ChainEnv) (a b r : Dec) (h : Dec.Sub env a b = .ok r) :
    b ≤ a ∧ r = a - b := by
  unfold Dec.Sub at h
  by_cases hlt : a < b
  · rw [if_pos hlt] at h
    cases h
  · rw [if_neg hlt] at h
    cases hs : env.decSub a b with
    | none => rw [hs] at h; cases h
    | some r1 =>
      rw [hs] at h
      simp only [Except.ok.injEq] at h
      subst h
      exact ⟨not_lt.mp hlt, env.decSub_eq a b r1 hs⟩

theorem Dec.Add_ok (env : Env) (a b r : Dec) (h : Dec.Add env a b = .ok r) : r = a + b := by
  unfold Dec.Add at h
  cases hs : env.decAdd a b with
  | none => rw [hs] at h; cases h
  | some r1 =>
    rw [hs] at h
    simp only [Except.ok.injEq] at h
    subst h
    exact env.decAdd_eq a b r1 hs

theorem depositTotalPool_ok (env : ChainEnv) (s s1 : ModuleContract) (total : TotalPool) (a : Dec)
    (hget : getTotalPool env s = .ok total) (h : depositTotalPool env s a = .ok s1) :
    getTotalPool env s1 = .ok (TotalPool.mk (total.TotalPool + a)) := by
  unfold depositTotalPool at h
  rw [hget] at h
  simp only [wrapErr] at h
  cases hadd : Dec.Add env.toEnv total.TotalPool a with
  | error e => rw [hadd] at h; cases e <;> cases h
  | ok sum =>
    rw [hadd] at h
    simp only at h
    replace h := (wrapErr_ok _ _).1 h
    rw [Dec.Add_ok _ _ _ _ hadd] at h
    exact getTotalPool_setTotalPool env s s1 _ h

theorem withdrawTotalPool_ok (env : ChainEnv) (s s1 : ModuleContract) (total : TotalPool) (a : Dec)
    (hget : getTotalPool env s = .ok total) (h : withdrawTotalPool env s a = .ok s1) :
    a ≤ total.TotalPool ∧ getTotalPool env s1 = .ok (TotalPool.mk (total.TotalPool - a)) := by
  unfold withdrawTotalPool at h
  rw [hget] at h
  simp only [wrapErr] at h
  cases hsub : Dec.Sub env total.TotalPool a with
  | error e => rw [hsub] at h; cases e <;> cases h
  | ok rest =>
    rw [hsub] at h
    simp only at h
    replace h := (wrapErr_ok _ _).1 h
    obtain ⟨hle, hr⟩ := Dec.Sub_ok _ _ _ _ hsub
    rw [hr] at h
    exact ⟨hle, getTotalPool_setTotalPool env s s1 _ h⟩

/-- C21. With the total `t` read by `getTotalPool`: after a successful
`depositTotalPool a` the total reads `t + a`, after a successful
`withdrawTotalPool a` it reads `t - a`, a withdrawal of more than `t` returns an
error and the total still reads `t`, and a store without a pool record reads
the total 0. -/
theorem totalPool_tracks (env : ChainEnv) (s : ModuleContract) (total : TotalPool) (a : Dec)
    (hget : getTotalPool env s = .ok total) :
    (∀ s1, depositTotalPool env s a = .ok s1 →
        getTotalPool env s1 = .ok (TotalPool.mk (total.TotalPool + a))) ∧
      (∀ s1, withdrawTotalPool env s a = .ok s1 →
        getTotalPool env s1 = .ok (TotalPool.mk (total.TotalPool - a))) ∧
      (total.TotalPool < a →
        withdrawTotalPool env s a = .error .wrapped ∧
          getTotalPool env (storeAfter s (withdrawTotalPool env s a)) = .ok total) ∧
      (∀ s0 : ModuleContract, s0.cacheDB (totalPoolKey env.toEnv) = [] →
        getTotalPool env s0 = .ok (TotalPool.mk 0)) := by
  refine ⟨fun s1 h => depositTotalPool_ok env s s1 total a hget h,
    fun s1 h => (withdrawTotalPool_ok env s s1 total a hget h).2, ?_,
    fun s0 h => getTotalPool_absent env s0 h⟩
  intro hlt
  have herr : withdrawTotalPool env s a = .error .wrapped := by
    unfold withdrawTotalPool
    rw [hget]
    simp only [wrapErr, Dec.Sub, if_pos hlt]
  rw [herr]
  exact ⟨rfl, hget⟩

theorem totalPool_tracks_witness :
    getTotalPool sampleChainEnv
        (storeAfter samplePoolContract (depositTotalPool sampleChainEnv samplePoolContract 4)) =
        .ok (TotalPool.mk (10 + 4)) ∧
      getTotalPool sampleChainEnv
        (storeAfter samplePoolContract (withdrawTotalPool sampleChainEnv samplePoolContract 4)) =
        .ok (TotalPool.mk (10 - 4)) ∧
      withdrawTotalPool sampleChainEnv samplePoolContract 11 = .error .wrapped ∧
      getTotalPool sampleChainEnv
        (storeAfter samplePoolContract (withdrawTotalPool sampleChainEnv samplePoolContract 11)) =
        .ok (TotalPool.mk 10) ∧
      getTotalPool sampleChainEnv (emptyContract 0) = .ok (TotalPool.mk 0) :=
  have h := totalPool_tracks sampleChainEnv samplePoolContract (TotalPool.mk 10) 4 rfl
  have h1 := totalPool_tracks sampleChainEnv samplePoolContract (TotalPool.mk 10) 11 rfl
  ⟨h.1 _ rfl, h.2.1 _ rfl, (h1.2.2.1 (by decide)).1, (h1.2.2.1 (by decide)).2, h.2.2.2 _ rfl⟩

/-! ### Malformed stored bytes -/

theorem get_of_ne_nil (s : ModuleContract) (key : Bytes) (h : s.cacheDB key ≠ []) :
    get s key = .ok (s.cacheDB key) := by
  unfold get customGet
  rw [if_neg h]

theorem decode_none {α : Type} (c : Codec α) (b : Bytes) (h : c.dec b = none) :
    c.decode b = .error .decode := by
  unfold Codec.decode
  rw [h]

/-- C24, as the code has it. On a store whose signer record cannot be decoded,
`getSigners` reports the decoding error, whereas `findSigner` answers "not a
signer" and `getSignerSize` answers 0. -/
theorem findSigner_defaults_on_malformed :
    malformedAt sampleEnv.rlpAddressList sampleMalformedContract (signerKey sampleEnv [5]) ∧
      getSigners sampleEnv sampleMalformedContract [5] = .error .decode ∧
      findSigner sampleEnv sampleMalformedContract [5] [1] = false ∧
      getSignerSize sampleEnv sampleMalformedContract [5] = 0 :=
  ⟨⟨List.cons_ne_nil 0 [], rfl⟩, rfl, rfl, rfl⟩

/-- C24, amended. Every reader of the node manager that returns an error
reports one when the bytes stored under its key are not empty and cannot be
decoded, and none of them falls back to its not-found default; `findSigner` and
`getSignerSize`, which have no error result, answer "not a signer" and 0 for
such a signer record, and `storeSigner` on it fails with the decoding error. -/
theorem malformed_bytes_propagate (env : ChainEnv) (s : ModuleContract) :
    (∀ hash, malformedAt env.rlpAddressList s (signerKey env.toEnv hash) →
      getSigners env.toEnv s hash = .error .decode ∧
        (∀ signer, findSigner env.toEnv s hash signer = false) ∧
        getSignerSize env.toEnv s hash = 0 ∧
        (∀ signer, storeSigner env.toEnv s hash signer = .error .decode)) ∧
      (malformedAt env.rlpGlobalConfig s (globalConfigKey env.toEnv) →
        ∀ genesis, (GetGlobalConfigImpl env.toConfigEnv genesis s).1 = .error .wrapped) ∧
      (malformedAt env.rlpTotalPool s (totalPoolKey env.toEnv) →
        getTotalPool env s = .error .wrapped) ∧
      (∀ stakeAddress consensusAddr,
        malformedAt env.rlpStakeInfo s (stakeInfoKey env.toEnv stakeAddress consensusAddr) →
        getStakeInfo env s stakeAddress consensusAddr = .error .wrapped) ∧
      (∀ stakeAddress, malformedAt env.rlpUnlockingInfo s (unlockingInfoKey env.toEnv stakeAddress) →
        getUnlockingInfo env.toEnv s stakeAddress = .error .wrapped) ∧
      (malformedAt env.rlpAllValidators s (allValidatorKey env.toEnv) →
        getAllValidators env.toConfigEnv s = .error .wrapped) ∧
      (malformedAt env.rlpCommunityInfo s (communityInfoKey env.toEnv) →
        GetCommunityInfoImpl env.toEnv s = .error .wrapped) ∧
      (∀ ID, malformedAt env.rlpEpochInfo s (epochInfoKey env.toEnv ID) →
        getEpochInfo env.toConfigEnv s ID = .error .wrapped) ∧
      (∀ consensusAddr,
        malformedAt env.rlpCommission s (accumulatedCommissionKey env.toEnv consensusAddr) →
        getAccumulatedCommission env.toEnv s consensusAddr = .error .wrapped) ∧
      (∀ consensusAddr,
        malformedAt env.rlpAccumulated s (validatorAccumulatedRewardsKey env.toEnv consensusAddr) →
        getValidatorAccumulatedRewards env.toEnv s consensusAddr = .error .wrapped) ∧
      (∀ consensusAddr,
        malformedAt env.rlpOutstanding s (validatorOutstandingRewardsKey env.toEnv consensusAddr) →
        getValidatorOutstandingRewards env.toEnv s consensusAddr = .error .wrapped) ∧
      (∀ consensusAddr period,
        malformedAt env.rlpSnapshot s
          (validatorSnapshotRewardsKey env.toEnv consensusAddr period) →
        getValidatorSnapshotRewards env.toEnv s consensusAddr period = .error .wrapped) := by
  refine ⟨?_, ?_, ?_, ?_, ?_, ?_, ?_, ?_, ?_, ?_, ?_, ?_⟩
  · intro hash h
    have hg : getSigners env.toEnv s hash = .error .decode := by
      unfold getSigners
      rw [get_of_ne_nil _ _ h.1]
      simp only [bind, Except.bind, decode_none _ _ h.2]
    refine ⟨hg, ?_, ?_, ?_⟩
    · intro signer
      unfold findSigner
      rw [hg]
    · unfold getSignerSize
      rw [hg]
    · intro signer
      unfold storeSigner
      rw [hg]
  · intro h genesis
    unfold GetGlobalConfigImpl
    rw [get_of_ne_nil _ _ h.1]
    simp only [h.2]
  · intro h
    unfold getTotalPool
    rw [get_of_ne_nil _ _ h.1]
    simp only [decode_none _ _ h.2, wrapErr]
  · intro a b h
    unfold getStakeInfo
    rw [get_of_ne_nil _ _ h.1]
    simp only [decode_none _ _ h.2, wrapErr]
  · intro a h
    unfold getUnlockingInfo
    rw [get_of_ne_nil _ _ h.1]
    simp only [decode_none _ _ h.2, wrapErr]
  · intro h
    unfold getAllValidators
    rw [get_of_ne_nil _ _ h.1]
    simp only [decode_none _ _ h.2, wrapErr]
  · intro h
    unfold GetCommunityInfoImpl
    rw [get_of_ne_nil _ _ h.1]
    simp only [decode_none _ _ h.2, wrapErr]
  · intro ID h
    unfold getEpochInfo
    rw [get_of_ne_nil _ _ h.1]
    simp only [decode_none _ _ h.2, wrapErr]
  · intro a h
    unfold getAccumulatedCommission
    rw [get_of_ne_nil _ _ h.1]
    simp only [bind, Except.bind, decode_none _ _ h.2, wrapErr]
  · intro a h
    unfold getValidatorAccumulatedRewards
    rw [get_of_ne_nil _ _ h.1]
    simp only [bind, Except.bind, decode_none _ _ h.2, wrapErr]
  · intro a h
    unfold getValidatorOutstandingRewards
    rw [get_of_ne_nil _ _ h.1]
    simp only [bind, Except.bind, decode_none _ _ h.2, wrapErr]
  · intro a p h
    unfold getValidatorSnapshotRewards
    rw [get_of_ne_nil _ _ h.1]
    simp only [bind, Except.bind, decode_none _ _ h.2, wrapErr]

theorem malformed_bytes_propagate_witness :
    (getSigners sampleChainEnv.toEnv sampleMalformedContract [5] = .error .decode ∧
        (∀ signer, findSigner sampleChainEnv.toEnv sampleMalformedContract [5] signer = false) ∧
        getSignerSize sampleChainEnv.toEnv sampleMalformedContract [5] = 0 ∧
        (∀ signer,
          storeSigner sampleChainEnv.toEnv sampleMalformedContract [5] signer = .error .decode)) ∧
      (∀ genesis, (GetGlobalConfigImpl sampleChainEnv.toConfigEnv genesis
        sampleMalformedContract).1 = .error .wrapped) ∧
      getTotalPool sampleChainEnv sampleMalformedContract = .error .wrapped ∧
      getStakeInfo sampleChainEnv sampleMalformedContract [1] [2] = .error .wrapped ∧
      getUnlockingInfo sampleChainEnv.toEnv sampleMalformedContract [1] = .error .wrapped ∧
      getAllValidators sampleChainEnv.toConfigEnv sampleMalformedContract = .error .wrapped ∧
      GetCommunityInfoImpl sampleChainEnv.toEnv sampleMalformedContract = .error .wrapped ∧
      getEpochInfo sampleChainEnv.toConfigEnv sampleMalformedContract 1 = .error .wrapped ∧
      getAccumulatedCommission sampleChainEnv.toEnv sampleMalformedContract [2] =
        .error .wrapped ∧
      getValidatorAccumulatedRewards sampleChainEnv.toEnv sampleMalformedContract [2] =
        .error .wrapped ∧
      getValidatorOutstandingRewards sampleChainEnv.toEnv sampleMalformedContract [2] =
        .error .wrapped ∧
      getValidatorSnapshotRewards sampleChainEnv.toEnv sampleMalformedContract [2] 0 =
        .error .wrapped :=
  have h := malformed_bytes_propagate sampleChainEnv sampleMalformedContract
  ⟨h.1 [5] ⟨List.cons_ne_nil 0 [], rfl⟩,
    h.2.1 ⟨List.cons_ne_nil 0 [], rfl⟩,
    h.2.2.1 ⟨List.cons_ne_nil 0 [], rfl⟩,
    h.2.2.2.1 [1] [2] ⟨List.cons_ne_nil 0 [], rfl⟩,
    h.2.2.2.2.1 [1] ⟨List.cons_ne_nil 0 [], rfl⟩,
    h.2.2.2.2.2.1 ⟨List.cons_ne_nil 0 [], rfl⟩,
    h.2.2.2.2.2.2.1 ⟨List.cons_ne_nil 0 [], rfl⟩,
    h.2.2.2.2.2.2.2.1 1 ⟨List.cons_ne_nil 0 [], rfl⟩,
    h.2.2.2.2.2.2.2.2.1 [2] ⟨List.cons_ne_nil 0 [], rfl⟩,
    h.2.2.2.2.2.2.2.2.2.1 [2] ⟨List.cons_ne_nil 0 [], rfl⟩,
    h.2.2.2.2.2.2.2.2.2.2.1 [2] ⟨List.cons_ne_nil 0 [], rfl⟩,
    h.2.2.2.2.2.2.2.2.2.2.2 [2] 0 ⟨List.cons_ne_nil 0 [], rfl⟩⟩

/-! ### Economic module -/

theorem Uint64_of_lt (h : Int) (h0 : 0 ≤ h) (h1 : h < 2 ^ 64) : (Uint64 h : Int) = h := by
  unfold Uint64
  omega

/-- C23. At the block height `2 ^ 64`, whose low 64 bits are zero, the test
`height.Uint64() > 0` fails and `TotalSupply` returns the genesis supply: not
the genesis supply plus `2 ^ 64` rewards, and less than at the height before,
so the supply is neither given by the formula nor increasing there. -/
theorem TotalSupply_wraps_at_two_pow_64 :
    TotalSupply sampleChainEnv (emptyContract 18446744073709551616) =
        sampleChainEnv.GenesisSupply ∧
      TotalSupply sampleChainEnv (emptyContract 18446744073709551616) ≠
        sampleChainEnv.GenesisSupply + 18446744073709551616 * sampleChainEnv.RewardPerBlock ∧
      TotalSupply sampleChainEnv (emptyContract 18446744073709551616) <
        TotalSupply sampleChainEnv (emptyContract 18446744073709551615) := by
  refine ⟨rfl, ?_, ?_⟩ <;> decide

/-- Below the height `2 ^ 64` the supply is as intended: `TotalSupply` returns
`GenesisSupply + h * RewardPerBlock`, which is the genesis supply at height 0,
and with a positive reward per block it is strictly increasing in `h`. -/
theorem TotalSupply_formula (env : ChainEnv) (s : ModuleContract)
    (h0 : 0 ≤ s.height) (h1 : s.height < 2 ^ 64) :
    TotalSupply env s = env.GenesisSupply + s.height * env.RewardPerBlock ∧
      (s.height = 0 → TotalSupply env s = env.GenesisSupply) ∧
      (∀ s1 : ModuleContract, 0 < env.RewardPerBlock → s.height < s1.height →
        s1.height < 2 ^ 64 → TotalSupply env s < TotalSupply env s1) := by
  have hf : ∀ t : ModuleContract, 0 ≤ t.height → t.height < 2 ^ 64 →
      TotalSupply env t = env.GenesisSupply + t.height * env.RewardPerBlock := by
    intro t t0 t1
    have hu := Uint64_of_lt t.height t0 t1
    unfold TotalSupply
    by_cases hz : Uint64 t.height > 0
    · rw [if_pos hz]
    · rw [if_neg hz]
      have : t.height = 0 := by omega
      rw [this]
      simp
  refine ⟨hf s h0 h1, ?_, ?_⟩
  · intro hz
    rw [hf s h0 h1, hz]
    simp
  · intro s1 hR hlt hs1
    rw [hf s h0 h1, hf s1 (by omega) hs1]
    have := mul_lt_mul_of_pos_right hlt hR
    omega

theorem TotalSupply_formula_witness :
    TotalSupply sampleChainEnv (emptyContract 40) =
        100000000000000000000000000 + 40 * 1000000000000000000 ∧
      (TotalSupply sampleChainEnv (emptyContract 0) = 100000000 * 1000000000000000000) ∧
      TotalSupply sampleChainEnv (emptyContract 40) <
        TotalSupply sampleChainEnv (emptyContract 200000000) :=
  ⟨(TotalSupply_formula sampleChainEnv (emptyContract 40) (by decide) (by decide)).1,
    (TotalSupply_formula sampleChainEnv (emptyContract 0) (by decide) (by decide)).2.1 rfl,
    (TotalSupply_formula sampleChainEnv (emptyContract 40) (by decide) (by decide)).2.2
      (emptyContract 200000000) (by decide) (by decide) (by decide)⟩

/-- C22. At the block height `2 ^ 64`, whose low 64 bits are zero, the test
`height.Uint64() == 0` holds and `Reward` credits nothing, as if the block were
the genesis block, although the height is at least 1 and a community rate is
stored. -/
theorem Reward_skips_at_two_pow_64 :
    1 ≤ (sampleCommunityContract 18446744073709551616).height ∧
      GetCommunityInfoImpl sampleChainEnv.toEnv (sampleCommunityContract 18446744073709551616) =
        .ok (CommunityInfo.mk 2000 [7]) ∧
      Reward sampleChainEnv (sampleCommunityContract 18446744073709551616) =
        .ok (sampleCommunityContract 18446744073709551616) :=
  ⟨by decide, rfl, rfl⟩

/-- Below the height `2 ^ 64` the reward is split as intended.  At every block
height `h` with `1 ≤ h < 2 ^ 64` and for every stored community rate up to
`PercentDecimal`, when the checked product and the checked subtraction do not
overflow, `Reward` succeeds, credits the community address with the share
`RewardPerBlock * rate / PercentDecimal` and the node manager address with
`RewardPerBlock` minus that share, and the two credits add up to
`RewardPerBlock`; at the height 0 it changes nothing. -/
theorem Reward_splits (env : ChainEnv) (s : ModuleContract) (community : CommunityInfo)
    (share rest : Dec) (hh : 1 ≤ s.height) (hh2 : s.height < 2 ^ 64)
    (hc : GetCommunityInfoImpl env.toEnv s = .ok community)
    (hr1 : community.CommunityRate ≤ env.PercentDecimal)
    (hpd : 0 < env.PercentDecimal) (hR : 0 ≤ env.RewardPerBlock)
    (hmul : env.decMulPercent env.RewardPerBlock community.CommunityRate = some share)
    (hsub : env.decSub env.RewardPerBlock share = some rest) :
    (∃ s1, Reward env s = .ok s1 ∧ s1.cacheDB = s.cacheDB ∧
        ∀ a, s1.balance a =
          s.balance a + (if a = community.CommunityAddress then share else 0) +
            (if a = NodeManagerContractAddress then rest else 0)) ∧
      share = env.RewardPerBlock * community.CommunityRate / env.PercentDecimal ∧
      rest = env.RewardPerBlock - share ∧
      share + rest = env.RewardPerBlock ∧
      (∀ s0 : ModuleContract, s0.height = 0 → Reward env s0 = .ok s0) := by
  have hshare := env.decMulPercent_eq _ _ _ hmul
  have hrest := env.decSub_eq _ _ _ hsub
  have hle : share ≤ env.RewardPerBlock := by
    rw [hshare]
    apply Int.ediv_le_of_le_mul hpd
    exact mul_le_mul_of_nonneg_left hr1 hR
  have hu : Uint64 s.height ≠ 0 := by
    have := Uint64_of_lt s.height (by omega) hh2
    omega
  have hsum : share + rest = env.RewardPerBlock := by
    rw [hrest]
    ring
  refine ⟨?_, hshare, hrest, hsum, ?_⟩
  · refine ⟨ModuleContract.mk s.cacheDB
      (AddBalance (AddBalance s.balance community.CommunityAddress share)
        NodeManagerContractAddress rest) s.height s.emptyStored, ?_, rfl, ?_⟩
    · unfold Reward
      rw [if_neg hu, hc]
      simp only [wrapErr, Dec.MulWithPercentDecimal, hmul, Dec.Sub, if_neg (not_lt.mpr hle), hsub]
    · intro a
      show AddBalance (AddBalance s.balance community.CommunityAddress share)
        NodeManagerContractAddress rest a = _
      unfold AddBalance
      by_cases h1 : a = community.CommunityAddress
      · by_cases h2 : a = NodeManagerContractAddress
        · rw [if_pos h2, if_pos h1, if_pos h1, if_pos h2]
        · rw [if_neg h2, if_pos h1, if_pos h1, if_neg h2, add_zero]
      · by_cases h2 : a = NodeManagerContractAddress
        · rw [if_pos h2, if_neg h1, if_neg h1, if_pos h2, add_zero]
        · rw [if_neg h2, if_neg h1, if_neg h1, if_neg h2, add_zero, add_zero]
  · intro s0 hz
    unfold Reward
    rw [hz]
    rfl

theorem Reward_splits_witness :
    (∃ s1, Reward sampleChainEnv (sampleCommunityContract 1) = .ok s1 ∧
        s1.cacheDB = (sampleCommunityContract 1).cacheDB ∧
        ∀ a, s1.balance a =
          (sampleCommunityContract 1).balance a +
            (if a = (CommunityInfo.mk 2000 [7]).CommunityAddress then 200000000000000000
              else 0) +
            (if a = NodeManagerContractAddress then 800000000000000000 else 0)) ∧
      (200000000000000000 : Int) =
        sampleChainEnv.RewardPerBlock * (CommunityInfo.mk 2000 [7]).CommunityRate /
          sampleChainEnv.PercentDecimal ∧
      (800000000000000000 : Int) = sampleChainEnv.RewardPerBlock - 200000000000000000 ∧
      (200000000000000000 : Int) + 800000000000000000 = sampleChainEnv.RewardPerBlock ∧
      (∀ s0 : ModuleContract, s0.height = 0 → Reward sampleChainEnv s0 = .ok s0) :=
  Reward_splits sampleChainEnv (sampleCommunityContract 1) (CommunityInfo.mk 2000 [7])
    200000000000000000 800000000000000000 (by decide) (by decide) rfl (by decide) (by decide)
    (by decide) rfl rfl

/-! ### Info sync -/

theorem rootInfo_ne_currentHeight (x y : List Bytes) :
    ConcatKey InfoSyncContractAddress (ROOT_INFO :: x) ≠
      ConcatKey InfoSyncContractAddress (CURRENT_HEIGHT :: y) :=
  ConcatKey_ne_of_prefix _ _ _ _ _ 0 114 99 rfl rfl (by decide)

theorem rootInfoKey_chain (env : ChainEnv) (c c1 h h1 : Nat) (hc : c < 2 ^ 64) (hc1 : c1 < 2 ^ 64)
    (hk : ConcatKey InfoSyncContractAddress
        [ROOT_INFO, env.GetUint64Bytes c, env.GetUint32Bytes h] =
      ConcatKey InfoSyncContractAddress
        [ROOT_INFO, env.GetUint64Bytes c1, env.GetUint32Bytes h1]) : c = c1 := by
  rw [ConcatKey_three, ConcatKey_three] at hk
  have h2 := List.append_cancel_left (List.append_cancel_left hk)
  have h3 := (List.append_inj h2
    (by rw [env.GetUint64Bytes_length, env.GetUint64Bytes_length])).1
  exact env.GetUint64Bytes_inj c c1 hc hc1 h3

theorem currentHeightKey_chain (env : ChainEnv) (c c1 : Nat) (hc : c < 2 ^ 64) (hc1 : c1 < 2 ^ 64)
    (hk : ConcatKey InfoSyncContractAddress [CURRENT_HEIGHT, env.GetUint64Bytes c] =
      ConcatKey InfoSyncContractAddress [CURRENT_HEIGHT, env.GetUint64Bytes c1]) : c = c1 :=
  env.GetUint64Bytes_inj c c1 hc hc1 (ConcatKey_two_inj _ _ _ _ hk)

/-- The store that `PutRootInfo` leaves: the root info is written, and the
current height too when it is below the new height. -/
theorem PutRootInfo_store (env : ChainEnv) (s : ModuleContract) (chainID height : Nat)
    (info : Bytes) (cur : Nat) (hcur : GetCurrentHeight env s chainID = .ok cur) :
    (PutRootInfo env s chainID height info).2 =
      if cur < height then
        Put (Put s (ConcatKey InfoSyncContractAddress
            [ROOT_INFO, env.GetUint64Bytes chainID, env.GetUint32Bytes height]) info)
          (ConcatKey InfoSyncContractAddress [CURRENT_HEIGHT, env.GetUint64Bytes chainID])
          (env.GetUint32Bytes height)
      else
        Put s (ConcatKey InfoSyncContractAddress
          [ROOT_INFO, env.GetUint64Bytes chainID, env.GetUint32Bytes height]) info := by
  have hne := (rootInfo_ne_currentHeight
    [env.GetUint64Bytes chainID, env.GetUint32Bytes height] [env.GetUint64Bytes chainID]).symm
  have h1 : GetCurrentHeight env (Put s (ConcatKey InfoSyncContractAddress
      [ROOT_INFO, env.GetUint64Bytes chainID, env.GetUint32Bytes height]) info) chainID =
      .ok cur := by
    rw [← hcur]
    unfold GetCurrentHeight
    rw [Get_Put_other _ _ _ _ hne]
  unfold PutRootInfo
  simp only [h1, wrapErr]

/-- C27. Whatever the notification does, the store that
`PutRootInfo chain h info` leaves is such that `GetRootInfo chain h` returns
`info` and `GetCurrentHeight chain` returns the maximum of its previous value
and `h`, which is not below the previous value; the current height and the
root infos of every other chain are as before; and the call succeeds exactly
when the notification is accepted. -/
theorem PutRootInfo_records (env : ChainEnv) (s : ModuleContract) (chainID height : Nat)
    (info : Bytes) (cur : Nat) (hc : chainID < 2 ^ 64) (hh : height < 2 ^ 32)
    (hcur : GetCurrentHeight env s chainID = .ok cur) :
    GetRootInfo env (PutRootInfo env s chainID height info).2 chainID height = .ok info ∧
      GetCurrentHeight env (PutRootInfo env s chainID height info).2 chainID =
        .ok (max cur height) ∧
      cur ≤ max cur height ∧
      (∀ other, other < 2 ^ 64 → other ≠ chainID →
        GetCurrentHeight env (PutRootInfo env s chainID height info).2 other =
            GetCurrentHeight env s other ∧
          ∀ h1, GetRootInfo env (PutRootInfo env s chainID height info).2 other h1 =
            GetRootInfo env s other h1) ∧
      ((PutRootInfo env s chainID height info).1 = .ok () ↔ env.AddNotifyOk = true) := by
  have hst := PutRootInfo_store env s chainID height info cur hcur
  have hne := rootInfo_ne_currentHeight
    [env.GetUint64Bytes chainID, env.GetUint32Bytes height] [env.GetUint64Bytes chainID]
  have hcur1 : env.GetBytesUint32 (sliceBytes (Get s
      (ConcatKey InfoSyncContractAddress [CURRENT_HEIGHT, env.GetUint64Bytes chainID]))) =
      cur := by
    unfold GetCurrentHeight at hcur
    exact Except.ok.inj hcur
  refine ⟨?_, ?_, le_max_left _ _, ?_, ?_⟩
  · unfold GetRootInfo
    rw [hst]
    by_cases hlt : cur < height
    · rw [if_pos hlt, Get_Put_other _ _ _ _ hne, Get_Put_same]
      rfl
    · rw [if_neg hlt, Get_Put_same]
      rfl
  · unfold GetCurrentHeight
    rw [hst]
    by_cases hlt : cur < height
    · rw [if_pos hlt, Get_Put_same, max_eq_right (le_of_lt hlt)]
      simp only [sliceBytes, env.GetBytesUint32_bytes height hh]
    · rw [if_neg hlt, Get_Put_other _ _ _ _ hne.symm, hcur1, max_eq_left (not_lt.mp hlt)]
  · intro other ho hoc
    have hk1 : ConcatKey InfoSyncContractAddress [CURRENT_HEIGHT, env.GetUint64Bytes other] ≠
        ConcatKey InfoSyncContractAddress [CURRENT_HEIGHT, env.GetUint64Bytes chainID] :=
      fun e => hoc (currentHeightKey_chain env other chainID ho hc e)
    have hk2 : ConcatKey InfoSyncContractAddress [CURRENT_HEIGHT, env.GetUint64Bytes other] ≠
        ConcatKey InfoSyncContractAddress
          [ROOT_INFO, env.GetUint64Bytes chainID, env.GetUint32Bytes height] :=
      (rootInfo_ne_currentHeight _ _).symm
    refine ⟨?_, ?_⟩
    · unfold GetCurrentHeight
      rw [hst]
      by_cases hlt : cur < height
      · rw [if_pos hlt, Get_Put_other _ _ _ _ hk1, Get_Put_other _ _ _ _ hk2]
      · rw [if_neg hlt, Get_Put_other _ _ _ _ hk2]
    · intro h1
      have hk3 : ConcatKey InfoSyncContractAddress
          [ROOT_INFO, env.GetUint64Bytes other, env.GetUint32Bytes h1] ≠
          ConcatKey InfoSyncContractAddress
            [ROOT_INFO, env.GetUint64Bytes chainID, env.GetUint32Bytes height] :=
        fun e => hoc (rootInfoKey_chain env other chainID h1 height ho hc e)
      have hk4 : ConcatKey InfoSyncContractAddress
          [ROOT_INFO, env.GetUint64Bytes other, env.GetUint32Bytes h1] ≠
          ConcatKey InfoSyncContractAddress [CURRENT_HEIGHT, env.GetUint64Bytes chainID] :=
        rootInfo_ne_currentHeight _ _
      unfold GetRootInfo
      rw [hst]
      by_cases hlt : cur < height
      · rw [if_pos hlt, Get_Put_other _ _ _ _ hk4, Get_Put_other _ _ _ _ hk3]
      · rw [if_neg hlt, Get_Put_other _ _ _ _ hk3]
  · have hne2 := hne.symm
    have h1 : GetCurrentHeight env (Put s (ConcatKey InfoSyncContractAddress
        [ROOT_INFO, env.GetUint64Bytes chainID, env.GetUint32Bytes height]) info) chainID =
        .ok cur := by
      rw [← hcur]
      unfold GetCurrentHeight
      rw [Get_Put_other _ _ _ _ hne2]
    unfold PutRootInfo
    simp only [h1, wrapErr, NotifyPutRootInfo]
    cases env.AddNotifyOk <;> simp

theorem PutRootInfo_records_witness :
    GetRootInfo sampleChainEnv (PutRootInfo sampleChainEnv (sampleRootContract) 3 5 [1, 2]).2 3 5 =
        .ok [1, 2] ∧
      GetCurrentHeight sampleChainEnv (PutRootInfo sampleChainEnv sampleRootContract 3 5 [1, 2]).2
        3 = .ok (max 9 5) ∧
      9 ≤ max 9 5 ∧
      (∀ other, other < 2 ^ 64 → other ≠ 3 →
        GetCurrentHeight sampleChainEnv
            (PutRootInfo sampleChainEnv sampleRootContract 3 5 [1, 2]).2 other =
            GetCurrentHeight sampleChainEnv sampleRootContract other ∧
          ∀ h1, GetRootInfo sampleChainEnv
              (PutRootInfo sampleChainEnv sampleRootContract 3 5 [1, 2]).2 other h1 =
            GetRootInfo sampleChainEnv sampleRootContract other h1) ∧
      ((PutRootInfo sampleChainEnv sampleRootContract 3 5 [1, 2]).1 = .ok () ↔
        sampleChainEnv.AddNotifyOk = true) :=
  PutRootInfo_records sampleChainEnv sampleRootContract 3 5 [1, 2] 9 (by decide) (by decide) rfl

/-! ### Chain blacklist -/

theorem blackChainKey_inj (env : ChainEnv) (c c1 : Nat) (hc : c < 2 ^ 64) (hc1 : c1 < 2 ^ 64)
    (hk : blackChainKey env c = blackChainKey env c1) : c = c1 :=
  env.GetUint64Bytes_inj c c1 hc hc1 (ConcatKey_two_inj _ _ _ _ hk)

theorem GetUint64Bytes_ne_nil (env : ChainEnv) (c : Nat) : env.GetUint64Bytes c ≠ [] := by
  intro h
  have := env.GetUint64Bytes_length c
  rw [h] at this
  cases this

/-- C26. `PutBlackChain c` succeeds and `CheckIfChainBlacked c` is then true;
`RemoveBlackChain c` succeeds and `CheckIfChainBlacked c` is then false; neither
changes the answer for another chain ID; when the source chain is blacklisted
`ImportOuterTransfer` returns an error whatever the handlers are; and when the
handler returns a deposit whose target chain is blacklisted it returns an error
whatever the transaction makers are. -/
theorem blacklist_gate (env : ChainEnv) (s : ModuleContract) (c : Nat) (hc : c < 2 ^ 64) :
    (∃ s1, PutBlackChain env s c = .ok s1 ∧ CheckIfChainBlacked env s1 c = .ok true ∧
        ∀ other, other < 2 ^ 64 → other ≠ c →
          CheckIfChainBlacked env s1 other = CheckIfChainBlacked env s other) ∧
      (∃ s1, RemoveBlackChain env s c = .ok s1 ∧ CheckIfChainBlacked env s1 c = .ok false ∧
        ∀ other, other < 2 ^ 64 → other ≠ c →
          CheckIfChainBlacked env s1 other = CheckIfChainBlacked env s other) ∧
      (CheckIfChainBlacked env s c = .ok true →
        ∀ h : Handlers, ImportOuterTransfer env h s c = .error .wrapped) ∧
      (∀ (h : Handlers) (srcChain : SideChain) (txParam : MakeTxParam) (s1 : ModuleContract),
        CheckIfChainBlacked env s c = .ok false →
        GetSideChainObject env s c = .ok (some srcChain) →
        h.handler srcChain.Router s = .ok (some txParam, s1) →
        CheckIfChainBlacked env s1 txParam.ToChainID = .ok true →
        ImportOuterTransfer env h s c = .error .wrapped) := by
  refine ⟨⟨_, rfl, ?_, ?_⟩, ⟨_, rfl, ?_, ?_⟩, ?_, ?_⟩
  · unfold CheckIfChainBlacked
    rw [Get_Put_same]
  · intro other ho hne
    have hk : blackChainKey env other ≠ blackChainKey env c :=
      fun e => hne (blackChainKey_inj env other c ho hc e)
    unfold CheckIfChainBlacked
    rw [Get_Put_other _ _ _ _ hk]
  · unfold CheckIfChainBlacked
    rw [Get_Delete_same]
  · intro other ho hne
    have hk : blackChainKey env other ≠ blackChainKey env c :=
      fun e => hne (blackChainKey_inj env other c ho hc e)
    unfold CheckIfChainBlacked
    rw [Get_Delete_other _ _ _ hk]
  · intro hb h
    unfold ImportOuterTransfer
    rw [hb]
    rfl
  · intro h srcChain txParam s1 hb hobj hh hb1
    unfold ImportOuterTransfer
    rw [hb]
    simp only [wrapErr, hobj, hh, hb1, if_true, Bool.false_eq_true, if_false]

theorem blacklist_gate_witness :
    (∃ s1, PutBlackChain sampleChainEnv sampleSideChainContract 4 = .ok s1 ∧
        CheckIfChainBlacked sampleChainEnv s1 4 = .ok true ∧
        ∀ other, other < 2 ^ 64 → other ≠ 4 →
          CheckIfChainBlacked sampleChainEnv s1 other =
            CheckIfChainBlacked sampleChainEnv sampleSideChainContract other) ∧
      (∀ h : Handlers, ImportOuterTransfer sampleChainEnv h sampleBlackedContract 4 =
        .error .wrapped) ∧
      ImportOuterTransfer sampleChainEnv sampleHandlers sampleBlackedContract 3 =
        .error .wrapped ∧
      ImportOuterTransfer sampleChainEnv sampleHandlers sampleSideChainContract 3 =
        .ok sampleSideChainContract :=
  ⟨(blacklist_gate sampleChainEnv sampleSideChainContract 4 (by decide)).1,
    (blacklist_gate sampleChainEnv sampleBlackedContract 4 (by decide)).2.2.1 rfl,
    (blacklist_gate sampleChainEnv sampleBlackedContract 3 (by decide)).2.2.2 sampleHandlers
      (SideChain.mk [] 3 1 [] [] []) (MakeTxParam.mk [1] 4 []) sampleBlackedContract
      rfl rfl rfl rfl,
    rfl⟩

/-! ### Deposit proposals without proof -/

/-- The quorum check writes under the signer key of its digest only. -/
theorem CheckConsensusSigns_Get (env : Env) (s s1 : ModuleContract) (roster : List Address)
    (quorum : Nat) (hash : Hash) (signer : Address) (r : Bool)
    (h : CheckConsensusSigns env s roster quorum hash signer = .ok (r, s1)) (k : Bytes)
    (hk : k ≠ signerKey env hash) : Get s1 k = Get s k := by
  unfold CheckConsensusSigns at h
  by_cases h1 : roster.contains signer = false
  · rw [if_pos h1] at h
    cases h
  · rw [if_neg h1] at h
    by_cases h2 : findSigner env s hash signer = true
    · rw [if_pos h2] at h
      simp only [Except.ok.injEq, Prod.mk.injEq] at h
      rw [← h.2]
    · rw [if_neg h2] at h
      cases hst : storeSigner env s hash signer with
      | error e => rw [hst] at h; cases e <;> cases h
      | ok s2 =>
        rw [hst] at h
        simp only [wrapErr] at h
        obtain ⟨l, b, _, _, _, hset⟩ := storeSigner_ok env s s2 hash signer hst
        have e2 : Get s2 k = Get s k := by
          simp only [set, Except.ok.injEq] at hset
          rw [← hset]
          exact Get_Put_other s _ b k hk
        by_cases h3 : quorum ≤ getSignerSize env s2 hash
        · rw [if_pos h3] at h
          cases hcl : clearSigner env s2 hash with
          | error e => rw [hcl] at h; cases e <;> cases h
          | ok s3 =>
            rw [hcl] at h
            simp only [Except.ok.injEq, Prod.mk.injEq] at h
            rw [← h.2, ← e2]
            unfold clearSigner at hcl
            simp only [del, Except.ok.injEq] at hcl
            rw [← hcl]
            exact Get_Delete_other s2 _ k hk
        · rw [if_neg h3] at h
          simp only [Except.ok.injEq, Prod.mk.injEq] at h
          rw [← h.2, e2]

/-- Keys of two contracts whose addresses differ at some byte are different. -/
theorem ConcatKey_ne_of_contract (p q : Address) (x y : List Bytes)
    (hsep : ∃ (i v w : Nat), p[i]? = some v ∧ q[i]? = some w ∧ v ≠ w) :
    ConcatKey p x ≠ ConcatKey q y := by
  obtain ⟨i, v, w, hv, hw, hne⟩ := hsep
  intro h
  unfold ConcatKey at h
  have h1 : (p ++ List.foldl (fun acc a => acc ++ a) [] x)[i]? = some v := by
    obtain ⟨hi, _⟩ := List.getElem?_eq_some.mp hv
    rw [List.getElem?_append_left hi]
    exact hv
  have h2 : (q ++ List.foldl (fun acc a => acc ++ a) [] y)[i]? = some w := by
    obtain ⟨hi, _⟩ := List.getElem?_eq_some.mp hw
    rw [List.getElem?_append_left hi]
    exact hw
  rw [h, h2] at h1
  exact hne (Option.some.inj h1).symm

theorem doneTxKey_ne_signerKey (env : ChainEnv)
    (hsep : ∃ (i v w : Nat), env.this[i]? = some v ∧ CrossChainManagerContractAddress[i]? = some w ∧
      v ≠ w) (chainID : Nat) (crossChainID : Bytes) (hash : Hash) :
    doneTxKey env chainID crossChainID ≠ signerKey env.toEnv hash := by
  obtain ⟨i, v, w, hv, hw, hne⟩ := hsep
  exact ConcatKey_ne_of_contract _ _ _ _ ⟨i, w, v, hw, hv, fun e => hne e.symm⟩

/-- What a returning call of `MakeDepositProposal` has done. -/
theorem MakeDepositProposal_cases (env : ChainEnv) (s s2 : ModuleContract) (call : DepositCall)
    (r : Option MakeTxParam) (h : MakeDepositProposal env s call = .ok (r, s2)) :
    ∃ digest addr ok s1, call.digest = some digest ∧ call.addr = some addr ∧
      CheckConsensusSigns env.toEnv s call.roster call.quorum digest addr = .ok (ok, s1) ∧
      ((ok = false ∧ r = none ∧ s2 = s1) ∨
        (ok = true ∧ ∃ p, call.makeTxParam = some p ∧ r = some p ∧
          Get s1 (doneTxKey env call.SourceChainID p.CrossChainID) = none ∧
          s2 = Put s1 (doneTxKey env call.SourceChainID p.CrossChainID) p.CrossChainID)) := by
  unfold MakeDepositProposal at h
  cases hd : call.digest with
  | none => rw [hd] at h; cases h
  | some digest =>
    cases ha : call.addr with
    | none => rw [hd, ha] at h; cases h
    | some addr =>
      rw [hd, ha] at h
      simp only at h
      cases hc : CheckConsensusSigns env.toEnv s call.roster call.quorum digest addr with
      | error e => rw [hc] at h; cases e <;> cases h
      | ok res =>
        obtain ⟨ok, s1⟩ := res
        rw [hc] at h
        simp only [wrapErr] at h
        refine ⟨digest, addr, ok, s1, rfl, rfl, hc, ?_⟩
        cases ok with
        | false =>
          simp only [Bool.false_eq_true, if_false, Except.ok.injEq, Prod.mk.injEq] at h
          exact Or.inl ⟨rfl, h.1.symm, h.2.symm⟩
        | true =>
          simp only [if_true] at h
          cases hp : call.makeTxParam with
          | none => rw [hp] at h; cases h
          | some p =>
            rw [hp] at h
            simp only at h
            cases hg : Get s1 (doneTxKey env call.SourceChainID p.CrossChainID) with
            | none =>
              simp only [CheckDoneTx, hg, PutDoneTx, Except.ok.injEq, Prod.mk.injEq] at h
              exact Or.inr ⟨rfl, p, rfl, h.1.symm, hg, h.2.symm⟩
            | some v =>
              simp only [CheckDoneTx, hg] at h
              cases h

/-- A done mark survives every returning call of `MakeDepositProposal`. -/
theorem MakeDepositProposal_done_kept (env : ChainEnv)
    (hsep : ∃ (i v w : Nat), env.this[i]? = some v ∧
      CrossChainManagerContractAddress[i]? = some w ∧ v ≠ w)
    (s s2 : ModuleContract) (call : DepositCall) (r : Option MakeTxParam)
    (h : MakeDepositProposal env s call = .ok (r, s2)) (chainID : Nat) (crossChainID : Bytes)
    (hm : Get s (doneTxKey env chainID crossChainID) ≠ none) :
    Get s2 (doneTxKey env chainID crossChainID) ≠ none := by
  obtain ⟨digest, addr, ok, s1, _, _, hc, hcase⟩ := MakeDepositProposal_cases env s s2 call r h
  have h1 : Get s1 (doneTxKey env chainID crossChainID) =
      Get s (doneTxKey env chainID crossChainID) :=
    CheckConsensusSigns_Get env.toEnv s s1 _ _ _ _ ok hc _
      (doneTxKey_ne_signerKey env hsep chainID crossChainID digest)
  rcases hcase with ⟨_, _, hs⟩ | ⟨_, p, _, _, hg, hs⟩
  · rw [hs, h1]
    exact hm
  · rw [hs]
    by_cases hk : doneTxKey env chainID crossChainID =
        doneTxKey env call.SourceChainID p.CrossChainID
    · rw [← hk, h1] at hg
      exact absurd hg hm
    · rw [Get_Put_other _ _ _ _ hk, h1]
      exact hm

/-- A call that returns a parameter has found its pair not marked done. -/
theorem MakeDepositProposal_marked (env : ChainEnv)
    (hsep : ∃ (i v w : Nat), env.this[i]? = some v ∧
      CrossChainManagerContractAddress[i]? = some w ∧ v ≠ w)
    (s s2 : ModuleContract) (call : DepositCall) (p : MakeTxParam)
    (h : MakeDepositProposal env s call = .ok (some p, s2)) :
    Get s (doneTxKey env call.SourceChainID p.CrossChainID) = none := by
  obtain ⟨digest, addr, ok, s1, _, _, hc, hcase⟩ :=
    MakeDepositProposal_cases env s s2 call (some p) h
  rcases hcase with ⟨_, hr, _⟩ | ⟨_, p1, _, hr, hg, _⟩
  · cases hr
  · have hp : p = p1 := Option.some.inj hr
    subst hp
    rw [← CheckConsensusSigns_Get env.toEnv s s1 _ _ _ _ ok hc _
      (doneTxKey_ne_signerKey env hsep call.SourceChainID p.CrossChainID digest)]
    exact hg

theorem runDepositCalls_marked (env : ChainEnv)
    (hsep : ∃ (i v w : Nat), env.this[i]? = some v ∧
      CrossChainManagerContractAddress[i]? = some w ∧ v ≠ w)
    (chainID : Nat) (crossChainID : Bytes) :
    ∀ (calls : List DepositCall) (s : ModuleContract),
      Get s (doneTxKey env chainID crossChainID) ≠ none →
      ((resultsFor chainID calls (runDepositCalls env s calls)).filter
        (returnsParam crossChainID)).length = 0 := by
  intro calls
  induction calls with
  | nil => intro s _; rfl
  | cons call rest ih =>
    intro s hm
    unfold runDepositCalls
    cases hr : MakeDepositProposal env s call with
    | error e =>
      simp only [resultsFor]
      by_cases hc : call.SourceChainID = chainID
      · rw [if_pos hc, List.filter_cons]
        simp only [returnsParam, Bool.false_eq_true, if_false]
        exact ih s hm
      · rw [if_neg hc]
        exact ih s hm
    | ok res =>
      obtain ⟨r, s2⟩ := res
      have hm2 := MakeDepositProposal_done_kept env hsep s s2 call r hr chainID crossChainID hm
      simp only [resultsFor]
      by_cases hc : call.SourceChainID = chainID
      · rw [if_pos hc, List.filter_cons]
        have hnot : returnsParam crossChainID (.ok r) = false := by
          cases r with
          | none => rfl
          | some p =>
            have hg := MakeDepositProposal_marked env hsep s s2 call p hr
            have hne : p.CrossChainID ≠ crossChainID := by
              intro e
              rw [hc, e] at hg
              exact hm hg
            simp only [returnsParam, decide_eq_false_iff_not]
            exact hne
        rw [hnot]
        simp only [Bool.false_eq_true, if_false]
        exact ih s2 hm2
      · rw [if_neg hc]
        exact ih s2 hm2

theorem runDepositCalls_once (env : ChainEnv)
    (hsep : ∃ (i v w : Nat), env.this[i]? = some v ∧
      CrossChainManagerContractAddress[i]? = some w ∧ v ≠ w)
    (chainID : Nat) (crossChainID : Bytes) :
    ∀ (calls : List DepositCall) (s : ModuleContract),
      ((resultsFor chainID calls (runDepositCalls env s calls)).filter
        (returnsParam crossChainID)).length ≤ 1 := by
  intro calls
  induction calls with
  | nil => intro s; exact Nat.zero_le _
  | cons call rest ih =>
    intro s
    unfold runDepositCalls
    cases hr : MakeDepositProposal env s call with
    | error e =>
      simp only [resultsFor]
      by_cases hc : call.SourceChainID = chainID
      · rw [if_pos hc, List.filter_cons]
        simp only [returnsParam, Bool.false_eq_true, if_false]
        exact ih s
      · rw [if_neg hc]
        exact ih s
    | ok res =>
      obtain ⟨r, s2⟩ := res
      simp only [resultsFor]
      by_cases hc : call.SourceChainID = chainID
      · rw [if_pos hc, List.filter_cons]
        by_cases hret : returnsParam crossChainID (.ok r) = true
        · rw [if_pos hret, List.length_cons]
          cases r with
          | none => cases hret
          | some p =>
            have hp : p.CrossChainID = crossChainID := by
              simpa [returnsParam] using hret
            obtain ⟨digest, addr, ok, s1, _, _, _, hcase⟩ :=
              MakeDepositProposal_cases env s s2 call (some p) hr
            have hm2 : Get s2 (doneTxKey env chainID crossChainID) ≠ none := by
              rcases hcase with ⟨_, hr1, _⟩ | ⟨_, p1, _, hr1, _, hs⟩
              · cases hr1
              · have hpp : p = p1 := Option.some.inj hr1
                subst hpp
                rw [hs, hc, hp, Get_Put_same]
                exact Option.some_ne_none _
            rw [runDepositCalls_marked env hsep chainID crossChainID rest s2 hm2]
        · rw [if_neg hret]
          exact ih s2
      · rw [if_neg hc]
        exact ih s2

/-- C25. With the contract address of the node manager different from that of
the cross chain manager at some byte: `MakeDepositProposal` returns a
transaction parameter only on a call whose quorum check reports authorized and
whose pair (source chain, cross-chain ID) is not marked done, and the store it
leaves has the pair marked; an authorized call for a pair that is marked done
fails; a call whose quorum check reports not yet authorized returns no
parameter and no error; and in every sequence of calls, each run on the store
that the last returning call left, at most one call returns a parameter for a
given pair. -/
theorem MakeDepositProposal_once (env : ChainEnv)
    (hsep : ∃ (i v w : Nat), env.this[i]? = some v ∧
      CrossChainManagerContractAddress[i]? = some w ∧ v ≠ w) :
    (∀ (s s2 : ModuleContract) (call : DepositCall) (p : MakeTxParam),
        MakeDepositProposal env s call = .ok (some p, s2) →
        call.makeTxParam = some p ∧
          (∃ digest addr s1, call.digest = some digest ∧ call.addr = some addr ∧
            CheckConsensusSigns env.toEnv s call.roster call.quorum digest addr =
              .ok (true, s1)) ∧
          CheckDoneTx env s p.CrossChainID call.SourceChainID = .ok () ∧
          CheckDoneTx env s2 p.CrossChainID call.SourceChainID = .error .wrapped) ∧
      (∀ (s s1 : ModuleContract) (call : DepositCall) (p : MakeTxParam) (digest : Hash)
          (addr : Address),
        call.digest = some digest → call.addr = some addr → call.makeTxParam = some p →
        CheckConsensusSigns env.toEnv s call.roster call.quorum digest addr = .ok (true, s1) →
        CheckDoneTx env s p.CrossChainID call.SourceChainID = .error .wrapped →
        MakeDepositProposal env s call = .error .wrapped) ∧
      (∀ (s s1 : ModuleContract) (call : DepositCall) (digest : Hash) (addr : Address),
        call.digest = some digest → call.addr = some addr →
        CheckConsensusSigns env.toEnv s call.roster call.quorum digest addr = .ok (false, s1) →
        MakeDepositProposal env s call = .ok (none, s1)) ∧
      (∀ (s : ModuleContract) (calls : List DepositCall) (chainID : Nat) (crossChainID : Bytes),
        ((resultsFor chainID calls (runDepositCalls env s calls)).filter
          (returnsParam crossChainID)).length ≤ 1) := by
  refine ⟨?_, ?_, ?_, ?_⟩
  · intro s s2 call p h
    have hg := MakeDepositProposal_marked env hsep s s2 call p h
    obtain ⟨digest, addr, ok, s1, hd, ha, hc, hcase⟩ :=
      MakeDepositProposal_cases env s s2 call (some p) h
    rcases hcase with ⟨_, hr1, _⟩ | ⟨hok, p1, hp, hr1, _, hs⟩
    · cases hr1
    · have hpp : p = p1 := Option.some.inj hr1
      subst hpp
      subst hok
      refine ⟨hp, ⟨digest, addr, s1, hd, ha, hc⟩, ?_, ?_⟩
      · unfold CheckDoneTx
        rw [hg]
      · unfold CheckDoneTx
        rw [hs, Get_Put_same]
  · intro s s1 call p digest addr hd ha hp hc hdone
    have hm : Get s (doneTxKey env call.SourceChainID p.CrossChainID) ≠ none := by
      intro e
      unfold CheckDoneTx at hdone
      rw [e] at hdone
      cases hdone
    have h1 : Get s1 (doneTxKey env call.SourceChainID p.CrossChainID) ≠ none := by
      rw [CheckConsensusSigns_Get env.toEnv s s1 _ _ _ _ true hc _
        (doneTxKey_ne_signerKey env hsep _ _ digest)]
      exact hm
    obtain ⟨v, hv⟩ := Option.ne_none_iff_exists'.mp h1
    unfold MakeDepositProposal
    rw [hd, ha]
    simp only [hc, wrapErr, if_true, hp, CheckDoneTx, hv]
  · intro s s1 call digest addr hd ha hc
    unfold MakeDepositProposal
    rw [hd, ha]
    simp only [hc, wrapErr, Bool.false_eq_true, if_false]
  · intro s calls chainID crossChainID
    exact runDepositCalls_once env hsep chainID crossChainID calls s

theorem MakeDepositProposal_once_witness :
    runDepositCalls sampleChainEnv (emptyContract 0) sampleDepositCalls =
        [.ok none, .ok (some (MakeTxParam.mk [1] 4 [])), .ok none, .error .wrapped] ∧
      runDepositCalls sampleChainEnv (emptyContract 0) sampleEmptyDepositCalls =
        [.ok none, .ok (some (MakeTxParam.mk [] 4 [])), .ok none, .error .wrapped] ∧
      ((resultsFor 3 sampleDepositCalls
        (runDepositCalls sampleChainEnv (emptyContract 0) sampleDepositCalls)).filter
          (returnsParam [1])).length ≤ 1 ∧
      ((resultsFor 3 sampleEmptyDepositCalls
        (runDepositCalls sampleChainEnv (emptyContract 0) sampleEmptyDepositCalls)).filter
          (returnsParam [])).length ≤ 1 :=
  ⟨rfl, rfl,
    (MakeDepositProposal_once sampleChainEnv ⟨0, 9, 0, rfl, rfl, by decide⟩).2.2.2
      (emptyContract 0) sampleDepositCalls 3 [1],
    (MakeDepositProposal_once sampleChainEnv ⟨0, 9, 0, rfl, rfl, by decide⟩).2.2.2
      (emptyContract 0) sampleEmptyDepositCalls 3 []⟩

end Zion
